import Mathlib

/-! # Tecplot loader (`include/loader_tecplot.hpp`): embedding and verified properties

The loader reads a text file line by line.  Every line is matched against three
regular expressions in a fixed order (zone header, integer row, float row) and
the first match decides how the line is handled; a line matching none is skipped.

This development embeds the loader at the level of *classified* lines:

* a zone header carries its title and the natural numbers denoted by the digit
  strings of its `N=` and `E=` fields;
* an integer row carries the natural numbers denoted by its (non-empty) tokens;
* a float row carries its (non-empty) tokens, each represented by what
  `std::stod` makes of it.

Machine arithmetic: `int` is 32 bits wide, `size_t` and `unsigned long long`
are 64 bits wide.  Memory exhaustion is not modelled, and `reserve` calls (which
change no contents) are left out.
-/

namespace Tecplot

/-! ## Values and errors -/

/-- A double precision value.  The loader only stores and copies doubles, it never
computes with them, so a double is kept as its 64-bit pattern. -/
structure Dbl where
  bits : Nat
deriving DecidableEq, Repr

/-- A token of a float row, represented by the outcome of `std::stod` on its text:
`some d` when the text denotes the double `d`, `none` when `std::stod` reports
that the text is out of the range of a double. -/
abbrev FloatTok := Option Dbl

/-- Everything `TecplotFileLoader::read` can throw. -/
inductive Error
  /-- Thrown as `std::runtime_error("Parsing subsequent zone, but no. of vertices/elements is not set.")` -/
  | subsequent_zone_not_set
  /-- Thrown as `std::runtime_error("Unexpected number of vertices in zone.")` -/
  | unexpected_number_of_vertices
  /-- Thrown as `std::runtime_error("Unexpected number of elements in zone.")` -/
  | unexpected_number_of_elements
  /-- Thrown as `std::runtime_error("Too many integers for zone.")` -/
  | too_many_integers
  /-- Thrown as `std::runtime_error("Integers should only be found in the first zone.")` -/
  | integers_outside_first_zone
  /-- Thrown as `std::runtime_error("Too many doubles for zone.")` -/
  | too_many_doubles
  /-- Exception `std::bad_optional_access`, thrown by `std::optional::value()` on an empty optional. -/
  | bad_optional_access
  /-- Exception `std::out_of_range`, thrown by `std::stoi`, `std::stoull` and `std::stod`. -/
  | out_of_range
  /-- A `std::vector` indexed at or beyond its size (undefined behaviour in C++). -/
  | index_out_of_bounds
  | XCountException
  | YCountException
  | ZCountException
  | TetraIdxCountException
  | TetraSubmeshIdxCountException
  | MxZoneCountException
  | MyZoneCountException
  | MzZoneCountException
  | MxComponentCountException
  | MyComponentCountException
  | MzComponentCountException
deriving DecidableEq, Repr

/-- Function `std::stoi` on a string of decimal digits denoting `n`: the value when it fits
a 32-bit `int`, `std::out_of_range` otherwise. -/
def stoi (n : Nat) : Except Error Nat :=
  if n < 2 ^ 31 then .ok n else .error .out_of_range

/-- Function `std::stoull` on a string of decimal digits denoting `k`: the value when it fits
64 bits, `std::out_of_range` otherwise. -/
def stoull (k : Nat) : Except Error Nat :=
  if k < 2 ^ 64 then .ok k else .error .out_of_range

/-- Function `std::stod` on a float token. -/
def stod (t : FloatTok) : Except Error Dbl :=
  match t with
  | some d => .ok d
  | none => .error .out_of_range

/-- Method `std::optional::value()`. -/
def value {α : Type} (o : Option α) : Except Error α :=
  match o with
  | some a => .ok a
  | none => .error .bad_optional_access

/-- Indexing `v[i]` on a `std::vector`. -/
def at_index {α : Type} (v : List α) (i : Nat) : Except Error α :=
  match v[i]? with
  | some a => .ok a
  | none => .error .index_out_of_bounds

/-- Subtraction of one on `unsigned long long` (wraps at zero). -/
def sub_one_u64 (k : Nat) : Nat := (k + 2 ^ 64 - 1) % 2 ^ 64

/-! ## The output model (`aliases.hpp`, `mesh.hpp`, `field.hpp`, `model.hpp`) -/

/-- Aliases `vert` and `fv`: `std::array<double, 3>`. -/
abbrev Vec3 := Dbl × Dbl × Dbl

/-- Alias `tet`: `std::array<size_t, 4>`. -/
abbrev Tet := Nat × Nat × Nat × Nat

/-- Class `Mesh`. -/
structure Mesh where
  vcl : List Vec3
  til : List Tet
  sml : List Nat
deriving DecidableEq, Repr

/-- Class `Field`. -/
structure Field where
  annotation : String
  vectors : List Vec3
deriving DecidableEq, Repr

/-- Class `FieldList`. -/
structure FieldList where
  fields : List Field
deriving DecidableEq, Repr

/-- Method `FieldList::add_field`. -/
def FieldList.add_field (fl : FieldList) (f : Field) : FieldList :=
  { fields := fl.fields ++ [f] }

/-- Method `FieldList::n_fields`. -/
def FieldList.n_fields (fl : FieldList) : Nat := fl.fields.length

/-- Class `Model`. -/
structure Model where
  mesh : Mesh
  field_list : FieldList
deriving DecidableEq, Repr

/-! ## The accumulator (`class TecplotData`) -/

/-- Class `TecplotData`; `_processing_time` (wall-clock) is left out. -/
structure TecplotData where
  n_verts : Option Nat
  n_elems : Option Nat
  n_zones : Option Nat
  current_field_idx : Option Nat
  x : List Dbl
  y : List Dbl
  z : List Dbl
  tetra_submesh_idxs : List Nat
  tetra_idxs : List Nat
  mx : List (List Dbl)
  my : List (List Dbl)
  mz : List (List Dbl)
  zone_titles : List String
deriving DecidableEq, Repr

/-- Constructor `TecplotData() = default`. -/
def TecplotData.empty : TecplotData :=
  { n_verts := none, n_elems := none, n_zones := none, current_field_idx := none,
    x := [], y := [], z := [], tetra_submesh_idxs := [], tetra_idxs := [],
    mx := [], my := [], mz := [], zone_titles := [] }

namespace TecplotData

/-- Method `x_is_full`. -/
def x_is_full (c : TecplotData) : Except Error Bool := do
  let nv ← value c.n_verts
  pure (decide (c.x.length ≥ nv))

/-- Method `y_is_full`. -/
def y_is_full (c : TecplotData) : Except Error Bool := do
  let nv ← value c.n_verts
  pure (decide (c.y.length ≥ nv))

/-- Method `z_is_full`. -/
def z_is_full (c : TecplotData) : Except Error Bool := do
  let nv ← value c.n_verts
  pure (decide (c.z.length ≥ nv))

/-- Method `current_mx_is_full`. -/
def current_mx_is_full (c : TecplotData) : Except Error Bool := do
  let k ← value c.current_field_idx
  let a ← at_index c.mx k
  let nv ← value c.n_verts
  pure (decide (a.length ≥ nv))

/-- Method `current_my_is_full`. -/
def current_my_is_full (c : TecplotData) : Except Error Bool := do
  let k ← value c.current_field_idx
  let a ← at_index c.my k
  let nv ← value c.n_verts
  pure (decide (a.length ≥ nv))

/-- Method `current_mz_is_full`. -/
def current_mz_is_full (c : TecplotData) : Except Error Bool := do
  let k ← value c.current_field_idx
  let a ← at_index c.mz k
  let nv ← value c.n_verts
  pure (decide (a.length ≥ nv))

/-- Method `tetra_submesh_idx_is_full`. -/
def tetra_submesh_idx_is_full (c : TecplotData) : Except Error Bool := do
  let ne ← value c.n_elems
  pure (decide (c.tetra_submesh_idxs.length ≥ ne))

/-- Method `tetra_idx_is_full`; the product is taken on `size_t`. -/
def tetra_idx_is_full (c : TecplotData) : Except Error Bool := do
  let ne ← value c.n_elems
  pure (decide (c.tetra_idxs.length ≥ (ne * 4) % 2 ^ 64))

/-- The body of the loop of `validate_object` for snapshot `i`. -/
def validate_zone (c : TecplotData) (i : Nat) : Except Error Unit := do
  if (← at_index c.mx i).length != (← value c.n_verts) then throw Error.MxComponentCountException
  if (← at_index c.my i).length != (← value c.n_verts) then throw Error.MyComponentCountException
  if (← at_index c.mz i).length != (← value c.n_verts) then throw Error.MzComponentCountException

/-- Method `validate_object`. -/
def validate_object (c : TecplotData) : Except Error Unit := do
  if (← value c.n_verts) != c.x.length then throw Error.XCountException
  if (← value c.n_verts) != c.y.length then throw Error.YCountException
  if (← value c.n_verts) != c.z.length then throw Error.ZCountException
  if (4 * (← value c.n_elems)) % 2 ^ 64 != c.tetra_idxs.length then
    throw Error.TetraIdxCountException
  if (← value c.n_elems) != c.tetra_submesh_idxs.length then
    throw Error.TetraSubmeshIdxCountException
  if (← value c.n_zones) != c.mx.length then throw Error.MxZoneCountException
  if (← value c.n_zones) != c.my.length then throw Error.MyZoneCountException
  if (← value c.n_zones) != c.mz.length then throw Error.MzZoneCountException
  match c.n_zones with
  | some nz => (List.range nz).forM (validate_zone c)
  | none => pure ()

/-- Method `finish_object`. -/
def finish_object (c : TecplotData) : Except Error TecplotData := do
  let c := { c with n_zones := some c.zone_titles.length }
  validate_object c
  pure c

/-- Method `get_verts`. -/
def get_verts (c : TecplotData) : Except Error (List Vec3) := do
  let nv ← value c.n_verts
  (List.range nv).mapM (fun i => do
    pure (← at_index c.x i, ← at_index c.y i, ← at_index c.z i))

/-- Method `get_elements`.  The index `4*i + k` cannot wrap: `i` is below the size of the vector
allocated for the result, whose elements are 32 bytes wide. -/
def get_elements (c : TecplotData) : Except Error (List Tet) := do
  let ne ← value c.n_elems
  (List.range ne).mapM (fun i => do
    pure (← at_index c.tetra_idxs (4 * i + 0), ← at_index c.tetra_idxs (4 * i + 1),
          ← at_index c.tetra_idxs (4 * i + 2), ← at_index c.tetra_idxs (4 * i + 3)))

/-- Method `get_submesh_idxs`. -/
def get_submesh_idxs (c : TecplotData) : Except Error (List Nat) := do
  let ne ← value c.n_elems
  (List.range ne).mapM (fun i => at_index c.tetra_submesh_idxs i)

/-- The body of the outer loop of `get_fields`: the field of snapshot `zone_idx`. -/
def get_field (c : TecplotData) (zone_idx : Nat) : Except Error Field := do
  let nv ← value c.n_verts
  let field ← (List.range nv).mapM (fun i => do
    pure (← at_index (← at_index c.mx zone_idx) i, ← at_index (← at_index c.my zone_idx) i,
          ← at_index (← at_index c.mz zone_idx) i))
  pure { annotation := "", vectors := field }

/-- Method `get_fields`. -/
def get_fields (c : TecplotData) : Except Error FieldList := do
  let nz ← value c.n_zones
  let fields ← (List.range nz).mapM (get_field c)
  pure (fields.foldl FieldList.add_field { fields := [] })

end TecplotData

/-! ## Classified lines -/

/-- One line of the input, as classified by the cascade of `std::regex_match` calls in
`TecplotFileLoader::read`.  A numeric row has at least one token (both row patterns
require one); the tokens listed are the non-empty pieces that `regex_split` returns. -/
inductive Line
  /-- A line matching the zone pattern: the title, and the numbers denoted by the digit
  strings captured for `N=` and `E=`. -/
  | zone (title : String) (n : Nat) (e : Nat)
  /-- A line matching the integer-row pattern (and not the zone pattern): the numbers
  denoted by its tokens. -/
  | intRow (first : Nat) (rest : List Nat)
  /-- A line matching the float-row pattern (and neither of the patterns above). -/
  | floatRow (first : FloatTok) (rest : List FloatTok)
  /-- A line matching none of the three patterns. -/
  | other
deriving DecidableEq, Repr

/-! ## The reader (`TecplotFileLoader::read`) -/

/-- The local state of `TecplotFileLoader::read` across the line loop: the accumulator
`curves` and `zone_counter`.  The counter is a `size_t`; it counts header lines, so it
cannot wrap on any input that fits a file. -/
structure ReaderState where
  curves : TecplotData
  zone_counter : Nat
deriving DecidableEq, Repr

/-- The state at the start of `read`. -/
def ReaderState.initial : ReaderState :=
  { curves := TecplotData.empty, zone_counter := 0 }

/-- The branch of `read` for a line matching the zone pattern. -/
def process_zone (s : ReaderState) (title : String) (n e : Nat) : Except Error ReaderState := do
  let zone_counter := s.zone_counter + 1
  let mut curves := s.curves
  if zone_counter == 1 then
    -- this is the first zone.
    curves := { curves with n_verts := some (← stoi n) }
    curves := { curves with n_elems := some (← stoi e) }
    curves := { curves with current_field_idx := some 0 }
    curves := { curves with mx := curves.mx ++ [[]] }
    curves := { curves with my := curves.my ++ [[]] }
    curves := { curves with mz := curves.mz ++ [[]] }
  else
    -- This is not the first zone.
    if curves.n_verts.isNone && curves.n_elems.isNone then
      throw Error.subsequent_zone_not_set
    else
      if (← value curves.n_verts) != (← stoi n) then
        throw Error.unexpected_number_of_vertices
      if (← value curves.n_elems) != (← stoi e) then
        throw Error.unexpected_number_of_elements
    curves := { curves with current_field_idx := some ((← value curves.current_field_idx) + 1) }
    curves := { curves with mx := curves.mx ++ [[]] }
    curves := { curves with my := curves.my ++ [[]] }
    curves := { curves with mz := curves.mz ++ [[]] }
    -- the three `reserve` calls index the component arrays at the current field index
    let _ ← at_index curves.mx (← value curves.current_field_idx)
    let _ ← at_index curves.my (← value curves.current_field_idx)
    let _ ← at_index curves.mz (← value curves.current_field_idx)
  curves := { curves with zone_titles := curves.zone_titles ++ [title] }
  pure { curves := curves, zone_counter := zone_counter }

/-- The body of the token loop of an integer row in the first zone. -/
def route_int (curves : TecplotData) (k : Nat) : Except Error TecplotData := do
  if !(← curves.tetra_submesh_idx_is_full) then
    pure { curves with tetra_submesh_idxs := curves.tetra_submesh_idxs ++ [← stoull k] }
  else if !(← curves.tetra_idx_is_full) then
    pure { curves with tetra_idxs := curves.tetra_idxs ++ [sub_one_u64 (← stoull k)] }
  else
    throw Error.too_many_integers

/-- The branch of `read` for a line matching the integer-row pattern. -/
def process_int_row (s : ReaderState) (toks : List Nat) : Except Error ReaderState := do
  if s.zone_counter == 1 then
    let curves ← toks.foldlM route_int s.curves
    pure { s with curves := curves }
  else
    -- This is not the first zone.
    throw Error.integers_outside_first_zone

/-- Appends `d` to `_mx[_current_field_idx.value()]`. -/
def push_current_mx (curves : TecplotData) (d : Dbl) : Except Error TecplotData := do
  let k ← value curves.current_field_idx
  let a ← at_index curves.mx k
  pure { curves with mx := curves.mx.set k (a ++ [d]) }

/-- Appends `d` to `_my[_current_field_idx.value()]`. -/
def push_current_my (curves : TecplotData) (d : Dbl) : Except Error TecplotData := do
  let k ← value curves.current_field_idx
  let a ← at_index curves.my k
  pure { curves with my := curves.my.set k (a ++ [d]) }

/-- Appends `d` to `_mz[_current_field_idx.value()]`. -/
def push_current_mz (curves : TecplotData) (d : Dbl) : Except Error TecplotData := do
  let k ← value curves.current_field_idx
  let a ← at_index curves.mz k
  pure { curves with mz := curves.mz.set k (a ++ [d]) }

/-- The body of the token loop of a float row in a zone that is not the first
(`zone_counter != 1`). -/
def route_float_later (curves : TecplotData) (t : FloatTok) : Except Error TecplotData := do
  if !(← curves.current_mx_is_full) then
    push_current_mx curves (← stod t)
  else if !(← curves.current_my_is_full) then
    push_current_my curves (← stod t)
  else if !(← curves.current_mz_is_full) then
    push_current_mz curves (← stod t)
  else
    throw Error.too_many_doubles

/-- The body of the token loop of a float row in the first zone (`zone_counter == 1`). -/
def route_float_first (curves : TecplotData) (t : FloatTok) : Except Error TecplotData := do
  if !(← curves.x_is_full) then
    pure { curves with x := curves.x ++ [← stod t] }
  else if !(← curves.y_is_full) then
    pure { curves with y := curves.y ++ [← stod t] }
  else if !(← curves.z_is_full) then
    pure { curves with z := curves.z ++ [← stod t] }
  else if !(← curves.current_mx_is_full) then
    push_current_mx curves (← stod t)
  else if !(← curves.current_my_is_full) then
    push_current_my curves (← stod t)
  else if !(← curves.current_mz_is_full) then
    push_current_mz curves (← stod t)
  else
    throw Error.too_many_doubles

/-- The branch of `read` for a line matching the float-row pattern. -/
def process_float_row (s : ReaderState) (toks : List FloatTok) : Except Error ReaderState := do
  if s.zone_counter == 1 then
    let curves ← toks.foldlM route_float_first s.curves
    pure { s with curves := curves }
  else
    let curves ← toks.foldlM route_float_later s.curves
    pure { s with curves := curves }

/-- One iteration of the line loop of `read`. -/
def process_line (s : ReaderState) (l : Line) : Except Error ReaderState :=
  match l with
  | .zone title n e => process_zone s title n e
  | .intRow first rest => process_int_row s (first :: rest)
  | .floatRow first rest => process_float_row s (first :: rest)
  | .other => pure s

/-- The line loop of `read`. -/
def process_lines (s : ReaderState) (lines : List Line) : Except Error ReaderState :=
  lines.foldlM process_line s

/-- What `read` does after the line loop: `finish_object`, then the four projections
in the order of the braced initialiser. -/
def finish (curves : TecplotData) : Except Error Model := do
  let curves ← curves.finish_object
  let verts ← curves.get_verts
  let elements ← curves.get_elements
  let submesh_idxs ← curves.get_submesh_idxs
  let fields ← curves.get_fields
  pure { mesh := { vcl := verts, til := elements, sml := submesh_idxs }, field_list := fields }

/-- The function `TecplotFileLoader::read` on the classified lines of the file. -/
def read (lines : List Line) : Except Error Model := do
  let s ← process_lines ReaderState.initial lines
  finish s.curves

/-! ## Functions of the input used to state the properties -/

/-- Whether a line is a zone header. -/
def Line.isZone : Line → Bool
  | .zone _ _ _ => true
  | _ => false

/-- Whether a line is not a zone header. -/
def Line.notZone (l : Line) : Bool := !l.isZone

/-- The header fields of a zone header line. -/
def Line.header? : Line → Option (String × Nat × Nat)
  | .zone t n e => some (t, n, e)
  | _ => none

/-- The integer tokens of a line: those of an integer row, none for any other line. -/
def Line.intTokens : Line → List Nat
  | .intRow a as => a :: as
  | _ => []

/-- The float tokens of a line: those of a float row, none for any other line. -/
def Line.floatTokens : Line → List FloatTok
  | .floatRow a as => a :: as
  | _ => []

/-- The zone headers of the input, in reading order. -/
def headers (lines : List Line) : List (String × Nat × Nat) :=
  lines.filterMap Line.header?

/-- The lines before the first zone header. -/
def preamble (lines : List Line) : List Line :=
  lines.takeWhile Line.notZone

/-- For every zone header of the input, in reading order, the lines between it and the
next zone header (or the end of the input). -/
def zoneBodies : List Line → List (List Line)
  | [] => []
  | l :: ls => if l.isZone then ls.takeWhile Line.notZone :: zoneBodies ls else zoneBodies ls

/-- All integer tokens of a run of lines, in reading order. -/
def intTokensOf (body : List Line) : List Nat :=
  (body.map Line.intTokens).flatten

/-- All float tokens of a run of lines, in reading order. -/
def floatTokensOf (body : List Line) : List FloatTok :=
  (body.map Line.floatTokens).flatten

/-- The integer tokens of the integer rows of the first zone. -/
def firstZoneInts (lines : List Line) : List Nat :=
  intTokensOf ((zoneBodies lines).headD [])

/-- The float tokens of the float rows of zone `k` (zone 0 is the first zone). -/
def zoneFloats (lines : List Line) (k : Nat) : List FloatTok :=
  floatTokensOf ((zoneBodies lines).getD k [])

/-! ## Auxiliary definitions for the proofs -/

/-- Block `j` of width `V` of a list: entries `j*V, ..., j*V + V - 1`. -/
def slice {α : Type} (j V : Nat) (f : List α) : List α :=
  (f.drop (j * V)).take V

/-- The sequential history of a run of the line loop after at least one zone header:
the counts fixed by the first header, the titles of the headers read, the integer tokens
routed so far, the float values routed in each completed zone and in the current zone. -/
structure History where
  V : Nat
  E : Nat
  titles : List String
  ints : List Nat
  done : List (List Dbl)
  cur : List Dbl
deriving DecidableEq, Repr

namespace History

/-- Component arrays `j` (0 for mx, 1 for my, 2 for mz) of a list of completed zones: the
first zone holds its three coordinate blocks before its component blocks. -/
def comp (j V : Nat) : List (List Dbl) → List (List Dbl)
  | [] => []
  | f :: later => slice (j + 3) V f :: later.map (slice j V)

/-- The number of blocks that precede the component blocks in the current zone. -/
def offset (h : History) : Nat := if h.done = [] then 3 else 0

/-- The float values of the first zone. -/
def firstZone (h : History) : List Dbl := (h.done ++ [h.cur]).headD []

/-- The accumulator that a history stands for. -/
def curves (h : History) : TecplotData :=
  { n_verts := some h.V, n_elems := some h.E, n_zones := none,
    current_field_idx := some h.done.length,
    x := slice 0 h.V h.firstZone, y := slice 1 h.V h.firstZone, z := slice 2 h.V h.firstZone,
    tetra_submesh_idxs := h.ints.take h.E,
    tetra_idxs := (h.ints.drop h.E).map sub_one_u64,
    mx := comp 0 h.V h.done ++ [slice (h.offset + 0) h.V h.cur],
    my := comp 1 h.V h.done ++ [slice (h.offset + 1) h.V h.cur],
    mz := comp 2 h.V h.done ++ [slice (h.offset + 2) h.V h.cur],
    zone_titles := h.titles }

/-- The reader state that a history stands for. -/
def state (h : History) : ReaderState :=
  { curves := h.curves, zone_counter := h.done.length + 1 }

/-- The number of float tokens the current zone can take. -/
def capacity (h : History) : Nat := (h.offset + 3) * h.V

/-- The history after a line, when the line raises no error. -/
def step (h : History) : Line → Option History
  | .zone t n e =>
    if n = h.V ∧ e = h.E then
      some { h with titles := h.titles ++ [t], done := h.done ++ [h.cur], cur := [] }
    else none
  | .intRow a as =>
    if h.done = [] ∧ h.ints.length + (a :: as).length ≤ 5 * h.E ∧ (∀ k ∈ a :: as, k < 2 ^ 64) then
      some { h with ints := h.ints ++ a :: as }
    else none
  | .floatRow a as =>
    if h.cur.length + (a :: as).length ≤ h.capacity ∧ (∀ t ∈ a :: as, t ≠ none) then
      some { h with cur := h.cur ++ (a :: as).reduceOption }
    else none
  | .other => some h

/-- The history after the first zone header. -/
def start (t : String) (n e : Nat) : History :=
  { V := n, E := e, titles := [t], ints := [], done := [], cur := [] }

/-- The invariants of a history. -/
def wf (h : History) : Prop :=
  h.V < 2 ^ 31 ∧ h.E < 2 ^ 31 ∧ h.titles.length = h.done.length + 1 ∧
  h.ints.length ≤ 5 * h.E ∧ h.cur.length ≤ h.capacity ∧
  (∀ k f, h.done[k]? = some f → f.length ≤ (if k = 0 then 6 else 3) * h.V) ∧
  ∀ k ∈ h.ints, k < 2 ^ 64

/-- The history after a run of lines, when no line raises an error. -/
def run (h : History) (lines : List Line) : Option History :=
  lines.foldlM History.step h

/-- The float values of all zones, the current one last. -/
def zones (h : History) : List (List Dbl) := h.done ++ [h.cur]

end History

/-! ## Concrete inputs -/

/-- The double with bit pattern `n`, as a float token within range. -/
def tok (n : Nat) : FloatTok := some { bits := n }

/-- The scenario of the specification: the header `ZONE T="f1", N=4, E=1`, the integer
row `1 1 2 3 4` and four float rows of six tokens. -/
def example_single_zone : List Line :=
  [ .zone "f1" 4 1,
    .intRow 1 [1, 2, 3, 4],
    .floatRow (tok 10) [tok 11, tok 12, tok 13, tok 20, tok 21],
    .floatRow (tok 22) [tok 23, tok 30, tok 31, tok 32, tok 33],
    .floatRow (tok 40) [tok 41, tok 42, tok 43, tok 50, tok 51],
    .floatRow (tok 52) [tok 53, tok 60, tok 61, tok 62, tok 63] ]

/-- The model that `read` returns on `example_single_zone`. -/
def example_single_zone_model : Model :=
  { mesh :=
      { vcl := [(⟨10⟩, ⟨20⟩, ⟨30⟩), (⟨11⟩, ⟨21⟩, ⟨31⟩), (⟨12⟩, ⟨22⟩, ⟨32⟩), (⟨13⟩, ⟨23⟩, ⟨33⟩)],
        til := [(0, 1, 2, 3)],
        sml := [1] },
    field_list :=
      { fields :=
          [ { annotation := "",
              vectors := [(⟨40⟩, ⟨50⟩, ⟨60⟩), (⟨41⟩, ⟨51⟩, ⟨61⟩), (⟨42⟩, ⟨52⟩, ⟨62⟩),
                (⟨43⟩, ⟨53⟩, ⟨63⟩)] } ] } }

/-- Two zones over a mesh of two vertices and no element, with an unrecognised line. -/
def example_two_zones : List Line :=
  [ .other,
    .zone "a" 2 0,
    .floatRow (tok 1) [tok 2, tok 3, tok 4, tok 5, tok 6, tok 7, tok 8],
    .floatRow (tok 9) [tok 10, tok 11, tok 12],
    .zone "b" 2 0,
    .other,
    .floatRow (tok 21) [tok 22, tok 23, tok 24, tok 25, tok 26] ]

/-- The model that `read` returns on `example_two_zones`. -/
def example_two_zones_model : Model :=
  { mesh := { vcl := [(⟨1⟩, ⟨3⟩, ⟨5⟩), (⟨2⟩, ⟨4⟩, ⟨6⟩)], til := [], sml := [] },
    field_list :=
      { fields :=
          [ { annotation := "", vectors := [(⟨7⟩, ⟨9⟩, ⟨11⟩), (⟨8⟩, ⟨10⟩, ⟨12⟩)] },
            { annotation := "", vectors := [(⟨21⟩, ⟨23⟩, ⟨25⟩), (⟨22⟩, ⟨24⟩, ⟨26⟩)] } ] } }

/-! ## The checks of finalisation, as the specification lists them -/

/-- The checks on snapshot `i`, in order, each with the error raised when it is violated:
its mx, my and mz arrays hold `V` entries. -/
def zone_checks (c : TecplotData) (V : Nat) (i : Nat) : List (Bool × Error) :=
  [ (decide ((c.mx.getD i []).length = V), Error.MxComponentCountException),
    (decide ((c.my.getD i []).length = V), Error.MyComponentCountException),
    (decide ((c.mz.getD i []).length = V), Error.MzComponentCountException) ]

/-- The checks of finalisation in their fixed order, each with the error raised when it is
violated: x, y and z hold `V` entries, the connectivity array holds `4E`, the region-tag
array holds `E`, mx, my and mz hold as many snapshots as zone headers were read, then the
checks on every snapshot in index order. -/
def final_checks (c : TecplotData) (V E : Nat) : List (Bool × Error) :=
  [ (decide (c.x.length = V), Error.XCountException),
    (decide (c.y.length = V), Error.YCountException),
    (decide (c.z.length = V), Error.ZCountException),
    (decide (c.tetra_idxs.length = 4 * E), Error.TetraIdxCountException),
    (decide (c.tetra_submesh_idxs.length = E), Error.TetraSubmeshIdxCountException),
    (decide (c.mx.length = c.zone_titles.length), Error.MxZoneCountException),
    (decide (c.my.length = c.zone_titles.length), Error.MyZoneCountException),
    (decide (c.mz.length = c.zone_titles.length), Error.MzZoneCountException) ] ++
  ((List.range c.zone_titles.length).map (zone_checks c V)).flatten

/-- The error of the first violated check of a list of checks, if any. -/
def first_violated : List (Bool × Error) → Option Error
  | [] => none
  | (ok, e) :: rest => if ok then first_violated rest else some e

/-! ## Well-formed input -/

/-- Well-formed input for counts `V` and `E`: both counts fit an `int`; there is a zone
header and every zone header declares `N=V` and `E=E`; no numeric row precedes the first
header; the integer rows of the first zone carry `5E` tokens and its float rows `6V`
tokens in total; every later zone has no integer row and its float rows carry `3V`
tokens in total.  Unrecognised lines may occur anywhere. -/
def wellFormed (V E : Nat) (lines : List Line) : Prop :=
  V < 2 ^ 31 ∧ E < 2 ^ 31 ∧ headers lines ≠ [] ∧ (∀ x ∈ headers lines, x.2 = (V, E)) ∧
  (∀ l ∈ preamble lines, l = Line.other) ∧
  (firstZoneInts lines).length = 5 * E ∧ (zoneFloats lines 0).length = 6 * V ∧
  (∀ b ∈ (zoneBodies lines).tail, intTokensOf b = [] ∧ (floatTokensOf b).length = 3 * V)

/-- Every numeric token is within the range of its conversion: every integer token is
below `2^64` (`std::stoull`) and every float token is within the range of a double
(`std::stod`). -/
def tokensInRange (lines : List Line) : Prop :=
  (∀ l ∈ lines, ∀ k ∈ l.intTokens, k < 2 ^ 64) ∧ (∀ l ∈ lines, ∀ t ∈ l.floatTokens, t ≠ none)

/-- A well-formed input with an integer token that does not fit 64 bits: the header
`N=0, E=1` and one integer row of five tokens, the first being `2^64`. -/
def example_wide_integer : List Line :=
  [ .zone "a" 0 1, .intRow (2 ^ 64) [1, 1, 1, 1] ]

/-- A well-formed input with a float token out of the range of a double (such as
`1e999`): the header `N=1, E=0` and one float row of six tokens, the first out of range. -/
def example_wide_float : List Line :=
  [ .zone "a" 1 0, .floatRow none [tok 1, tok 2, tok 3, tok 4, tok 5] ]

/-! ## Error kinds of the specification -/

/-- The errors that the specification calls `ZoneCountMismatch`: a later zone header whose
vertex count or element count differs from the first one. -/
def Error.isZoneCountMismatch : Error → Bool
  | .unexpected_number_of_vertices => true
  | .unexpected_number_of_elements => true
  | _ => false

/-- Two zone headers; the second declares a vertex count that does not fit an `int`. -/
def example_wide_header : List Line :=
  [ .zone "a" 0 0, .zone "b" (2 ^ 31) 0 ]

/-- Two zone headers declaring the same counts. -/
def example_two_headers : List Line :=
  [ .zone "a" 0 0, .zone "b" 0 0 ]

/-- An accumulator with no vertex expected, `2^62` elements expected and every array
empty. -/
def example_wrapped_count : TecplotData :=
  { TecplotData.empty with n_verts := some 0, n_elems := some (2 ^ 62) }

/-- An accumulator with one vertex expected, no element expected and every array empty. -/
def example_short_x : TecplotData :=
  { TecplotData.empty with n_verts := some 1, n_elems := some 0 }

/-- One zone header declaring no vertex and one element. -/
def example_first_zone : List Line := [ .zone "a" 0 1 ]

/-- One zone header declaring one vertex and no element. -/
def example_first_zone_vertex : List Line := [ .zone "a" 1 0 ]

/-- The first zone complete and a second zone header, over one vertex and no element. -/
def example_second_zone : List Line :=
  [ .zone "a" 1 0, .floatRow (tok 1) [tok 2, tok 3, tok 4, tok 5, tok 6], .zone "b" 1 0 ]

/-- The reader state after `example_first_zone`. -/
def example_first_zone_state : ReaderState :=
  { curves :=
      { n_verts := some 0, n_elems := some 1, n_zones := none, current_field_idx := some 0,
        x := [], y := [], z := [], tetra_submesh_idxs := [], tetra_idxs := [],
        mx := [[]], my := [[]], mz := [[]], zone_titles := ["a"] },
    zone_counter := 1 }

/-- The reader state after `example_first_zone_vertex`. -/
def example_first_zone_vertex_state : ReaderState :=
  { curves :=
      { n_verts := some 1, n_elems := some 0, n_zones := none, current_field_idx := some 0,
        x := [], y := [], z := [], tetra_submesh_idxs := [], tetra_idxs := [],
        mx := [[]], my := [[]], mz := [[]], zone_titles := ["a"] },
    zone_counter := 1 }

/-- The reader state after `example_second_zone`. -/
def example_second_zone_state : ReaderState :=
  { curves :=
      { n_verts := some 1, n_elems := some 0, n_zones := none, current_field_idx := some 1,
        x := [⟨1⟩], y := [⟨2⟩], z := [⟨3⟩], tetra_submesh_idxs := [], tetra_idxs := [],
        mx := [[⟨4⟩], []], my := [[⟨5⟩], []], mz := [[⟨6⟩], []], zone_titles := ["a", "b"] },
    zone_counter := 2 }

/-! ## The patterns of the loader and the classification of a line of text -/

/-- A regular expression over characters.  `std::regex_match` succeeds when the whole
line is in the language of the pattern, so the anchors `^` and `$` of the patterns are
left out. -/
abbrev Regex := RegularExpression Char

namespace Regex

/-- A character class: any one of the listed characters. -/
def any_of (cs : List Char) : Regex :=
  cs.foldr (fun c r => RegularExpression.char c + r) 0

/-- A literal string. -/
def lit (cs : List Char) : Regex :=
  cs.foldr (fun c r => RegularExpression.char c * r) 1

/-- The quantifier `?`. -/
def opt (r : Regex) : Regex := 1 + r

/-- The quantifier `+`. -/
def many1 (r : Regex) : Regex := r * RegularExpression.star r

/-- The quantifier `*`. -/
def many (r : Regex) : Regex := RegularExpression.star r

end Regex

/-- The characters matched by `\s` (the `space` class of the default locale): space, tab,
line feed, vertical tab, form feed, carriage return. -/
def space_chars : List Char :=
  [Char.ofNat 32, Char.ofNat 9, Char.ofNat 10, Char.ofNat 11, Char.ofNat 12, Char.ofNat 13]

/-- The characters matched by `[0-9]`. -/
def digit_chars : List Char := "0123456789".toList

/-- The double quote character. -/
def quote_char : Char := Char.ofNat 34

/-- The characters matched by the class of the title, `[A-Za-z0-9=\-.,;\s]`. -/
def title_chars : List Char :=
  "ABCDEFGHIJKLMNOPQRSTUVWXYZ".toList ++ "abcdefghijklmnopqrstuvwxyz".toList ++ digit_chars ++
    "=-.,;".toList ++ space_chars

/-- The pattern `\s`. -/
def rx_space : Regex := Regex.any_of space_chars

/-- The pattern `[0-9]+`. -/
def rx_digits : Regex := Regex.many1 (Regex.any_of digit_chars)

/-- The part `\s*ZONE\s*T\s*=\s*` of the zone pattern, before the opening quote. -/
def rx_zone_lead : Regex :=
  Regex.many rx_space * Regex.lit "ZONE".toList * Regex.many rx_space *
    RegularExpression.char 'T' * Regex.many rx_space * RegularExpression.char '=' *
    Regex.many rx_space

/-- The group `([A-Za-z0-9=\-.,;\s]+)?` of the zone pattern. -/
def rx_zone_title : Regex := Regex.opt (Regex.many1 (Regex.any_of title_chars))

/-- The part `\s*,?\s*` of the zone pattern. -/
def rx_zone_sep : Regex :=
  Regex.many rx_space * Regex.opt (RegularExpression.char ',') * Regex.many rx_space

/-- The part `\s*,?\s*N\s*=\s*` of the zone pattern. -/
def rx_zone_n_lead : Regex :=
  rx_zone_sep * RegularExpression.char 'N' * Regex.many rx_space *
    RegularExpression.char '=' * Regex.many rx_space

/-- The part `\s*,?\s*E\s*=\s*` of the zone pattern. -/
def rx_zone_e_lead : Regex :=
  rx_zone_sep * RegularExpression.char 'E' * Regex.many rx_space *
    RegularExpression.char '=' * Regex.many rx_space

/-- The pattern of `new_regex_zone`:
`^\s*ZONE\s*T\s*=\s*"([A-Za-z0-9=\-.,;\s]+)?"\s*,?\s*N\s*=\s*([0-9]+)\s*,?\s*E\s*=\s*([0-9]+)\s*$`. -/
def new_regex_zone : Regex :=
  rx_zone_lead * RegularExpression.char quote_char * rx_zone_title *
    RegularExpression.char quote_char * rx_zone_n_lead * rx_digits * rx_zone_e_lead *
    rx_digits * Regex.many rx_space

/-- The pattern of `new_regex_int_line`: `^\s*([0-9]+)(\s+[0-9]+)*\s*$`. -/
def new_regex_int_line : Regex :=
  Regex.many rx_space * rx_digits * Regex.many (Regex.many1 rx_space * rx_digits) *
    Regex.many rx_space

/-- The pattern `[-+]?[0-9]*\.?[0-9]+([eE][-+]?[0-9]+)?` of one number of a float row. -/
def rx_float : Regex :=
  Regex.opt (Regex.any_of ['-', '+']) * Regex.many (Regex.any_of digit_chars) *
    Regex.opt (RegularExpression.char '.') * rx_digits *
    Regex.opt (Regex.any_of ['e', 'E'] * Regex.opt (Regex.any_of ['-', '+']) * rx_digits)

/-- The pattern of `new_regex_float_line`:
`^\s*(F)(\s+(F))*\s*$` with `F` the pattern of one number. -/
def new_regex_float_line : Regex :=
  Regex.many rx_space * rx_float * Regex.many (Regex.many1 rx_space * rx_float) *
    Regex.many rx_space

/-- The function `std::regex_match(line, pattern)`: whether the whole line matches. -/
def regex_match (line : List Char) (pattern : Regex) : Bool :=
  pattern.rmatch line

/-- The loop of `sregex_token_iterator` with submatch `-1` over the separator `\s+`:
`cur` is the piece being read (reversed), `in_sep` tells that the last character read was
part of a separator. -/
def regex_split_loop (cur : List Char) (in_sep : Bool) : List Char → List (List Char)
  | [] => if in_sep then [] else [cur.reverse]
  | c :: cs =>
    if c ∈ space_chars then
      if in_sep then regex_split_loop [] true cs
      else cur.reverse :: regex_split_loop [] true cs
    else regex_split_loop (c :: cur) false cs

/-- The function `regex_split` of `utilities.hpp` with its default separator `\s+`: the
pieces of the line between maximal runs of whitespace.  A line that starts with whitespace
yields an empty first piece; trailing whitespace yields no piece. -/
def regex_split (s : List Char) : List (List Char) :=
  regex_split_loop [] false s

/-- The pieces of a row that the token loops route: those with `!str_value.empty()`. -/
def row_tokens (line : List Char) : List (List Char) :=
  (regex_split line).filter (fun t => !t.isEmpty)

/-- The natural number denoted by a string of decimal digits. -/
def digits_value (cs : List Char) : Nat :=
  cs.foldl (fun acc c => 10 * acc + (c.toNat - 48)) 0

/-- The text after the first occurrence of a character. -/
def after_char (c : Char) (s : List Char) : List Char :=
  (s.dropWhile (fun x => x != c)).drop 1

/-- The first maximal run of digits of a text. -/
def first_digits (s : List Char) : List Char :=
  (s.dropWhile (fun x => decide (x ∉ digit_chars))).takeWhile (fun x => decide (x ∈ digit_chars))

/-- The text after the first maximal run of digits of a text. -/
def after_first_digits (s : List Char) : List Char :=
  (s.dropWhile (fun x => decide (x ∉ digit_chars))).dropWhile (fun x => decide (x ∈ digit_chars))

/-- Group 1 of a match of the zone pattern (`match_zone[1]`): the title, which is the
text between the first two double quotes of the line. -/
def zone_title (line : List Char) : List Char :=
  (after_char quote_char line).takeWhile (fun x => x != quote_char)

/-- Group 2 of a match of the zone pattern (`match_zone[2]`): the digits of `N=`, which
are the first run of digits after the closing quote. -/
def zone_n_digits (line : List Char) : List Char :=
  first_digits (after_char quote_char (after_char quote_char line))

/-- Group 3 of a match of the zone pattern (`match_zone[3]`): the digits of `E=`, which
are the second run of digits after the closing quote. -/
def zone_e_digits (line : List Char) : List Char :=
  first_digits (after_first_digits (after_char quote_char (after_char quote_char line)))

/-- The classification of one line of text by the cascade of `std::regex_match` calls of
`TecplotFileLoader::read`: zone pattern first, then integer row, then float row.
`stod_text` is `std::stod` on the text of a float token. -/
def classify (stod_text : List Char → FloatTok) (line : List Char) : Line :=
  if regex_match line new_regex_zone then
    Line.zone (String.mk (zone_title line)) (digits_value (zone_n_digits line))
      (digits_value (zone_e_digits line))
  else if regex_match line new_regex_int_line then
    match row_tokens line with
    | a :: as => Line.intRow (digits_value a) (as.map digits_value)
    | [] => Line.other
  else if regex_match line new_regex_float_line then
    match row_tokens line with
    | a :: as => Line.floatRow (stod_text a) (as.map stod_text)
    | [] => Line.other
  else Line.other

/-- The function `TecplotFileLoader::read` on the lines of text of the file. -/
def read_file (stod_text : List Char → FloatTok) (lines : List (List Char)) :
    Except Error Model :=
  read (lines.map (classify stod_text))

/-- The zone pattern with the two count fields in the other order, `E=` before `N=`. -/
def regex_zone_e_first : Regex :=
  rx_zone_lead * RegularExpression.char quote_char * rx_zone_title *
    RegularExpression.char quote_char * rx_zone_e_lead * rx_digits * rx_zone_n_lead *
    rx_digits * Regex.many rx_space

/-- The line `ZONE T="f1", N=4, E=1`. -/
def example_header_n_first : List Char :=
  "ZONE T=".toList ++ [quote_char] ++ "f1".toList ++ [quote_char] ++ ", N=4, E=1".toList

/-- The line `ZONE T="f1", E=1, N=4`. -/
def example_header_e_first : List Char :=
  "ZONE T=".toList ++ [quote_char] ++ "f1".toList ++ [quote_char] ++ ", E=1, N=4".toList

/-! ## Auxiliary definitions for the proofs about patterns -/

/-- The characters that occur in a pattern. -/
def Regex.chars : Regex → List Char
  | .zero => []
  | .epsilon => []
  | .char a => [a]
  | .plus P Q => Regex.chars P ++ Regex.chars Q
  | .comp P Q => Regex.chars P ++ Regex.chars Q
  | .star P => Regex.chars P

/-- A sufficient test for: every word of the pattern contains a character satisfying `p`. -/
def Regex.forces (p : Char → Bool) : Regex → Bool
  | .zero => true
  | .epsilon => false
  | .char a => p a
  | .plus P Q => Regex.forces p P && Regex.forces p Q
  | .comp P Q => Regex.forces p P || Regex.forces p Q
  | .star _ => false

/-! ## The writers -/

/-- The text that `operator<<` and `std::to_string` give for a `size_t`: its decimal
digits. -/
def to_string (n : Nat) : String := toString n

/-- A node of a `rapidxml` document: the declaration, or an element with its name, its
value, its attributes in the order they were appended, and its child nodes in the order
they were appended. -/
inductive XmlNode
  | declaration (attributes : List (String × String))
  | element (name : String) (value : String) (attributes : List (String × String))
      (children : List XmlNode)

namespace XmlNode

/-- The child nodes of a node. -/
def children : XmlNode → List XmlNode
  | declaration _ => []
  | element _ _ _ cs => cs

/-- Whether a node is an element of the given name. -/
def is_named (n : String) : XmlNode → Bool
  | declaration _ => false
  | element name _ _ _ => name == n

/-- The child elements of the given name. -/
def children_named (n : String) (x : XmlNode) : List XmlNode :=
  x.children.filter (is_named n)

end XmlNode

namespace XDMFFileWriter

/-- A `DataItem` element as the writer builds them all. -/
def data_item (value dtype dims : String) : XmlNode :=
  .element "DataItem" value
    [("Format", "HDF"), ("DataType", dtype), ("Precision", "8"), ("Dimensions", dims)] []

/-- The body of the loop of `XDMFFileWriter::write` over the fields: the `Grid` element
appended to the temporal collection when the counter is `time_index`.  The body reads the
counter and the mesh sizes, not the field. -/
def field_grid (hdf5_file_name : String) (model : Model) (time_index : Nat) : XmlNode :=
  let dim_no_of_elems := to_string model.mesh.til.length
  let dim_no_of_verts_x3 := to_string model.mesh.vcl.length ++ " 3"
  let dim_no_of_elems_x4 := to_string model.mesh.til.length ++ " 4"
  let mesh_elements := hdf5_file_name ++ ":/mesh/elements"
  let mesh_vertices := hdf5_file_name ++ ":/mesh/vertices"
  let mesh_submesh := hdf5_file_name ++ ":/mesh/submesh"
  let topology : XmlNode :=
    .element "Topology" ""
      [("TopologyType", "Tetrahedron"), ("NumberOfElements", dim_no_of_elems),
        ("NodesPerElement", "4")]
      [data_item mesh_elements "Int" dim_no_of_elems_x4]
  let geometry : XmlNode :=
    .element "Geometry" "" [("GeometryType", "XYZ")]
      [data_item mesh_vertices "Float" dim_no_of_verts_x3]
  let attribute_sid : XmlNode :=
    .element "Attribute" "" [("Name", "sid"), ("AttributeType", "Scalar"), ("Center", "Cell")]
      [data_item mesh_submesh "Int" dim_no_of_elems]
  let time : XmlNode := .element "Time" "" [("Value", to_string time_index)] []
  let attribute_field : XmlNode :=
    .element "Attribute" "" [("Name", "m"), ("AttributeType", "Vector"), ("Center", "Node")]
      [data_item (hdf5_file_name ++ ":/fields/field" ++ to_string time_index ++ "/vectors")
        "Float" dim_no_of_verts_x3]
  .element "Grid" "" [("Name", "m"), ("GridType", "Uniform")]
    [topology, geometry, attribute_sid, time, attribute_field]

/-- The loop of `XDMFFileWriter::write` over the fields of the model, from the counter
`time_index` on: the `Grid` elements it appends to the temporal collection, in order. -/
def write_loop (hdf5_file_name : String) (model : Model) : Nat → List Field → List XmlNode
  | _, [] => []
  | time_index, _ :: rest =>
    field_grid hdf5_file_name model time_index ::
      write_loop hdf5_file_name model (time_index + 1) rest

/-- The function `XDMFFileWriter::write`: the nodes of the document that is printed to the
file. -/
def write (hdf5_file_name : String) (model : Model) : List XmlNode :=
  let mesh_grid : XmlNode :=
    .element "Grid" "" [("GridType", "Collection"), ("CollectionType", "Temporal")]
      (write_loop hdf5_file_name model 0 model.field_list.fields)
  let domain : XmlNode := .element "Domain" "" [] [mesh_grid]
  let xdmf : XmlNode := .element "Xdmf" "" [("Version", "3.0")] [domain]
  [.declaration [("version", "1.0")], xdmf]

/-- The temporal grid entries of a document: the child nodes of the elements at
`/Xdmf/Domain/Grid`. -/
def temporal_grids (doc : List XmlNode) : List XmlNode :=
  (((doc.filter (XmlNode.is_named "Xdmf")).flatMap (XmlNode.children_named "Domain")).flatMap
    (XmlNode.children_named "Grid")).flatMap XmlNode.children

end XDMFFileWriter

/-- The element types of the datasets that the writer creates. -/
inductive H5Type
  | NATIVE_DOUBLE
  | NATIVE_UINT64
deriving DecidableEq, Repr

/-- The buffers handed to `DataSet::write`. -/
inductive H5Data
  | vertices (vs : List Vec3)
  | elements (ts : List Tet)
  | indices (ns : List Nat)
deriving DecidableEq, Repr

/-- The calls that `MicromagFileWriter` makes on the HDF5 file, which is created empty
(`H5F_ACC_TRUNC`).  Failures of the HDF5 library are outside this model. -/
inductive H5Op
  | createGroup (path : String)
  | createAttribute (group : String) (name : String)
  | createDataSet (path : String) (type : H5Type) (dims : List Nat)
  | write (path : String) (data : H5Data)
deriving DecidableEq, Repr

/-- The path of the dataset that a call creates, if it creates one. -/
def H5Op.dataset_path : H5Op → Option String
  | .createDataSet path _ _ => some path
  | _ => none

/-- The paths of the datasets created by a sequence of calls, in order of creation. -/
def created_datasets (ops : List H5Op) : List String :=
  ops.filterMap H5Op.dataset_path

namespace MicromagFileWriter

/-- The function `write_vertices`. -/
def write_vertices (model : Model) : List H5Op :=
  [.createDataSet "/mesh/vertices" .NATIVE_DOUBLE [model.mesh.vcl.length, 3],
    .write "/mesh/vertices" (.vertices model.mesh.vcl)]

/-- The function `write_elements`. -/
def write_elements (model : Model) : List H5Op :=
  [.createDataSet "/mesh/elements" .NATIVE_UINT64 [model.mesh.til.length, 4],
    .write "/mesh/elements" (.elements model.mesh.til)]

/-- The function `write_submesh_indices`; the data space has rank 1. -/
def write_submesh_indices (model : Model) : List H5Op :=
  [.createDataSet "/mesh/submesh" .NATIVE_UINT64 [model.mesh.sml.length],
    .write "/mesh/submesh" (.indices model.mesh.sml)]

/-- The function `write_field`. -/
def write_field (field : Field) (id : Nat) : List H5Op :=
  let ss_field := "/fields/field" ++ to_string id
  let ss_field_vectors := ss_field ++ "/vectors"
  [H5Op.createGroup ss_field] ++
    (if Field.annotation field = "" then [] else
      [H5Op.createAttribute ss_field (Field.annotation field)]) ++
    [.createDataSet ss_field_vectors .NATIVE_DOUBLE [field.vectors.length, 3],
      .write ss_field_vectors (.vertices field.vectors)]

/-- The loop of `write_fields` from the counter `field_idx` on. -/
def write_fields_loop : Nat → List Field → List H5Op
  | _, [] => []
  | field_idx, field :: rest => write_field field field_idx ++ write_fields_loop (field_idx + 1) rest

/-- The function `write_fields`. -/
def write_fields (model : Model) : List H5Op :=
  H5Op.createGroup "/fields" :: write_fields_loop 0 model.field_list.fields

/-- The function `write_mesh`, which also writes the fields. -/
def write_mesh (model : Model) : List H5Op :=
  [H5Op.createGroup "/mesh"] ++ write_vertices model ++ write_elements model ++
    write_submesh_indices model ++ write_fields model

/-- The function `MicromagFileWriter::write`: the calls made on the new file. -/
def write (model : Model) : List H5Op :=
  write_mesh model

end MicromagFileWriter

/-! ## The command-line program -/

/-- The outcome of `parser.ParseCLI(argc, argv)`: one of the three exceptions that `main`
catches, or the positional arguments that were given. -/
inductive ParseOutcome
  | help
  | parse_error
  | validation_error
  | parsed (input_file output_hdf5 output_xdmf : Option String)

/-- How the program ends: `main` returns an exit code, or an exception leaves `main`
uncaught and `std::terminate` is called. -/
inductive Exit
  | returned (code : Nat)
  | terminated
deriving DecidableEq, Repr

/-- What is observed of a run of `main`: how it ends, and whether `main` wrote to
`std::cerr`. -/
structure Run where
  exit : Exit
  cerr : Bool
deriving DecidableEq, Repr

/-- The statements of `main` after the model is read: the writers, which run outside any
`try` block.  `hdf5_error` and `xdmf_error` tell whether the writer raises an exception in
this run. -/
def write_outputs (xdmf : Bool) (hdf5_error xdmf_error : Bool) : Run :=
  if hdf5_error then { exit := .terminated, cerr := false }
  else if xdmf && xdmf_error then { exit := .terminated, cerr := false }
  else { exit := .returned 0, cerr := false }

/-- The function `main`.  `input` holds the lines of the input file (no line when the
file cannot be opened).  `TecplotFileLoader::read` and the writers are called outside any
`try` block, so an exception of theirs leaves `main`. -/
def main (stod_text : List Char → FloatTok) (cli : ParseOutcome) (input : List (List Char))
    (hdf5_error xdmf_error : Bool) : Run :=
  match cli with
  | .help => { exit := .returned 0, cerr := false }
  | .parse_error => { exit := .returned 1, cerr := true }
  | .validation_error => { exit := .returned 1, cerr := true }
  | .parsed input_file output_hdf5 output_xdmf =>
    if input_file.isSome && output_hdf5.isSome && output_xdmf.isSome then
      match read_file stod_text input with
      | .error _ => { exit := .terminated, cerr := false }
      | .ok _ => write_outputs true hdf5_error xdmf_error
    else if input_file.isSome && output_hdf5.isSome then
      match read_file stod_text input with
      | .error _ => { exit := .terminated, cerr := false }
      | .ok _ => write_outputs false hdf5_error xdmf_error
    else { exit := .returned 1, cerr := true }

/-- An input file with the one line `1 2 3`. -/
def example_input_int_row : List (List Char) := ["1 2 3".toList]

/-! ## States used for the properties of zone headers -/

/-- The accumulator after a first zone header with title `T` and the counts `n` and `e`. -/
def first_zone_curves (T : String) (n e : Nat) : TecplotData :=
  { n_verts := some n, n_elems := some e, n_zones := none, current_field_idx := some 0,
    x := [], y := [], z := [], tetra_submesh_idxs := [], tetra_idxs := [],
    mx := [[]], my := [[]], mz := [[]], zone_titles := [T] }

/-- The accumulator `c` with the snapshot index `k`, one more empty array in each of mx,
my and mz, and one more title. -/
def next_zone_curves (c : TecplotData) (k : Nat) (T : String) : TecplotData :=
  { c with
    current_field_idx := some k
    mx := c.mx ++ [[]]
    my := c.my ++ [[]]
    mz := c.mz ++ [[]]
    zone_titles := c.zone_titles ++ [T] }

/-- The reader state after `example_second_zone` and a third header with title `c`. -/
def example_third_zone_state : ReaderState :=
  { curves :=
      { n_verts := some 1, n_elems := some 0, n_zones := none, current_field_idx := some 2,
        x := [⟨1⟩], y := [⟨2⟩], z := [⟨3⟩], tetra_submesh_idxs := [], tetra_idxs := [],
        mx := [[⟨4⟩], [], []], my := [[⟨5⟩], [], []], mz := [[⟨6⟩], [], []],
        zone_titles := ["a", "b", "c"] },
    zone_counter := 3 }

/-- The first zone of two vertices with three float tokens read: x is complete and y has
one entry. -/
def example_partial_zone : List Line :=
  [ .zone "a" 2 0, .floatRow (tok 1) [tok 2, tok 3] ]

/-- The reader state after `example_partial_zone`. -/
def example_partial_zone_state : ReaderState :=
  { curves :=
      { n_verts := some 2, n_elems := some 0, n_zones := none, current_field_idx := some 0,
        x := [⟨1⟩, ⟨2⟩], y := [⟨3⟩], z := [], tetra_submesh_idxs := [], tetra_idxs := [],
        mx := [[]], my := [[]], mz := [[]], zone_titles := ["a"] },
    zone_counter := 1 }

/-- The four indices of a tetrahedron, in order. -/
def Tet.indices (t : Tet) : List Nat := [t.1, t.2.1, t.2.2.1, t.2.2.2]

/-- An accumulator with two elements expected and a connectivity array of eight entries. -/
def example_connectivity : TecplotData :=
  { TecplotData.empty with n_elems := some 2, tetra_idxs := [0, 1, 2, 3, 1, 2, 3, 4] }

/-- A validated accumulator with one vertex, no element and two zones. -/
def example_validated : TecplotData :=
  { example_second_zone_state.curves with
    n_zones := some 2
    mx := [[⟨4⟩], [⟨7⟩]]
    my := [[⟨5⟩], [⟨8⟩]]
    mz := [[⟨6⟩], [⟨9⟩]] }

/-! ## The syntax that the conversions of the standard library accept -/

/-- What the conversions `strtoull` and `strtod` skip before the number: leading
whitespace, then one sign if there is one. -/
def skip_space_sign (t : List Char) : List Char :=
  match t.dropWhile (fun c => decide (c ∈ space_chars)) with
  | [] => []
  | c :: r => if c = '+' ∨ c = '-' then r else c :: r

/-- Whether `std::stoull` (base 10) can perform a conversion on a text: after leading
whitespace and an optional sign the text starts with a decimal digit.  When it cannot,
`std::invalid_argument` is raised. -/
def stoull_converts (t : List Char) : Bool :=
  match skip_space_sign t with
  | [] => false
  | c :: _ => decide (c ∈ digit_chars)

/-- Whether a text starts with `inf` or `nan` in any letter case. -/
def is_inf_or_nan (s : List Char) : Bool :=
  (s.take 3).map Char.toLower == "inf".toList || (s.take 3).map Char.toLower == "nan".toList

/-- Whether `std::stod` can perform a conversion on a text: after leading whitespace and
an optional sign the text starts with a decimal digit (which covers hexadecimal floats),
with a decimal point followed by a digit, or with `inf` or `nan`.  When it cannot,
`std::invalid_argument` is raised. -/
def stod_converts (t : List Char) : Bool :=
  match skip_space_sign t with
  | [] => false
  | c :: r =>
    decide (c ∈ digit_chars) ||
      (c == '.' && (match r with
        | [] => false
        | d :: _ => decide (d ∈ digit_chars))) ||
      is_inf_or_nan (c :: r)

/-! ## Routing of the float tokens of the first zone by an explicit state machine -/

/-- The states of the state machine of the design notes: the array that awaits the next
float token of the first zone, or `Full` when no array does. -/
inductive FillState
  | AwaitingX
  | AwaitingY
  | AwaitingZ
  | AwaitingSnapshotX
  | AwaitingSnapshotY
  | AwaitingSnapshotZ
  | Full
deriving DecidableEq, Repr

/-- The state that follows a state. -/
def FillState.next : FillState → FillState
  | .AwaitingX => .AwaitingY
  | .AwaitingY => .AwaitingZ
  | .AwaitingZ => .AwaitingSnapshotX
  | .AwaitingSnapshotX => .AwaitingSnapshotY
  | .AwaitingSnapshotY => .AwaitingSnapshotZ
  | .AwaitingSnapshotZ => .Full
  | .Full => .Full

/-- The position of a state in the order of the states. -/
def FillState.rank : FillState → Nat
  | .AwaitingX => 0
  | .AwaitingY => 1
  | .AwaitingZ => 2
  | .AwaitingSnapshotX => 3
  | .AwaitingSnapshotY => 4
  | .AwaitingSnapshotZ => 5
  | .Full => 6

/-- The state machine: its state and the six arrays of the first zone. -/
structure Machine where
  state : FillState
  x : List Dbl
  y : List Dbl
  z : List Dbl
  mx : List Dbl
  my : List Dbl
  mz : List Dbl
deriving DecidableEq, Repr

namespace Machine

/-- The machine before the first float token: awaiting x, every array empty. -/
def init : Machine :=
  { state := .AwaitingX, x := [], y := [], z := [], mx := [], my := [], mz := [] }

/-- The target array of a state. -/
def target (m : Machine) : FillState → List Dbl
  | .AwaitingX => m.x
  | .AwaitingY => m.y
  | .AwaitingZ => m.z
  | .AwaitingSnapshotX => m.mx
  | .AwaitingSnapshotY => m.my
  | .AwaitingSnapshotZ => m.mz
  | .Full => []

/-- The state advances past every target that holds `V` entries; `fuel` bounds the number
of moves, of which there are at most six. -/
def advance (V : Nat) (m : Machine) : Nat → FillState → FillState
  | 0, st => st
  | fuel + 1, st =>
    if st ≠ .Full ∧ (m.target st).length = V then advance V m fuel st.next else st

/-- The machine after a value is appended to the target of the state `st`. -/
def push (m : Machine) (st : FillState) (d : Dbl) : Machine :=
  match st with
  | .AwaitingX => { m with state := st, x := m.x ++ [d] }
  | .AwaitingY => { m with state := st, y := m.y ++ [d] }
  | .AwaitingZ => { m with state := st, z := m.z ++ [d] }
  | .AwaitingSnapshotX => { m with state := st, mx := m.mx ++ [d] }
  | .AwaitingSnapshotY => { m with state := st, my := m.my ++ [d] }
  | .AwaitingSnapshotZ => { m with state := st, mz := m.mz ++ [d] }
  | .Full => { m with state := st }

/-- One float token: the state advances past every target that holds `V` entries; a
token arriving in `Full` raises too-many-floats, any other token is converted and
appended to the target of the state. -/
def step (V : Nat) (m : Machine) (t : FloatTok) : Except Error Machine :=
  let st := advance V m 6 m.state
  if st = .Full then throw Error.too_many_doubles
  else do
    let d ← stod t
    pure (push m st d)

/-- A sequence of float tokens, from the machine before the first token. -/
def run (V : Nat) (toks : List FloatTok) : Except Error Machine :=
  toks.foldlM (step V) init

/-- The accumulator `c` with the six arrays of the machine as the arrays of the first
zone. -/
def curves (c : TecplotData) (m : Machine) : TecplotData :=
  { c with x := m.x, y := m.y, z := m.z, mx := [m.mx], my := [m.my], mz := [m.mz] }

/-- The invariant of the machine: every target before the state holds `V` entries and no
array holds more. -/
def inv (V : Nat) (m : Machine) : Prop :=
  (∀ st : FillState, st.rank < m.state.rank → (m.target st).length = V) ∧
  ∀ st : FillState, (m.target st).length ≤ V

end Machine

/-- The first zone with no vertex and one element, read up to its region tag. -/
def example_tag_read : List Line := [ .zone "a" 0 1, .intRow 7 [] ]

/-- The reader state after `example_tag_read`. -/
def example_tag_read_state : ReaderState :=
  { curves :=
      { n_verts := some 0, n_elems := some 1, n_zones := none, current_field_idx := some 0,
        x := [], y := [], z := [], tetra_submesh_idxs := [7], tetra_idxs := [],
        mx := [[]], my := [[]], mz := [[]], zone_titles := ["a"] },
    zone_counter := 1 }

/-- An input with no vertex and one element whose connectivity tokens are 0, 1, 2, 3. -/
def example_dangling_index : List Line := [ .zone "a" 0 1, .intRow 7 [0, 1, 2, 3] ]

/-- The model that `read` returns on `example_dangling_index`. -/
def example_dangling_index_model : Model :=
  { mesh := { vcl := [], til := [(2 ^ 64 - 1, 0, 1, 2)], sml := [7] },
    field_list := { fields := [ { annotation := "", vectors := [] } ] } }

/-- The reader state after the header of a zone of one vertex and one element, the integer
row `7 1` and the float row of two tokens. -/
def example_rows_state : ReaderState :=
  { curves :=
      { n_verts := some 1, n_elems := some 1, n_zones := none, current_field_idx := some 0,
        x := [⟨1⟩], y := [⟨2⟩], z := [], tetra_submesh_idxs := [7], tetra_idxs := [0],
        mx := [[]], my := [[]], mz := [[]], zone_titles := ["a"] },
    zone_counter := 1 }

/-- The reader state after the header of a zone of one vertex and one element. -/
def example_rows_start : ReaderState :=
  { curves := first_zone_curves "a" 1 1, zone_counter := 1 }

/-- The reader state after the header of a zone of one vertex and one element and the
integer row `7 1`. -/
def example_rows_int_state : ReaderState :=
  { curves :=
      { n_verts := some 1, n_elems := some 1, n_zones := none, current_field_idx := some 0,
        x := [], y := [], z := [], tetra_submesh_idxs := [7], tetra_idxs := [0],
        mx := [[]], my := [[]], mz := [[]], zone_titles := ["a"] },
    zone_counter := 1 }

/-- The errors of the guard of a later zone header and of the three checks of the number
of snapshots. -/
def Error.isZoneGuard : Error → Bool
  | .subsequent_zone_not_set => true
  | .MxZoneCountException => true
  | .MyZoneCountException => true
  | .MzZoneCountException => true
  | _ => false

/-- The states of the line loop: the state at the start of `read`, or the state that a
history with its invariants stands for. -/
def ReaderState.reachable (s : ReaderState) : Prop :=
  s = ReaderState.initial ∨ ∃ h : History, h.wf ∧ s = h.state

/-! ## Fractions (`class Fraction`) -/

/-- Class `Fraction`: the numerator `_n` and the denominator `_d`, of type `long long`.
The arithmetic is taken exact: the properties stated are for values on which no operation
overflows. -/
structure Fraction where
  numerator : Int
  denominator : Int
deriving DecidableEq, Repr

/-- The loop of `Fraction::gcd`: subtract the smaller from the larger until both are
equal.  `fuel` bounds the number of iterations; `none` stands for a loop that has not
ended within the bound. -/
def gcd_loop : Nat → Int → Int → Option Int
  | 0, _, _ => none
  | fuel + 1, n1, n2 =>
    if n1 ≠ n2 then
      if n1 > n2 then gcd_loop fuel (n1 - n2) n2 else gcd_loop fuel n1 (n2 - n1)
    else some n1

/-- The function `sgn` of `utilities.hpp`. -/
def sgn (val : ℚ) : Int :=
  (if 0 < val then 1 else 0) - (if val < 0 then 1 else 0)

/-- The cast of a non-integral value to `long long` or `long`: truncation toward zero. -/
def to_integer (q : ℚ) : Int := q.num.tdiv q.den

namespace Fraction

/-- The value of a fraction as a rational number. -/
def value (a : Fraction) : ℚ := (a.numerator : ℚ) / (a.denominator : ℚ)

/-- Method `Fraction::gcd`. -/
def gcd (fuel : Nat) (n1 n2 : Int) : Option Int :=
  let n1 := if n1 > 0 then n1 else -n1
  let n2 := if n2 > 0 then n2 else -n2
  gcd_loop fuel n1 n2

/-- Method `operator+`. -/
def add (fuel : Nat) (a rhs : Fraction) : Option Fraction :=
  let n := a.numerator * rhs.denominator + a.denominator * rhs.numerator
  if n = 0 then some { numerator := 0, denominator := 1 }
  else
    let d := a.denominator * rhs.denominator
    (gcd fuel n d).map (fun g => { numerator := n.tdiv g, denominator := d.tdiv g })

/-- Method `operator-`. -/
def sub (fuel : Nat) (a rhs : Fraction) : Option Fraction :=
  let n := a.numerator * rhs.denominator - a.denominator * rhs.numerator
  if n = 0 then some { numerator := 0, denominator := 1 }
  else
    let d := a.denominator * rhs.denominator
    (gcd fuel n d).map (fun g => { numerator := n.tdiv g, denominator := d.tdiv g })

/-- Method `operator*`. -/
def mul (fuel : Nat) (a rhs : Fraction) : Option Fraction :=
  let n := a.numerator * rhs.numerator
  if n = 0 then some { numerator := 0, denominator := 1 }
  else
    let d := a.denominator * rhs.denominator
    (gcd fuel n d).map (fun g => { numerator := n.tdiv g, denominator := d.tdiv g })

/-- Method `operator/`. -/
def div (fuel : Nat) (a rhs : Fraction) : Option Fraction :=
  let n := a.numerator * rhs.denominator
  if n = 0 then some { numerator := 0, denominator := 1 }
  else
    let d := a.denominator * rhs.numerator
    (gcd fuel n d).map (fun g => { numerator := n.tdiv g, denominator := d.tdiv g })

/-- Method `operator==`. -/
def eq (a rhs : Fraction) : Bool :=
  a.numerator * rhs.denominator == a.denominator * rhs.numerator

/-- The second loop of `Fraction::set`, with `count` iterations left: the digits of
`frac_part` are accumulated into `numerator`. -/
def set_digits : Nat → ℚ → Int → Int → Int
  | 0, _, _, numerator => numerator
  | count + 1, frac_part, int_power, numerator =>
    let digit := to_integer (frac_part * 10)
    set_digits count (frac_part * 10 - (digit : ℚ)) (int_power.tdiv 10)
      (numerator + digit * int_power)

/-- Method `Fraction::set`: the numerator and the denominator that it stores.  The
arithmetic on `double` is taken exact; on an integer-valued `v` within the range of
`long long` no operation of `set` rounds. -/
def set (fuel : Nat) (v : ℚ) (max_precision : Nat) : Option Fraction :=
  let sign := sgn v
  let vpos := if v < 0 then -1 * v else v
  let frac_part := vpos - (to_integer vpos : ℚ)
  let int_part := to_integer vpos
  let denominator : Int := 10 * 10 ^ max_precision
  let int_power := denominator.tdiv 10
  let numerator := set_digits max_precision frac_part int_power 0
  if numerator = 0 then some { numerator := int_part, denominator := 1 }
  else do
    let g1 ← gcd fuel numerator denominator
    let numerator := numerator.tdiv g1
    let denominator := denominator.tdiv g1
    let numerator := numerator + int_part * denominator
    let g2 ← gcd fuel numerator denominator
    let numerator := numerator.tdiv g2
    let denominator := denominator.tdiv g2
    some { numerator := sign * numerator, denominator := denominator }

/-- Constructor `Fraction(double v, size_t max_precision = 4)`. -/
def of_double (fuel : Nat) (v : ℚ) : Option Fraction := set fuel v 4

end Fraction

/-- The 64-bit representation of a `long long`. -/
def to_u64 (n : Int) : Nat := (n % 2 ^ 64).toNat

/-- The function `hash_combine` of `utilities.hpp` on `size_t`, with `std::hash` of an
integer taken to be the identity: the new value of `seed`. -/
def hash_combine (seed v : Nat) : Nat :=
  seed ^^^ ((v + 0x9e3779b9 + (seed <<< 6) + (seed >>> 2)) % 2 ^ 64)

/-- The specialisation `std::hash<Fraction>`. -/
def Fraction.hash (v : Fraction) : Nat :=
  let n := to_u64 v.numerator
  let d := to_u64 v.denominator
  hash_combine (hash_combine 0 n) d

/-! # Verified properties -/

/-! ## Blocks of a list -/

theorem slice_length {α : Type} (j V : Nat) (f : List α) :
    (slice j V f).length = min V (f.length - j * V) := by
  simp [slice]

theorem slice_nil {α : Type} (j V : Nat) : slice j V ([] : List α) = [] := by
  simp [slice]

theorem slice_full_iff {α : Type} (j V : Nat) (f : List α) :
    V ≤ (slice j V f).length ↔ (j + 1) * V ≤ f.length := by
  rw [slice_length, Nat.succ_mul]
  rcases Nat.eq_zero_or_pos V with h | h
  · subst h; simp
  · omega

theorem slice_append_of_full {α : Type} (j V : Nat) (f g : List α)
    (h : (j + 1) * V ≤ f.length) : slice j V (f ++ g) = slice j V f := by
  rw [Nat.succ_mul] at h
  unfold slice
  rw [List.drop_append_of_le_length (by omega), List.take_append_of_le_length]
  simp only [List.length_drop]
  omega

theorem slice_append_of_current {α : Type} (j V : Nat) (f : List α) (t : α)
    (h1 : j * V ≤ f.length) (h2 : f.length < (j + 1) * V) :
    slice j V (f ++ [t]) = slice j V f ++ [t] := by
  rw [Nat.succ_mul] at h2
  unfold slice
  rw [List.drop_append_of_le_length h1]
  have hl : (List.drop (j * V) f).length < V := by simp only [List.length_drop]; omega
  rw [List.take_of_length_le (by simp only [List.length_append, List.length_singleton]; omega),
    List.take_of_length_le (by omega)]

theorem slice_append_of_before {α : Type} (j V : Nat) (f : List α) (t : α)
    (h : f.length < j * V) : slice j V (f ++ [t]) = slice j V f := by
  unfold slice
  rw [List.drop_eq_nil_of_le (by simp only [List.length_append, List.length_singleton]; omega),
    List.drop_eq_nil_of_le (by omega)]

theorem slice_getElem? {α : Type} (j V : Nat) (f : List α) (i : Nat) (h : i < V) :
    (slice j V f)[i]? = f[j * V + i]? := by
  unfold slice
  rw [List.getElem?_take_of_lt h, List.getElem?_drop]

theorem slice_append_singleton {α : Type} (j V : Nat) (f : List α) (t : α) :
    slice j V (f ++ [t]) =
      if j * V ≤ f.length ∧ f.length < (j + 1) * V then slice j V f ++ [t] else slice j V f := by
  split_ifs with h
  · exact slice_append_of_current j V f t h.1 h.2
  · by_cases h1 : j * V ≤ f.length
    · exact slice_append_of_full j V f [t] (by omega)
    · exact slice_append_of_before j V f t (by omega)

theorem getElem?_snoc_at {α : Type} (l : List α) (a : α) (n : Nat) (h : l.length = n) :
    (l ++ [a])[n]? = some a := by
  subst h; simp

theorem set_snoc_at {α : Type} (l : List α) (a b : α) (n : Nat) (h : l.length = n) :
    (l ++ [a]).set n b = l ++ [b] := by
  subst h
  induction l with
  | nil => rfl
  | cons x xs ih => simp [ih]

/-! ## One token at a time: the accumulator follows the history -/

theorem History.comp_length (j V : Nat) (done : List (List Dbl)) :
    (History.comp j V done).length = done.length := by
  cases done <;> simp [History.comp]

theorem route_int_history (h : History) (hE : h.E < 2 ^ 31) (k : Nat) :
    route_int h.curves k =
      if h.ints.length < 5 * h.E then
        (if k < 2 ^ 64 then .ok { h with ints := h.ints ++ [k] }.curves else .error .out_of_range)
      else .error .too_many_integers := by
  obtain ⟨V, E, titles, ints, done, cur⟩ := h
  have hm : E * 4 % 2 ^ 64 = E * 4 := Nat.mod_eq_of_lt (by simp only at hE; omega)
  simp only [route_int, TecplotData.tetra_submesh_idx_is_full, TecplotData.tetra_idx_is_full,
    History.curves, History.firstZone, History.offset, value, stoull, bind, Except.bind, pure,
    Except.pure, hm, List.length_take, List.length_map, List.length_drop]
  by_cases h1 : ints.length < E
  · have e1 : ¬ (min E ints.length ≥ E) := by omega
    have e2 : ints.length < 5 * E := by omega
    simp only [e1, e2, decide_False, Bool.not_false, if_true]
    by_cases hk : k < 2 ^ 64
    · simp only [hk, if_true]
      rw [List.take_of_length_le (by omega : ints.length ≤ E),
        List.take_of_length_le (by simp only [List.length_append, List.length_singleton]; omega),
        List.drop_eq_nil_of_le (by omega : ints.length ≤ E),
        List.drop_eq_nil_of_le (by simp only [List.length_append, List.length_singleton]; omega)]
    · simp only [hk, if_false]
  · have e1 : min E ints.length ≥ E := by omega
    simp only [e1, decide_True, Bool.not_true, Bool.false_eq_true, if_false]
    by_cases h2 : ints.length < 5 * E
    · have e3 : ¬ (ints.length - E ≥ E * 4) := by omega
      simp only [e3, h2, decide_False, Bool.not_false, if_true]
      by_cases hk : k < 2 ^ 64
      · simp only [hk, if_true]
        rw [List.take_append_of_le_length (by omega), List.drop_append_of_le_length (by omega),
          List.map_append, List.map_singleton]
      · simp only [hk, if_false]
    · have e3 : ints.length - E ≥ E * 4 := by omega
      simp only [e3, h2, decide_True, Bool.not_true, Bool.false_eq_true, if_false]
      rfl

theorem route_float_first_history (h : History) (hd : h.done = []) (t : FloatTok) :
    route_float_first h.curves t =
      if h.cur.length < h.capacity then
        (match t with
          | some d => .ok { h with cur := h.cur ++ [d] }.curves
          | none => .error .out_of_range)
      else .error .too_many_doubles := by
  obtain ⟨V, E, titles, ints, done, cur⟩ := h
  simp only at hd
  subst hd
  simp only [route_float_first, push_current_mx, push_current_my, push_current_mz,
    TecplotData.x_is_full, TecplotData.y_is_full, TecplotData.z_is_full,
    TecplotData.current_mx_is_full, TecplotData.current_my_is_full,
    TecplotData.current_mz_is_full, at_index, History.capacity,
    History.curves, History.firstZone, History.offset, History.comp, value, stod, bind,
    Except.bind, pure, Except.pure, throw, throwThe, MonadExceptOf.throw, ge_iff_le,
    slice_full_iff, List.nil_append,
    List.headD_cons, List.length_nil, List.getElem?_cons_zero, List.set_cons_zero, if_true,
    Bool.not_eq_true', decide_eq_false_iff_not]
  have hc : cur.length < V ∨ (V ≤ cur.length ∧ cur.length < 2 * V) ∨
      (2 * V ≤ cur.length ∧ cur.length < 3 * V) ∨ (3 * V ≤ cur.length ∧ cur.length < 4 * V) ∨
      (4 * V ≤ cur.length ∧ cur.length < 5 * V) ∨ (5 * V ≤ cur.length ∧ cur.length < 6 * V) ∨
      6 * V ≤ cur.length := by omega
  cases t with
  | none =>
    rcases hc with hc | hc | hc | hc | hc | hc | hc <;>
      simp (disch := omega) only [if_pos, if_neg]
  | some d =>
    rcases hc with hc | hc | hc | hc | hc | hc | hc <;>
      simp (disch := omega) only [if_pos, if_neg, slice_append_of_full,
        slice_append_of_current, slice_append_of_before]

theorem route_float_later_history (h : History) (hd : h.done ≠ []) (t : FloatTok) :
    route_float_later h.curves t =
      if h.cur.length < h.capacity then
        (match t with
          | some d => .ok { h with cur := h.cur ++ [d] }.curves
          | none => .error .out_of_range)
      else .error .too_many_doubles := by
  obtain ⟨V, E, titles, ints, done, cur⟩ := h
  simp only at hd
  simp only [route_float_later, push_current_mx, push_current_my, push_current_mz,
    TecplotData.current_mx_is_full, TecplotData.current_my_is_full,
    TecplotData.current_mz_is_full, at_index, History.capacity,
    History.curves, History.firstZone, History.offset, hd, if_false, value, stod, bind,
    Except.bind, pure, Except.pure, throw, throwThe, MonadExceptOf.throw, ge_iff_le,
    slice_full_iff, getElem?_snoc_at _ _ _ (History.comp_length _ V done),
    set_snoc_at _ _ _ _ (History.comp_length _ V done),
    Bool.not_eq_true', decide_eq_false_iff_not]
  have hc : cur.length < V ∨ (V ≤ cur.length ∧ cur.length < 2 * V) ∨
      (2 * V ≤ cur.length ∧ cur.length < 3 * V) ∨ 3 * V ≤ cur.length := by omega
  have hh : ∀ d : Dbl, (done ++ [cur ++ [d]]).headD [] = (done ++ [cur]).headD [] := by
    intro d; cases done with
    | nil => exact absurd rfl hd
    | cons a as => rfl
  cases t with
  | none =>
    rcases hc with hc | hc | hc | hc <;>
      simp (disch := omega) only [if_pos, if_neg]
  | some d =>
    rcases hc with hc | hc | hc | hc <;>
      simp (disch := omega) only [if_pos, if_neg, slice_append_of_full,
        slice_append_of_current, slice_append_of_before, hh]

/-! ## One row at a time -/

theorem foldlM_route_int (toks : List Nat) (h : History) (hE : h.E < 2 ^ 31)
    (hi : h.ints.length ≤ 5 * h.E) (c : TecplotData) :
    toks.foldlM route_int h.curves = .ok c ↔
      h.ints.length + toks.length ≤ 5 * h.E ∧ (∀ k ∈ toks, k < 2 ^ 64) ∧
        c = { h with ints := h.ints ++ toks }.curves := by
  induction toks generalizing h with
  | nil =>
    simp only [List.foldlM_nil, pure, Except.pure, Except.ok.injEq, List.length_nil,
      Nat.add_zero, hi, List.not_mem_nil, false_implies, implies_true, List.append_nil, true_and]
    exact eq_comm
  | cons k ks ih =>
    rw [List.foldlM_cons, route_int_history h hE]
    by_cases h1 : h.ints.length < 5 * h.E
    · by_cases hk : k < 2 ^ 64
      · simp only [h1, hk, if_true, bind, Except.bind]
        rw [ih { h with ints := h.ints ++ [k] } hE
          (by simp only [List.length_append, List.length_singleton]; omega)]
        simp only [List.length_append, List.length_singleton, List.length_cons, List.length_nil,
          List.mem_cons, forall_eq_or_imp, hk, true_and, List.append_assoc,
          List.singleton_append]
        constructor
        · rintro ⟨a, b, c⟩; exact ⟨by omega, b, c⟩
        · rintro ⟨a, b, c⟩; exact ⟨by omega, b, c⟩
      · simp only [h1, hk, if_true, if_false, bind, Except.bind, List.mem_cons, forall_eq_or_imp,
          false_and, and_false, reduceCtorEq]
    · simp only [h1, if_false, bind, Except.bind, List.length_cons, reduceCtorEq, false_iff,
        not_and]
      intro h2; omega

theorem route_float_history (h : History) (t : FloatTok) :
    (if h.done = [] then route_float_first h.curves t else route_float_later h.curves t) =
      if h.cur.length < h.capacity then
        (match t with
          | some d => .ok { h with cur := h.cur ++ [d] }.curves
          | none => .error .out_of_range)
      else .error .too_many_doubles := by
  by_cases hd : h.done = []
  · rw [if_pos hd, route_float_first_history h hd]
  · rw [if_neg hd, route_float_later_history h hd]

theorem foldlM_route_float (toks : List FloatTok) (h : History)
    (hi : h.cur.length ≤ h.capacity) (c : TecplotData) :
    toks.foldlM (fun c t => if h.done = [] then route_float_first c t else route_float_later c t)
        h.curves = .ok c ↔
      h.cur.length + toks.length ≤ h.capacity ∧ (∀ t ∈ toks, t ≠ none) ∧
        c = { h with cur := h.cur ++ toks.reduceOption }.curves := by
  induction toks generalizing h with
  | nil =>
    simp only [List.foldlM_nil, pure, Except.pure, Except.ok.injEq, List.length_nil,
      Nat.add_zero, hi, List.not_mem_nil, false_implies, implies_true, List.reduceOption_nil,
      List.append_nil, true_and]
    exact eq_comm
  | cons t ts ih =>
    rw [List.foldlM_cons, route_float_history h]
    by_cases h1 : h.cur.length < h.capacity
    · cases t with
      | none =>
        simp only [h1, if_true, bind, Except.bind, List.mem_cons, forall_eq_or_imp, ne_eq,
          not_true_eq_false, false_and, and_false, reduceCtorEq]
      | some d =>
        simp only [h1, if_true, bind, Except.bind]
        have := ih { h with cur := h.cur ++ [d] }
          (by simp only [List.length_append, List.length_singleton, History.capacity,
                History.offset] at h1 ⊢; omega)
        simp only at this
        rw [this]
        simp only [List.length_append, List.length_singleton, List.length_cons, List.length_nil,
          List.mem_cons, forall_eq_or_imp, ne_eq, reduceCtorEq, not_false_eq_true, true_and, List.append_assoc,
          List.singleton_append, List.reduceOption_cons_of_some, History.capacity,
          History.offset]
        constructor
        · rintro ⟨a, b, c⟩; exact ⟨by omega, b, c⟩
        · rintro ⟨a, b, c⟩; exact ⟨by omega, b, c⟩
    · simp only [h1, if_false, bind, Except.bind, List.length_cons, reduceCtorEq, false_iff,
        not_and]
      intro h2; omega

/-! ## One line at a time -/

theorem History.comp_snoc (j V : Nat) (done : List (List Dbl)) (cur : List Dbl) :
    History.comp j V (done ++ [cur]) =
      History.comp j V done ++ [slice ((if done = [] then 3 else 0) + j) V cur] := by
  cases done with
  | nil => simp [History.comp, Nat.add_comm]
  | cons a as => simp [History.comp]

theorem headD_snoc_snoc {α : Type} (l : List α) (a b d : α) :
    (l ++ [a] ++ [b]).headD d = (l ++ [a]).headD d := by
  cases l <;> rfl

theorem process_zone_initial (t : String) (n e : Nat) :
    process_zone ReaderState.initial t n e =
      if n < 2 ^ 31 then
        if e < 2 ^ 31 then .ok (History.start t n e).state else .error .out_of_range
      else .error .out_of_range := by
  simp only [process_zone, ReaderState.initial, TecplotData.empty, stoi, History.start,
    History.state, History.curves, History.firstZone, History.offset, History.comp, slice_nil,
    bind, Except.bind, pure, Except.pure, List.nil_append, List.headD_cons, List.take_nil,
    List.drop_nil, List.map_nil, List.length_nil, Nat.zero_add, beq_self_eq_true, if_true]
  by_cases hn : n < 2 ^ 31
  · by_cases he : e < 2 ^ 31
    · simp only [hn, he, if_true]
    · simp only [hn, he, if_true, if_false]
  · simp only [hn, if_false]

theorem process_zone_history (h : History) (t : String) (n e : Nat) :
    process_zone h.state t n e =
      if n < 2 ^ 31 then
        if n = h.V then
          if e < 2 ^ 31 then
            if e = h.E then
              .ok { h with titles := h.titles ++ [t], done := h.done ++ [h.cur], cur := [] }.state
            else .error .unexpected_number_of_elements
          else .error .out_of_range
        else .error .unexpected_number_of_vertices
      else .error .out_of_range := by
  obtain ⟨V, E, titles, ints, done, cur⟩ := h
  have hl : ∀ j k : Nat, (History.comp j V done ++ [slice k V cur]).length = done.length + 1 := by
    intro j k; simp [History.comp_length]
  simp only [process_zone, stoi, value, at_index, History.state, History.curves,
    History.firstZone, History.offset, slice_nil, History.comp_snoc, headD_snoc_snoc,
    bind, Except.bind, pure, Except.pure, throw, throwThe, MonadExceptOf.throw,
    getElem?_snoc_at _ _ _ (hl _ _), List.length_append, List.length_singleton,
    List.append_eq_nil, List.cons_ne_nil, and_false, if_false, Option.isNone_some,
    Bool.and_self, Bool.false_eq_true, beq_iff_eq, Nat.add_right_eq_self, Nat.succ_ne_zero,
    bne_iff_ne, ne_eq, ite_not]
  rw [if_neg (by omega : ¬ (done.length + 1 + 1 = 1))]
  by_cases hn : n < 2 ^ 31
  · by_cases hv : n = V
    · subst hv
      by_cases he : e < 2 ^ 31
      · by_cases hE : e = E
        · subst hE; simp only [hn, he, if_true]
        · simp only [hn, he, hE, Ne.symm hE, if_true, if_false]
      · simp only [hn, he, if_true, if_false]
    · simp only [hn, hv, Ne.symm hv, if_true, if_false]
  · simp only [hn, if_false]

theorem bind_eq_ok {ε α β : Type} (x : Except ε α) (f : α → Except ε β) (b : β) :
    (x >>= f) = .ok b ↔ ∃ a, x = .ok a ∧ f a = .ok b := by
  cases x <;> simp [bind, Except.bind]

theorem History.zone_counter_eq_one (h : History) :
    (h.state.zone_counter == 1) = true ↔ h.done = [] := by
  simp [History.state]

theorem process_int_row_history (h : History) (hw : h.wf) (toks : List Nat) (s : ReaderState) :
    process_int_row h.state toks = .ok s ↔
      h.done = [] ∧ h.ints.length + toks.length ≤ 5 * h.E ∧ (∀ k ∈ toks, k < 2 ^ 64) ∧
        s = { h with ints := h.ints ++ toks }.state := by
  obtain ⟨hV, hE, ht, hi, hc, hdn, hib⟩ := hw
  unfold process_int_row
  by_cases hd : h.done = []
  · rw [if_pos ((History.zone_counter_eq_one h).2 hd), bind_eq_ok]
    constructor
    · rintro ⟨c, h1, h2⟩
      obtain ⟨h3, h4, h5⟩ := (foldlM_route_int toks h hE hi c).1 h1
      refine ⟨hd, h3, h4, ?_⟩
      simp only [pure, Except.pure, Except.ok.injEq] at h2
      rw [← h2, h5]
      rfl
    · rintro ⟨_, h3, h4, h5⟩
      refine ⟨_, (foldlM_route_int toks h hE hi _).2 ⟨h3, h4, rfl⟩, ?_⟩
      rw [h5]
      rfl
  · rw [if_neg (fun hz => hd ((History.zone_counter_eq_one h).1 hz))]
    constructor
    · intro h1; cases h1
    · rintro ⟨h1, _⟩; exact absurd h1 hd

theorem process_float_row_history (h : History) (hw : h.wf) (toks : List FloatTok)
    (s : ReaderState) :
    process_float_row h.state toks = .ok s ↔
      h.cur.length + toks.length ≤ h.capacity ∧ (∀ t ∈ toks, t ≠ none) ∧
        s = { h with cur := h.cur ++ toks.reduceOption }.state := by
  obtain ⟨hV, hE, ht, hi, hc, hdn, hib⟩ := hw
  have key := foldlM_route_float toks h hc
  unfold process_float_row
  by_cases hd : h.done = []
  · rw [if_pos ((History.zone_counter_eq_one h).2 hd), bind_eq_ok]
    rw [show (fun c t => if h.done = [] then route_float_first c t else route_float_later c t)
      = route_float_first from by funext c t; rw [if_pos hd]] at key
    constructor
    · rintro ⟨c, h1, h2⟩
      obtain ⟨h3, h4, h5⟩ := (key c).1 h1
      refine ⟨h3, h4, ?_⟩
      simp only [pure, Except.pure, Except.ok.injEq] at h2
      rw [← h2, h5]
      rfl
    · rintro ⟨h3, h4, h5⟩
      refine ⟨_, (key _).2 ⟨h3, h4, rfl⟩, ?_⟩
      rw [h5]
      rfl
  · rw [if_neg (fun hz => hd ((History.zone_counter_eq_one h).1 hz)), bind_eq_ok]
    rw [show (fun c t => if h.done = [] then route_float_first c t else route_float_later c t)
      = route_float_later from by funext c t; rw [if_neg hd]] at key
    constructor
    · rintro ⟨c, h1, h2⟩
      obtain ⟨h3, h4, h5⟩ := (key c).1 h1
      refine ⟨h3, h4, ?_⟩
      simp only [pure, Except.pure, Except.ok.injEq] at h2
      rw [← h2, h5]
      rfl
    · rintro ⟨h3, h4, h5⟩
      refine ⟨_, (key _).2 ⟨h3, h4, rfl⟩, ?_⟩
      rw [h5]
      rfl

theorem process_line_history (h : History) (hw : h.wf) (l : Line) (s : ReaderState) :
    process_line h.state l = .ok s ↔ ∃ h', h.step l = some h' ∧ s = h'.state := by
  cases l with
  | zone t n e =>
    simp only [process_line, process_zone_history, History.step]
    constructor
    · intro h3
      split_ifs at h3 with h1 h2 h4 h5
      cases h3
      exact ⟨_, if_pos ⟨h2, h5⟩, rfl⟩
    · rintro ⟨h', h3, h4⟩
      split_ifs at h3 with hc
      cases h3
      obtain ⟨hn, he⟩ := hc
      rw [if_pos (hn ▸ hw.1), if_pos hn, if_pos (he ▸ hw.2.1), if_pos he, h4]
  | intRow a as =>
    simp only [process_line, process_int_row_history h hw, History.step]
    constructor
    · rintro ⟨h1, h2, h3, h4⟩
      exact ⟨_, if_pos ⟨h1, h2, h3⟩, h4⟩
    · rintro ⟨h', h1, h2⟩
      split_ifs at h1 with hc
      cases h1
      exact ⟨hc.1, hc.2.1, hc.2.2, h2⟩
  | floatRow a as =>
    simp only [process_line, process_float_row_history h hw, History.step]
    constructor
    · rintro ⟨h1, h2, h3⟩
      exact ⟨_, if_pos ⟨h1, h2⟩, h3⟩
    · rintro ⟨h', h1, h2⟩
      split_ifs at h1 with hc
      cases h1
      exact ⟨hc.1, hc.2, h2⟩
  | other =>
    simp only [process_line, History.step, pure, Except.pure, Except.ok.injEq,
      Option.some.injEq, exists_eq_left']
    exact eq_comm

theorem History.step_wf (h h' : History) (l : Line) (hw : h.wf) (hs : h.step l = some h') :
    h'.wf ∧ h'.V = h.V ∧ h'.E = h.E := by
  obtain ⟨hV, hE, ht, hi, hc, hdn, hib⟩ := hw
  cases l with
  | zone t n e =>
    simp only [History.step] at hs
    split_ifs at hs with hc1
    cases hs
    refine ⟨⟨hV, hE, ?_, hi, ?_, ?_, hib⟩, rfl, rfl⟩
    · simp only [List.length_append, List.length_singleton]; omega
    · simp only [List.length_nil]; omega
    · intro k f hk
      simp only at hk
      by_cases hlt : k < h.done.length
      · rw [List.getElem?_append_left hlt] at hk
        exact hdn k f hk
      · rw [List.getElem?_append_right (by omega)] at hk
        have hk0 : k - h.done.length = 0 := by
          by_contra hne
          rw [List.getElem?_eq_none (by simp only [List.length_singleton]; omega)] at hk
          cases hk
        rw [hk0] at hk
        simp only [List.getElem?_cons_zero, Option.some.injEq] at hk
        subst hk
        simp only [History.capacity, History.offset] at hc
        by_cases hd : h.done = []
        · simp only [hd, List.length_nil] at hlt hk0 hc ⊢
          have : k = 0 := by omega
          simp only [this, if_true]
          simpa using hc
        · have : k ≠ 0 := by
            intro h0
            apply hd
            apply List.length_eq_zero.1
            omega
          simp only [this, if_false]
          simpa [hd] using hc
  | intRow a as =>
    simp only [History.step] at hs
    split_ifs at hs with hc1
    cases hs
    refine ⟨⟨hV, hE, ht, ?_, hc, hdn, ?_⟩, rfl, rfl⟩
    · simp only [List.length_append]
      exact hc1.2.1
    · intro k hk
      rcases List.mem_append.1 hk with hk | hk
      · exact hib k hk
      · exact hc1.2.2 k hk
  | floatRow a as =>
    simp only [History.step] at hs
    split_ifs at hs with hc1
    cases hs
    refine ⟨⟨hV, hE, ht, hi, ?_, hdn, hib⟩, rfl, rfl⟩
    have := List.reduceOption_length_le (a :: as)
    have h1 := hc1.1
    simp only [List.length_append, History.capacity, History.offset] at h1 ⊢
    omega
  | other =>
    simp only [History.step, Option.some.injEq] at hs
    subst hs
    exact ⟨⟨hV, hE, ht, hi, hc, hdn, hib⟩, rfl, rfl⟩

/-! ## A run of lines -/

theorem History.run_nil (h : History) : h.run [] = some h := rfl

theorem History.run_cons (h : History) (l : Line) (ls : List Line) :
    h.run (l :: ls) = (h.step l).bind (fun h1 => h1.run ls) := by
  simp only [History.run, List.foldlM_cons]
  rfl

theorem History.run_wf (ls : List Line) (h h' : History) (hw : h.wf) (hr : h.run ls = some h') :
    h'.wf ∧ h'.V = h.V ∧ h'.E = h.E := by
  induction ls generalizing h with
  | nil => cases hr; exact ⟨hw, rfl, rfl⟩
  | cons l ls ih =>
    rw [History.run_cons] at hr
    cases hs : h.step l with
    | none => rw [hs] at hr; cases hr
    | some h1 =>
      rw [hs] at hr
      obtain ⟨w1, v1, e1⟩ := History.step_wf h h1 l hw hs
      obtain ⟨w2, v2, e2⟩ := ih h1 w1 hr
      exact ⟨w2, v2.trans v1, e2.trans e1⟩

theorem process_lines_nil (s : ReaderState) : process_lines s [] = .ok s := rfl

theorem process_lines_cons (s : ReaderState) (l : Line) (ls : List Line) :
    process_lines s (l :: ls) = process_line s l >>= fun s1 => process_lines s1 ls := by
  simp only [process_lines, List.foldlM_cons]

theorem process_lines_append (s : ReaderState) (ls ls' : List Line) :
    process_lines s (ls ++ ls') = process_lines s ls >>= fun s1 => process_lines s1 ls' := by
  simp only [process_lines, List.foldlM_append]

theorem process_lines_history (ls : List Line) (h : History) (hw : h.wf) (s : ReaderState) :
    process_lines h.state ls = .ok s ↔ ∃ h', h.run ls = some h' ∧ s = h'.state := by
  induction ls generalizing h with
  | nil =>
    simp only [process_lines_nil, History.run_nil, Except.ok.injEq, Option.some.injEq,
      exists_eq_left']
    exact eq_comm
  | cons l ls ih =>
    rw [process_lines_cons, bind_eq_ok, History.run_cons]
    constructor
    · rintro ⟨s1, h1, h2⟩
      obtain ⟨g, hg, rfl⟩ := (process_line_history h hw l s1).1 h1
      obtain ⟨h', h3, h4⟩ := (ih g (History.step_wf h g l hw hg).1).1 h2
      exact ⟨h', by rw [hg]; exact h3, h4⟩
    · rintro ⟨h', h1, h2⟩
      cases hs : h.step l with
      | none => rw [hs] at h1; cases h1
      | some g =>
        rw [hs] at h1
        exact ⟨g.state, (process_line_history h hw l _).2 ⟨g, hs, rfl⟩,
          (ih g (History.step_wf h g l hw hs).1).2 ⟨h', h1, h2⟩⟩

theorem History.start_wf (t : String) (n e : Nat) (hn : n < 2 ^ 31) (he : e < 2 ^ 31) :
    (History.start t n e).wf :=
  ⟨hn, he, rfl, Nat.zero_le _, Nat.zero_le _, (by intro k f hk; cases hk),
    (by intro k hk; cases hk)⟩

/-- The line loop from the start of `read`: either no zone header was read, every line
was unrecognised and the state is still the initial one; or the lines are unrecognised
lines, a first zone header within `int` range, and a run from the history it starts. -/
theorem process_lines_initial (lines : List Line) (s : ReaderState) :
    process_lines ReaderState.initial lines = .ok s ↔
      ((∀ l ∈ lines, l = Line.other) ∧ s = ReaderState.initial) ∨
      (∃ pre t n e rest h', lines = pre ++ Line.zone t n e :: rest ∧
        (∀ l ∈ pre, l = Line.other) ∧ n < 2 ^ 31 ∧ e < 2 ^ 31 ∧
        (History.start t n e).run rest = some h' ∧ s = h'.state) := by
  induction lines with
  | nil =>
    simp only [process_lines_nil, Except.ok.injEq, List.not_mem_nil, false_implies,
      implies_true, true_and]
    constructor
    · intro h; exact Or.inl h.symm
    · rintro (h | ⟨pre, t, n, e, rest, h', h1, _⟩)
      · exact h.symm
      · cases pre <;> cases h1
  | cons l ls ih =>
    rw [process_lines_cons, bind_eq_ok]
    cases l with
    | zone t n e =>
      constructor
      · rintro ⟨s1, h1, h2⟩
        simp only [process_line, process_zone_initial] at h1
        split_ifs at h1 with hn he
        cases h1
        obtain ⟨h', h3, h4⟩ := (process_lines_history ls _ (History.start_wf t n e hn he) s).1 h2
        exact Or.inr ⟨[], t, n, e, ls, h', rfl, by simp, hn, he, h3, h4⟩
      · rintro (⟨h1, _⟩ | ⟨pre, t', n', e', rest, h', h1, h2, hn, he, h3, h4⟩)
        · have := h1 _ (List.mem_cons_self _ _)
          cases this
        · cases pre with
          | nil =>
            simp only [List.nil_append, List.cons.injEq, Line.zone.injEq] at h1
            obtain ⟨⟨rfl, rfl, rfl⟩, rfl⟩ := h1
            refine ⟨(History.start t n e).state, ?_, ?_⟩
            · simp only [process_line, process_zone_initial, if_pos hn, if_pos he]
            · exact (process_lines_history _ _ (History.start_wf t n e hn he) s).2 ⟨h', h3, h4⟩
          | cons p ps =>
            simp only [List.cons_append, List.cons.injEq] at h1
            have := h2 p (List.mem_cons_self _ _)
            rw [← h1.1] at this
            cases this
    | intRow a as =>
      constructor
      · rintro ⟨s1, h1, _⟩
        simp [process_line, process_int_row, ReaderState.initial] at h1
      · rintro (⟨h1, _⟩ | ⟨pre, t', n', e', rest, h', h1, h2, _⟩)
        · have := h1 _ (List.mem_cons_self _ _)
          cases this
        · cases pre with
          | nil => cases h1
          | cons p ps =>
            simp only [List.cons_append, List.cons.injEq] at h1
            have := h2 p (List.mem_cons_self _ _)
            rw [← h1.1] at this
            cases this
    | floatRow a as =>
      constructor
      · rintro ⟨s1, h1, _⟩
        simp [process_line, process_float_row, ReaderState.initial, List.foldlM_cons,
          route_float_later, TecplotData.current_mx_is_full, TecplotData.empty, value,
          bind, Except.bind] at h1
      · rintro (⟨h1, _⟩ | ⟨pre, t', n', e', rest, h', h1, h2, _⟩)
        · have := h1 _ (List.mem_cons_self _ _)
          cases this
        · cases pre with
          | nil => cases h1
          | cons p ps =>
            simp only [List.cons_append, List.cons.injEq] at h1
            have := h2 p (List.mem_cons_self _ _)
            rw [← h1.1] at this
            cases this
    | other =>
      simp only [process_line, pure, Except.pure, Except.ok.injEq, exists_eq_left', ih,
        List.mem_cons, forall_eq_or_imp, true_and]
      constructor
      · rintro (h | ⟨pre, t, n, e, rest, h', h1, h2, hr⟩)
        · exact Or.inl h
        · refine Or.inr ⟨Line.other :: pre, t, n, e, rest, h', by rw [h1]; rfl, ?_, hr⟩
          intro l hl
          rcases List.mem_cons.1 hl with rfl | hl
          · rfl
          · exact h2 l hl
      · rintro (h | ⟨pre, t, n, e, rest, h', h1, h2, hr⟩)
        · exact Or.inl h
        · cases pre with
          | nil => cases h1
          | cons p ps =>
            simp only [List.cons_append, List.cons.injEq] at h1
            exact Or.inr ⟨ps, t, n, e, rest, h', h1.2,
              fun l hl => h2 l (List.mem_cons_of_mem _ hl), hr⟩

/-! ## The history in terms of the input -/

theorem reduceOption_map_some {α : Type} (toks : List (Option α))
    (h : ∀ t ∈ toks, t ≠ none) : toks.reduceOption.map some = toks := by
  induction toks with
  | nil => rfl
  | cons t ts ih =>
    cases t with
    | none => exact absurd rfl (h none (List.mem_cons_self _ _))
    | some d =>
      rw [List.reduceOption_cons_of_some, List.map_cons,
        ih (fun t ht => h t (List.mem_cons_of_mem _ ht))]

theorem headers_cons_zone (t : String) (n e : Nat) (ls : List Line) :
    headers (Line.zone t n e :: ls) = (t, n, e) :: headers ls := rfl

theorem zoneBodies_cons_zone (t : String) (n e : Nat) (ls : List Line) :
    zoneBodies (Line.zone t n e :: ls) = ls.takeWhile Line.notZone :: zoneBodies ls := rfl

theorem intTokensOf_cons (l : Line) (ls : List Line) :
    intTokensOf (l :: ls) = l.intTokens ++ intTokensOf ls := rfl

theorem floatTokensOf_cons (l : Line) (ls : List Line) :
    floatTokensOf (l :: ls) = l.floatTokens ++ floatTokensOf ls := rfl

theorem History.run_tokens (ls : List Line) (h h' : History) (hr : h.run ls = some h') :
    h'.titles = h.titles ++ (headers ls).map (fun x => x.1) ∧
    (∀ x ∈ headers ls, x.2 = (h.V, h.E)) ∧
    h'.zones.map (List.map some) =
      h.done.map (List.map some) ++
        (h.cur.map some ++ floatTokensOf (ls.takeWhile Line.notZone)) ::
          (zoneBodies ls).map floatTokensOf ∧
    (h.done = [] → h'.ints = h.ints ++ intTokensOf (ls.takeWhile Line.notZone)) ∧
    (h.done ≠ [] → h'.ints = h.ints ∧ intTokensOf (ls.takeWhile Line.notZone) = []) ∧
    (∀ b ∈ zoneBodies ls, intTokensOf b = []) := by
  induction ls generalizing h with
  | nil =>
    cases hr
    simp [headers, zoneBodies, floatTokensOf, intTokensOf, History.zones]
  | cons l ls ih =>
    rw [History.run_cons] at hr
    cases hs : h.step l with
    | none => rw [hs] at hr; cases hr
    | some h1 =>
      rw [hs] at hr
      obtain ⟨i1, i2, i3, i4, i5, i6⟩ := ih h1 hr
      cases l with
      | zone t n e =>
        simp only [History.step] at hs
        split_ifs at hs with hc
        cases hs
        obtain ⟨rfl, rfl⟩ := hc
        have hne : h.done ++ [h.cur] ≠ [] := by simp
        obtain ⟨j1, j2⟩ := i5 hne
        refine ⟨?_, ?_, ?_, ?_, ?_, ?_⟩
        · rw [i1, headers_cons_zone]; simp
        · intro x hx
          rw [headers_cons_zone] at hx
          rcases List.mem_cons.1 hx with rfl | hx
          · rfl
          · exact i2 x hx
        · rw [i3, zoneBodies_cons_zone]
          simp [Line.notZone, Line.isZone, floatTokensOf]
        · intro _; rw [j1]; simp [Line.notZone, Line.isZone, intTokensOf]
        · intro _; rw [j1]; simp [Line.notZone, Line.isZone, intTokensOf]
        · intro b hb
          rw [zoneBodies_cons_zone] at hb
          rcases List.mem_cons.1 hb with rfl | hb
          · exact j2
          · exact i6 b hb
      | intRow a as =>
        simp only [History.step] at hs
        split_ifs at hs with hc
        cases hs
        have htw : (Line.intRow a as :: ls).takeWhile Line.notZone =
            Line.intRow a as :: ls.takeWhile Line.notZone := rfl
        refine ⟨i1, i2, ?_, ?_, ?_, i6⟩
        · rw [i3, htw, floatTokensOf_cons]; rfl
        · intro hd
          rw [i4 hd, htw, intTokensOf_cons]
          simp [Line.intTokens]
        · intro hd; exact absurd hc.1 hd
      | floatRow a as =>
        simp only [History.step] at hs
        split_ifs at hs with hc
        cases hs
        have htw : (Line.floatRow a as :: ls).takeWhile Line.notZone =
            Line.floatRow a as :: ls.takeWhile Line.notZone := rfl
        refine ⟨i1, i2, ?_, ?_, ?_, i6⟩
        · rw [i3, htw, floatTokensOf_cons]
          simp only [List.map_append, reduceOption_map_some _ hc.2, Line.floatTokens,
            List.append_assoc]
          rfl
        · intro hd
          rw [i4 hd, htw, intTokensOf_cons]; rfl
        · intro hd
          rw [htw, intTokensOf_cons]
          exact i5 hd
      | other =>
        simp only [History.step, Option.some.injEq] at hs
        subst hs
        have htw : (Line.other :: ls).takeWhile Line.notZone =
            Line.other :: ls.takeWhile Line.notZone := rfl
        refine ⟨i1, i2, ?_, ?_, ?_, i6⟩
        · rw [i3, htw, floatTokensOf_cons]; rfl
        · intro hd
          rw [i4 hd, htw, intTokensOf_cons]; rfl
        · intro hd
          rw [htw, intTokensOf_cons]
          exact i5 hd

/-! ## The projections of the accumulator -/

theorem mapM_eq_ok {α β : Type} (f : α → Except Error β) (xs : List α) (ys : List β) :
    xs.mapM f = .ok ys ↔ List.Forall₂ (fun x y => f x = .ok y) xs ys := by
  induction xs generalizing ys with
  | nil =>
    simp only [List.mapM_nil, pure, Except.pure, Except.ok.injEq, List.forall₂_nil_left_iff]
    exact eq_comm
  | cons x xs ih =>
    rw [List.mapM_cons, bind_eq_ok]
    constructor
    · rintro ⟨y, h1, h2⟩
      rw [bind_eq_ok] at h2
      obtain ⟨ys', h3, h4⟩ := h2
      simp only [pure, Except.pure, Except.ok.injEq] at h4
      subst h4
      exact List.Forall₂.cons h1 ((ih ys').1 h3)
    · intro h
      cases h with
      | cons h1 h2 =>
        refine ⟨_, h1, ?_⟩
        rw [bind_eq_ok]
        exact ⟨_, (ih _).2 h2, rfl⟩

theorem mapM_range_eq_ok {β : Type} (f : Nat → Except Error β) (n : Nat) (ys : List β) :
    (List.range n).mapM f = .ok ys ↔
      ys.length = n ∧ ∀ i, i < n → ∃ y, ys[i]? = some y ∧ f i = .ok y := by
  rw [mapM_eq_ok, List.forall₂_iff_get]
  simp only [List.length_range, List.get_eq_getElem, List.getElem_range]
  constructor
  · rintro ⟨h1, h2⟩
    refine ⟨h1.symm, fun i hi => ⟨ys[i], ?_, h2 i hi (h1 ▸ hi)⟩⟩
    exact List.getElem?_eq_getElem (h1 ▸ hi)
  · rintro ⟨h1, h2⟩
    refine ⟨h1.symm, fun i hi hi' => ?_⟩
    obtain ⟨y, h3, h4⟩ := h2 i hi
    rw [List.getElem?_eq_getElem hi'] at h3
    cases h3
    exact h4

theorem value_eq_ok {α : Type} (o : Option α) (a : α) : value o = .ok a ↔ o = some a := by
  cases o <;> simp [value]

theorem at_index_eq_ok {α : Type} (v : List α) (i : Nat) (a : α) :
    at_index v i = .ok a ↔ v[i]? = some a := by
  unfold at_index
  cases v[i]? <;> simp

theorem get_verts_eq_ok (c : TecplotData) (vs : List Vec3) :
    c.get_verts = .ok vs ↔
      ∃ V, c.n_verts = some V ∧ vs.length = V ∧
        ∀ i, i < V → ∃ a b d, c.x[i]? = some a ∧ c.y[i]? = some b ∧ c.z[i]? = some d ∧
          vs[i]? = some (a, b, d) := by
  unfold TecplotData.get_verts
  rw [bind_eq_ok]
  simp only [value_eq_ok, mapM_range_eq_ok, bind_eq_ok, at_index_eq_ok, pure, Except.pure,
    Except.ok.injEq]
  constructor
  · rintro ⟨V, h1, h2, h3⟩
    refine ⟨V, h1, h2, fun i hi => ?_⟩
    obtain ⟨y, h4, a, h5, b, h6, d, h7, h8⟩ := h3 i hi
    exact ⟨a, b, d, h5, h6, h7, h8 ▸ h4⟩
  · rintro ⟨V, h1, h2, h3⟩
    refine ⟨V, h1, h2, fun i hi => ?_⟩
    obtain ⟨a, b, d, h5, h6, h7, h8⟩ := h3 i hi
    exact ⟨_, h8, a, h5, b, h6, d, h7, rfl⟩

theorem get_elements_eq_ok (c : TecplotData) (es : List Tet) :
    c.get_elements = .ok es ↔
      ∃ E, c.n_elems = some E ∧ es.length = E ∧
        ∀ i, i < E → ∃ a b d e, c.tetra_idxs[4 * i]? = some a ∧
          c.tetra_idxs[4 * i + 1]? = some b ∧ c.tetra_idxs[4 * i + 2]? = some d ∧
          c.tetra_idxs[4 * i + 3]? = some e ∧ es[i]? = some (a, b, d, e) := by
  unfold TecplotData.get_elements
  rw [bind_eq_ok]
  simp only [value_eq_ok, mapM_range_eq_ok, bind_eq_ok, at_index_eq_ok, pure, Except.pure,
    Except.ok.injEq, Nat.add_zero]
  constructor
  · rintro ⟨E, h1, h2, h3⟩
    refine ⟨E, h1, h2, fun i hi => ?_⟩
    obtain ⟨y, h4, a, h5, b, h6, d, h7, e, h8, h9⟩ := h3 i hi
    exact ⟨a, b, d, e, h5, h6, h7, h8, h9 ▸ h4⟩
  · rintro ⟨E, h1, h2, h3⟩
    refine ⟨E, h1, h2, fun i hi => ?_⟩
    obtain ⟨a, b, d, e, h5, h6, h7, h8, h9⟩ := h3 i hi
    exact ⟨_, h9, a, h5, b, h6, d, h7, e, h8, rfl⟩

theorem get_submesh_idxs_eq_ok (c : TecplotData) (ss : List Nat) :
    c.get_submesh_idxs = .ok ss ↔
      ∃ E, c.n_elems = some E ∧ ss.length = E ∧
        ∀ i, i < E → ∃ a, c.tetra_submesh_idxs[i]? = some a ∧ ss[i]? = some a := by
  unfold TecplotData.get_submesh_idxs
  rw [bind_eq_ok]
  simp only [value_eq_ok, mapM_range_eq_ok, at_index_eq_ok]
  constructor
  · rintro ⟨E, h1, h2, h3⟩
    refine ⟨E, h1, h2, fun i hi => ?_⟩
    obtain ⟨y, h4, h5⟩ := h3 i hi
    exact ⟨y, h5, h4⟩
  · rintro ⟨E, h1, h2, h3⟩
    refine ⟨E, h1, h2, fun i hi => ?_⟩
    obtain ⟨y, h4, h5⟩ := h3 i hi
    exact ⟨y, h5, h4⟩

theorem get_field_eq_ok (c : TecplotData) (k : Nat) (f : Field) :
    c.get_field k = .ok f ↔
      ∃ V, c.n_verts = some V ∧ Field.annotation f = "" ∧ f.vectors.length = V ∧
        ∀ i, i < V → ∃ ax ay az a b d, c.mx[k]? = some ax ∧ ax[i]? = some a ∧
          c.my[k]? = some ay ∧ ay[i]? = some b ∧ c.mz[k]? = some az ∧ az[i]? = some d ∧
          f.vectors[i]? = some (a, b, d) := by
  unfold TecplotData.get_field
  rw [bind_eq_ok]
  simp only [value_eq_ok, mapM_range_eq_ok, bind_eq_ok, at_index_eq_ok, pure, Except.pure,
    Except.ok.injEq]
  constructor
  · rintro ⟨V, h1, vs, ⟨h2, h3⟩, rfl⟩
    refine ⟨V, h1, rfl, h2, fun i hi => ?_⟩
    obtain ⟨y, h4, ax, hx, a, ha, ay, hy, b, hb, az, hz, d, hd, h9⟩ := h3 i hi
    exact ⟨ax, ay, az, a, b, d, hx, ha, hy, hb, hz, hd, h9 ▸ h4⟩
  · rintro ⟨V, h1, h0, h2, h3⟩
    refine ⟨V, h1, f.vectors, ⟨h2, fun i hi => ?_⟩, ?_⟩
    · obtain ⟨ax, ay, az, a, b, d, hx, ha, hy, hb, hz, hd, h9⟩ := h3 i hi
      exact ⟨_, h9, ax, hx, a, ha, ay, hy, b, hb, az, hz, d, hd, rfl⟩
    · cases f
      simp only at h0
      subst h0
      rfl

theorem foldl_add_field (fs : List Field) (fl : FieldList) :
    (fs.foldl FieldList.add_field fl).fields = fl.fields ++ fs := by
  induction fs generalizing fl with
  | nil => simp
  | cons f fs ih => simp [ih, FieldList.add_field]

theorem get_fields_eq_ok (c : TecplotData) (fl : FieldList) :
    c.get_fields = .ok fl ↔
      ∃ Z, c.n_zones = some Z ∧ fl.fields.length = Z ∧
        ∀ k, k < Z → ∃ f, fl.fields[k]? = some f ∧ c.get_field k = .ok f := by
  unfold TecplotData.get_fields
  rw [bind_eq_ok]
  simp only [value_eq_ok, mapM_range_eq_ok, bind_eq_ok, pure, Except.pure, Except.ok.injEq]
  constructor
  · rintro ⟨Z, h1, fs, ⟨h2, h3⟩, rfl⟩
    refine ⟨Z, h1, ?_, ?_⟩
    · rw [foldl_add_field]; simpa using h2
    · intro k hk
      rw [foldl_add_field]
      simpa using h3 k hk
  · rintro ⟨Z, h1, h2, h3⟩
    refine ⟨Z, h1, fl.fields, ⟨h2, h3⟩, ?_⟩
    obtain ⟨fs⟩ := fl
    have h := foldl_add_field fs { fields := [] }
    generalize List.foldl FieldList.add_field { fields := [] } fs = r at h ⊢
    obtain ⟨rs⟩ := r
    simp only [List.nil_append] at h
    rw [h]

/-! ## The whole of `read` -/

theorem finish_object_eq_ok (c c' : TecplotData) :
    c.finish_object = .ok c' ↔
      TecplotData.validate_object { c with n_zones := some c.zone_titles.length } = .ok () ∧
        c' = { c with n_zones := some c.zone_titles.length } := by
  unfold TecplotData.finish_object
  simp only [bind_eq_ok, pure, Except.pure, Except.ok.injEq]
  constructor
  · rintro ⟨_, h1, h2⟩; exact ⟨h1, h2.symm⟩
  · rintro ⟨h1, h2⟩; exact ⟨(), h1, h2.symm⟩

theorem finish_eq_ok (c : TecplotData) (m : Model) :
    finish c = .ok m ↔
      ∃ c', c.finish_object = .ok c' ∧ c'.get_verts = .ok m.mesh.vcl ∧
        c'.get_elements = .ok m.mesh.til ∧ c'.get_submesh_idxs = .ok m.mesh.sml ∧
        c'.get_fields = .ok m.field_list := by
  unfold finish
  simp only [bind_eq_ok, pure, Except.pure, Except.ok.injEq]
  constructor
  · rintro ⟨c', h1, vs, h2, es, h3, ss, h4, fs, h5, rfl⟩
    exact ⟨c', h1, h2, h3, h4, h5⟩
  · rintro ⟨c', h1, h2, h3, h4, h5⟩
    exact ⟨c', h1, _, h2, _, h3, _, h4, _, h5, rfl⟩

theorem read_eq_ok (lines : List Line) (m : Model) :
    read lines = .ok m ↔
      ∃ s, process_lines ReaderState.initial lines = .ok s ∧ finish s.curves = .ok m := by
  unfold read
  rw [bind_eq_ok]

theorem finish_empty (m : Model) : finish TecplotData.empty ≠ .ok m := by
  intro h
  rw [finish_eq_ok] at h
  obtain ⟨c', h1, _⟩ := h
  rw [finish_object_eq_ok] at h1
  simp [TecplotData.validate_object, TecplotData.empty, value, bind, Except.bind] at h1

theorem headers_append (ls ls' : List Line) : headers (ls ++ ls') = headers ls ++ headers ls' := by
  simp [headers]

theorem headers_of_other (pre : List Line) (h : ∀ l ∈ pre, l = Line.other) : headers pre = [] := by
  induction pre with
  | nil => rfl
  | cons l ls ih =>
    have := h l (List.mem_cons_self _ _)
    subst this
    exact ih (fun l hl => h l (List.mem_cons_of_mem _ hl))

theorem zoneBodies_append_other (pre ls : List Line) (h : ∀ l ∈ pre, l = Line.other) :
    zoneBodies (pre ++ ls) = zoneBodies ls := by
  induction pre with
  | nil => rfl
  | cons l pre ih =>
    have := h l (List.mem_cons_self _ _)
    subst this
    exact ih (fun l hl => h l (List.mem_cons_of_mem _ hl))

theorem preamble_append_zone (pre ls : List Line) (t : String) (n e : Nat)
    (h : ∀ l ∈ pre, l = Line.other) : preamble (pre ++ Line.zone t n e :: ls) = pre := by
  induction pre with
  | nil => rfl
  | cons l pre ih =>
    have := h l (List.mem_cons_self _ _)
    subst this
    simp only [preamble, List.cons_append] at ih ⊢
    rw [List.takeWhile_cons_of_pos (by rfl), ih (fun l hl => h l (List.mem_cons_of_mem _ hl))]

theorem headers_eq_map_titles (hs : List (String × Nat × Nat)) (V E : Nat)
    (h : ∀ x ∈ hs, x.2 = (V, E)) : hs = (hs.map (fun x => x.1)).map (fun t => (t, V, E)) := by
  induction hs with
  | nil => rfl
  | cons x xs ih =>
    obtain ⟨t, ne⟩ := x
    have hx : ne = (V, E) := h (t, ne) (List.mem_cons_self _ _)
    subst hx
    simp only [List.map_cons, List.cons.injEq, true_and]
    exact ih (fun y hy => h y (List.mem_cons_of_mem _ hy))

/-- A successful line loop that read at least one zone header ends in the state of a
history that is tied to the input: the headers all repeat the counts of the first one,
the float values of zone `k` are the float tokens of the lines of zone `k`, the integers
are the integer tokens of the first zone, and integer rows occur in no other place. -/
theorem process_lines_ok_history (lines : List Line) (s : ReaderState)
    (hp : process_lines ReaderState.initial lines = .ok s) (hh : headers lines ≠ []) :
    ∃ h : History, h.wf ∧ s = h.state ∧
      headers lines = h.titles.map (fun t => (t, h.V, h.E)) ∧
      h.zones.map (List.map some) = (zoneBodies lines).map floatTokensOf ∧
      h.ints = firstZoneInts lines ∧
      (∀ b ∈ (zoneBodies lines).tail, intTokensOf b = []) ∧
      (∀ l ∈ preamble lines, l = Line.other) := by
  rcases (process_lines_initial lines s).1 hp with ⟨h1, _⟩ | ⟨pre, t, n, e, rest, h', rfl, h2, hn, he, hr, hs⟩
  · exact absurd (headers_of_other lines h1) hh
  · obtain ⟨w, hV, hE⟩ := History.run_wf rest _ h' (History.start_wf t n e hn he) hr
    obtain ⟨r1, r2, r3, r4, _, r6⟩ := History.run_tokens rest _ h' hr
    simp only [History.start] at hV hE r1 r2 r3 r4
    refine ⟨h', w, hs, ?_, ?_, ?_, ?_, ?_⟩
    · rw [headers_append, headers_of_other pre h2, List.nil_append, headers_cons_zone, r1, hV,
        hE]
      simp only [List.singleton_append, List.map_cons, List.cons.injEq, true_and]
      exact headers_eq_map_titles _ n e r2
    · rw [zoneBodies_append_other pre _ h2, zoneBodies_cons_zone, r3]
      simp
    · rw [r4 trivial, firstZoneInts, zoneBodies_append_other pre _ h2, zoneBodies_cons_zone]
      simp
    · rw [zoneBodies_append_other pre _ h2, zoneBodies_cons_zone]
      exact r6
    · rw [preamble_append_zone pre rest t n e h2]
      exact h2

theorem read_ok_history (lines : List Line) (m : Model) (hr : read lines = .ok m) :
    ∃ h : History, h.wf ∧ finish h.curves = .ok m ∧
      headers lines = h.titles.map (fun t => (t, h.V, h.E)) ∧
      h.zones.map (List.map some) = (zoneBodies lines).map floatTokensOf ∧
      h.ints = firstZoneInts lines ∧
      (∀ b ∈ (zoneBodies lines).tail, intTokensOf b = []) ∧
      (∀ l ∈ preamble lines, l = Line.other) := by
  obtain ⟨s, hp, hf⟩ := (read_eq_ok lines m).1 hr
  by_cases hh : headers lines = []
  · exfalso
    rcases (process_lines_initial lines s).1 hp with ⟨_, h1⟩ | ⟨pre, t, n, e, rest, h', rfl, h2, _⟩
    · subst h1
      exact finish_empty m hf
    · rw [headers_append, headers_cons_zone] at hh
      simp at hh
  · obtain ⟨h, w, rfl, r⟩ := process_lines_ok_history lines s hp hh
    exact ⟨h, w, hf, r⟩

/-! ## The model in terms of the history -/

theorem History.comp_getElem? (j V : Nat) (zs : List (List Dbl)) (k : Nat) :
    (History.comp j V zs)[k]? = (zs[k]?).map (slice ((if k = 0 then 3 else 0) + j) V) := by
  cases zs with
  | nil => simp [History.comp]
  | cons f later =>
    cases k with
    | zero => simp [History.comp, Nat.add_comm]
    | succ k => simp [History.comp, List.getElem?_map]

theorem History.curves_mx (h : History) : h.curves.mx = History.comp 0 h.V h.zones := by
  simp [History.curves, History.zones, History.comp_snoc, History.offset]

theorem History.curves_my (h : History) : h.curves.my = History.comp 1 h.V h.zones := by
  simp [History.curves, History.zones, History.comp_snoc, History.offset]

theorem History.curves_mz (h : History) : h.curves.mz = History.comp 2 h.V h.zones := by
  simp [History.curves, History.zones, History.comp_snoc, History.offset]

theorem History.zones_length (h : History) : h.zones.length = h.done.length + 1 := by
  simp [History.zones]

theorem History.firstZone_eq (h : History) : h.zones[0]? = some h.firstZone := by
  unfold History.zones History.firstZone
  cases h.done <;> simp

/-- What a successful `finish` on the accumulator of a history returns. -/
theorem finish_history (h : History) (hw : h.wf) (m : Model) (hf : finish h.curves = .ok m) :
    (m.mesh.vcl.length = h.V ∧ ∀ i, i < h.V → ∃ a b d, h.firstZone[i]? = some a ∧
        h.firstZone[h.V + i]? = some b ∧ h.firstZone[2 * h.V + i]? = some d ∧
        m.mesh.vcl[i]? = some (a, b, d)) ∧
    (m.mesh.sml.length = h.E ∧ ∀ j, j < h.E → ∃ a, h.ints[j]? = some a ∧
        m.mesh.sml[j]? = some a) ∧
    (m.mesh.til.length = h.E ∧ ∀ j, j < h.E → ∃ a b d e, h.ints[h.E + 4 * j]? = some a ∧
        h.ints[h.E + 4 * j + 1]? = some b ∧ h.ints[h.E + 4 * j + 2]? = some d ∧
        h.ints[h.E + 4 * j + 3]? = some e ∧
        m.mesh.til[j]? = some (sub_one_u64 a, sub_one_u64 b, sub_one_u64 d, sub_one_u64 e)) ∧
    (m.field_list.fields.length = h.zones.length ∧ ∀ k, k < h.zones.length →
      ∃ f g, m.field_list.fields[k]? = some f ∧ h.zones[k]? = some g ∧
        Field.annotation f = "" ∧ f.vectors.length = h.V ∧
        ∀ i, i < h.V → ∃ a b d, g[((if k = 0 then 3 else 0) + 0) * h.V + i]? = some a ∧
          g[((if k = 0 then 3 else 0) + 1) * h.V + i]? = some b ∧
          g[((if k = 0 then 3 else 0) + 2) * h.V + i]? = some d ∧
          f.vectors[i]? = some (a, b, d)) := by
  obtain ⟨c', h1, h2, h3, h4, h5⟩ := (finish_eq_ok _ _).1 hf
  obtain ⟨_, rfl⟩ := (finish_object_eq_ok _ _).1 h1
  refine ⟨?_, ?_, ?_, ?_⟩
  · obtain ⟨V, e1, e2, e3⟩ := (get_verts_eq_ok _ _).1 h2
    simp only [History.curves, Option.some.injEq] at e1
    subst e1
    refine ⟨e2, fun i hi => ?_⟩
    obtain ⟨a, b, d, ha, hb, hd, hv⟩ := e3 i hi
    simp only [History.curves, slice_getElem? _ _ _ _ hi] at ha hb hd
    exact ⟨a, b, d, by simpa using ha, by simpa using hb, hd, hv⟩
  · obtain ⟨E, e1, e2, e3⟩ := (get_submesh_idxs_eq_ok _ _).1 h4
    simp only [History.curves, Option.some.injEq] at e1
    subst e1
    refine ⟨e2, fun j hj => ?_⟩
    obtain ⟨a, ha, hv⟩ := e3 j hj
    simp only [History.curves, List.getElem?_take, if_pos hj] at ha
    exact ⟨a, ha, hv⟩
  · obtain ⟨E, e1, e2, e3⟩ := (get_elements_eq_ok _ _).1 h3
    simp only [History.curves, Option.some.injEq] at e1
    subst e1
    refine ⟨e2, fun j hj => ?_⟩
    obtain ⟨a, b, d, e, ha, hb, hd, he, hv⟩ := e3 j hj
    simp only [History.curves, List.getElem?_map, List.getElem?_drop, Option.map_eq_some']
      at ha hb hd he
    obtain ⟨a', ha', rfl⟩ := ha
    obtain ⟨b', hb', rfl⟩ := hb
    obtain ⟨d', hd', rfl⟩ := hd
    obtain ⟨e', he', rfl⟩ := he
    exact ⟨a', b', d', e', ha', by rw [← hb']; congr 1, by rw [← hd']; congr 1,
      by rw [← he']; congr 1, hv⟩
  · obtain ⟨Z, e1, e2, e3⟩ := (get_fields_eq_ok _ _).1 h5
    simp only [History.curves, Option.some.injEq] at e1
    have hZ : Z = h.zones.length := by rw [History.zones_length, ← e1]; exact hw.2.2.1
    subst hZ
    refine ⟨e2, fun k hk => ?_⟩
    obtain ⟨f, hf1, hf2⟩ := e3 k hk
    obtain ⟨V, g1, g2, g3, g4⟩ := (get_field_eq_ok _ _ _).1 hf2
    simp only [History.curves, Option.some.injEq] at g1
    subst g1
    refine ⟨f, h.zones[k], hf1, List.getElem?_eq_getElem hk, g2, g3, fun i hi => ?_⟩
    obtain ⟨ax, ay, az, a, b, d, hx, ha, hy, hb, hz, hd, hv⟩ := g4 i hi
    have hx' : h.curves.mx[k]? = some ax := hx
    have hy' : h.curves.my[k]? = some ay := hy
    have hz' : h.curves.mz[k]? = some az := hz
    rw [History.curves_mx, History.comp_getElem?, List.getElem?_eq_getElem hk] at hx'
    rw [History.curves_my, History.comp_getElem?, List.getElem?_eq_getElem hk] at hy'
    rw [History.curves_mz, History.comp_getElem?, List.getElem?_eq_getElem hk] at hz'
    simp only [Option.map_some', Option.some.injEq] at hx' hy' hz'
    subst hx' hy' hz'
    rw [slice_getElem? _ _ _ _ hi] at ha hb hd
    exact ⟨a, b, d, ha, hb, hd, hv⟩

/-! ## The model in terms of the input -/

theorem zoneFloats_of_history (lines : List Line) (h : History)
    (hz : h.zones.map (List.map some) = (zoneBodies lines).map floatTokensOf)
    (k : Nat) (g : List Dbl) (hg : h.zones[k]? = some g) :
    zoneFloats lines k = g.map some := by
  have h1 : (h.zones.map (List.map some))[k]? = some (g.map some) := by
    rw [List.getElem?_map, hg]; rfl
  rw [hz, List.getElem?_map] at h1
  unfold zoneFloats
  cases hb : (zoneBodies lines)[k]? with
  | none => rw [hb] at h1; cases h1
  | some b =>
    rw [hb] at h1
    simp only [Option.map_some', Option.some.injEq] at h1
    rw [List.getD_eq_getElem?_getD, hb]
    exact h1

theorem getElem?_map_some {α : Type} (g : List α) (n : Nat) (a : α) (h : g[n]? = some a) :
    (g.map some)[n]? = some (some a) := by
  rw [List.getElem?_map, h]; rfl

/-- What a successful `read` returns, in terms of the tokens of the input. -/
theorem read_ok_tokens (lines : List Line) (m : Model) (hr : read lines = .ok m) :
    ∃ t V E rest, headers lines = (t, V, E) :: rest ∧ (∀ x ∈ rest, x.2 = (V, E)) ∧
    (m.mesh.vcl.length = V ∧ ∀ i, i < V → ∃ a b d, (zoneFloats lines 0)[i]? = some (some a) ∧
        (zoneFloats lines 0)[V + i]? = some (some b) ∧
        (zoneFloats lines 0)[2 * V + i]? = some (some d) ∧
        m.mesh.vcl[i]? = some (a, b, d)) ∧
    (m.mesh.sml.length = E ∧ ∀ j, j < E → ∃ a, (firstZoneInts lines)[j]? = some a ∧
        m.mesh.sml[j]? = some a) ∧
    (m.mesh.til.length = E ∧ ∀ j, j < E → ∃ a b d e,
        (firstZoneInts lines)[E + 4 * j]? = some a ∧
        (firstZoneInts lines)[E + 4 * j + 1]? = some b ∧
        (firstZoneInts lines)[E + 4 * j + 2]? = some d ∧
        (firstZoneInts lines)[E + 4 * j + 3]? = some e ∧
        a < 2 ^ 64 ∧ b < 2 ^ 64 ∧ d < 2 ^ 64 ∧ e < 2 ^ 64 ∧
        m.mesh.til[j]? = some (sub_one_u64 a, sub_one_u64 b, sub_one_u64 d, sub_one_u64 e)) ∧
    (m.field_list.fields.length = (headers lines).length ∧
      ∀ k, k < (headers lines).length →
      ∃ f, m.field_list.fields[k]? = some f ∧ Field.annotation f = "" ∧ f.vectors.length = V ∧
        ∀ i, i < V → ∃ a b d,
          (zoneFloats lines k)[((if k = 0 then 3 else 0) + 0) * V + i]? = some (some a) ∧
          (zoneFloats lines k)[((if k = 0 then 3 else 0) + 1) * V + i]? = some (some b) ∧
          (zoneFloats lines k)[((if k = 0 then 3 else 0) + 2) * V + i]? = some (some d) ∧
          f.vectors[i]? = some (a, b, d)) := by
  obtain ⟨h, hw, hf, r1, r2, r3, _, _⟩ := read_ok_history lines m hr
  obtain ⟨f1, f2, f3, f4⟩ := finish_history h hw m hf
  have hlen : (headers lines).length = h.zones.length := by
    rw [r1, List.length_map, History.zones_length]; exact hw.2.2.1
  obtain ⟨t, ts, hts⟩ : ∃ t ts, h.titles = t :: ts := by
    cases ht : h.titles with
    | nil => have := hw.2.2.1; rw [ht] at this; cases this
    | cons t ts => exact ⟨t, ts, rfl⟩
  refine ⟨t, h.V, h.E, ts.map (fun t => (t, h.V, h.E)), ?_, ?_, ?_, ?_, ?_, ?_⟩
  · rw [r1, hts]; rfl
  · intro x hx
    obtain ⟨_, _, rfl⟩ := List.mem_map.1 hx
    rfl
  · refine ⟨f1.1, fun i hi => ?_⟩
    obtain ⟨a, b, d, ha, hb, hd, hv⟩ := f1.2 i hi
    rw [zoneFloats_of_history lines h r2 0 _ (History.firstZone_eq h)]
    exact ⟨a, b, d, getElem?_map_some _ _ _ ha, getElem?_map_some _ _ _ hb,
      getElem?_map_some _ _ _ hd, hv⟩
  · rw [← r3]; exact f2
  · rw [← r3]
    refine ⟨f3.1, fun j hj => ?_⟩
    obtain ⟨a, b, d, e, ha, hb, hd, he, hv⟩ := f3.2 j hj
    have hb64 := hw.2.2.2.2.2.2
    exact ⟨a, b, d, e, ha, hb, hd, he, hb64 a (List.getElem?_mem ha),
      hb64 b (List.getElem?_mem hb), hb64 d (List.getElem?_mem hd),
      hb64 e (List.getElem?_mem he), hv⟩
  · rw [hlen]
    refine ⟨f4.1, fun k hk => ?_⟩
    obtain ⟨f, g, hf1, hg, hann, hvl, hvec⟩ := f4.2 k hk
    refine ⟨f, hf1, hann, hvl, fun i hi => ?_⟩
    obtain ⟨a, b, d, ha, hb, hd, hv⟩ := hvec i hi
    rw [zoneFloats_of_history lines h r2 k g hg]
    exact ⟨a, b, d, getElem?_map_some _ _ _ ha, getElem?_map_some _ _ _ hb,
      getElem?_map_some _ _ _ hd, hv⟩

/-! ## Properties of the model returned by `read` -/

/-- C1: for every input with exactly one zone header, declaring `N=V` and `E=E`, on which
`read` returns a model, the model has exactly `V` vertices, `E` tetrahedra, `E` region
tags and exactly one field snapshot, and that snapshot has exactly `V` vectors. -/
theorem read_single_zone_counts (lines : List Line) (t : String) (V E : Nat) (m : Model)
    (hh : headers lines = [(t, V, E)]) (hr : read lines = .ok m) :
    m.mesh.vcl.length = V ∧ m.mesh.til.length = E ∧ m.mesh.sml.length = E ∧
      ∃ f, m.field_list.fields = [f] ∧ f.vectors.length = V := by
  obtain ⟨t', V', E', rest, h1, _, hv, hs, he, hf⟩ := read_ok_tokens lines m hr
  rw [hh] at h1
  simp only [List.cons.injEq, Prod.mk.injEq] at h1
  obtain ⟨⟨_, rfl, rfl⟩, _⟩ := h1
  refine ⟨hv.1, he.1, hs.1, ?_⟩
  rw [hh] at hf
  obtain ⟨f, hf1, _, hf2, _⟩ := hf.2 0 (by simp)
  have hlen : m.field_list.fields.length = 1 := hf.1
  match hm : m.field_list.fields, hlen with
  | [g], _ =>
    rw [hm] at hf1
    simp only [List.getElem?_cons_zero, Option.some.injEq] at hf1
    exact ⟨g, rfl, hf1 ▸ hf2⟩

/-- Witness for C1 on the scenario of the specification. -/
theorem read_single_zone_counts_witness :
    headers example_single_zone = [("f1", 4, 1)] ∧
    read example_single_zone = .ok example_single_zone_model ∧
    (example_single_zone_model.mesh.vcl.length = 4 ∧
      example_single_zone_model.mesh.til.length = 1 ∧
      example_single_zone_model.mesh.sml.length = 1 ∧
      ∃ f, example_single_zone_model.field_list.fields = [f] ∧ f.vectors.length = 4) :=
  ⟨rfl, rfl, read_single_zone_counts example_single_zone "f1" 4 1 example_single_zone_model
    rfl rfl⟩

/-- C2: for every input with `Z` zone headers (`Z ≥ 1` on every input on which `read`
returns a model) all declaring the same `N=V` and `E` on which `read` returns a model, the
field list has exactly `Z` snapshots, in zone arrival order (snapshot `k` is made of the
float tokens of zone `k`: the tokens of its three component blocks, which in the first zone
follow the three coordinate blocks), and every snapshot has exactly `V` vectors. -/
theorem read_multi_zone_snapshots (lines : List Line) (V E Z : Nat) (m : Model)
    (hlen : (headers lines).length = Z)
    (hall : ∀ x ∈ headers lines, x.2 = (V, E)) (hr : read lines = .ok m) :
    m.field_list.fields.length = Z ∧
      ∀ k, k < Z → ∃ f, m.field_list.fields[k]? = some f ∧ f.vectors.length = V ∧
        ∀ i, i < V → ∃ a b d,
          (zoneFloats lines k)[(if k = 0 then 3 else 0) * V + i]? = some (some a) ∧
          (zoneFloats lines k)[((if k = 0 then 3 else 0) + 1) * V + i]? = some (some b) ∧
          (zoneFloats lines k)[((if k = 0 then 3 else 0) + 2) * V + i]? = some (some d) ∧
          f.vectors[i]? = some (a, b, d) := by
  obtain ⟨t', V', E', rest, h1, _, _, _, _, hf⟩ := read_ok_tokens lines m hr
  have hVE : (V', E') = (V, E) := hall (t', V', E') (by rw [h1]; exact List.mem_cons_self _ _)
  simp only [Prod.mk.injEq] at hVE
  obtain ⟨rfl, rfl⟩ := hVE
  rw [hlen] at hf
  refine ⟨hf.1, fun k hk => ?_⟩
  obtain ⟨f, hf1, _, hf2, hf3⟩ := hf.2 k hk
  refine ⟨f, hf1, hf2, fun i hi => ?_⟩
  obtain ⟨a, b, d, ha, hb, hd, hv⟩ := hf3 i hi
  exact ⟨a, b, d, by simpa using ha, hb, hd, hv⟩

/-- Witness for C2 on an input with two zones. -/
theorem read_multi_zone_snapshots_witness :
    (headers example_two_zones).length = 2 ∧
    (∀ x ∈ headers example_two_zones, x.2 = (2, 0)) ∧
    read example_two_zones = .ok example_two_zones_model ∧
    (example_two_zones_model.field_list.fields.length = 2 ∧
      ∀ k, k < 2 → ∃ f, example_two_zones_model.field_list.fields[k]? = some f ∧
        f.vectors.length = 2 ∧
        ∀ i, i < 2 → ∃ a b d,
          (zoneFloats example_two_zones k)[(if k = 0 then 3 else 0) * 2 + i]? = some (some a) ∧
          (zoneFloats example_two_zones k)[((if k = 0 then 3 else 0) + 1) * 2 + i]? =
            some (some b) ∧
          (zoneFloats example_two_zones k)[((if k = 0 then 3 else 0) + 2) * 2 + i]? =
            some (some d) ∧
          f.vectors[i]? = some (a, b, d)) :=
  ⟨rfl, by decide, rfl,
    read_multi_zone_snapshots example_two_zones 2 0 2 example_two_zones_model rfl
      (by decide) rfl⟩

theorem sub_one_u64_of_pos (a : Nat) (h1 : 1 ≤ a) (h2 : a < 2 ^ 64) : sub_one_u64 a = a - 1 := by
  unfold sub_one_u64
  rw [show a + 2 ^ 64 - 1 = (a - 1) + 2 ^ 64 by omega, Nat.add_mod_right]
  exact Nat.mod_eq_of_lt (by omega)

/-- C3: for every input on which `read` returns a model, with `E` the element count of
the first header and `t` the integer tokens of the integer rows of the first zone in
reading order: for every `j < E`, region tag `j` of the model is `t[j]` unchanged, and
tetrahedron `j` is `(t[E+4j]-1, t[E+4j+1]-1, t[E+4j+2]-1, t[E+4j+3]-1)` provided those
four connectivity tokens are at least 1. -/
theorem read_tags_and_connectivity (lines : List Line) (t : String) (V E : Nat)
    (rest : List (String × Nat × Nat)) (m : Model)
    (hh : headers lines = (t, V, E) :: rest) (hr : read lines = .ok m) (j : Nat) (hj : j < E) :
    (∃ a, (firstZoneInts lines)[j]? = some a ∧ m.mesh.sml[j]? = some a) ∧
    ∃ a b c d, (firstZoneInts lines)[E + 4 * j]? = some a ∧
      (firstZoneInts lines)[E + 4 * j + 1]? = some b ∧
      (firstZoneInts lines)[E + 4 * j + 2]? = some c ∧
      (firstZoneInts lines)[E + 4 * j + 3]? = some d ∧
      (1 ≤ a → 1 ≤ b → 1 ≤ c → 1 ≤ d →
        m.mesh.til[j]? = some (a - 1, b - 1, c - 1, d - 1)) := by
  obtain ⟨t', V', E', rest', h1, _, _, hs, he, _⟩ := read_ok_tokens lines m hr
  rw [hh] at h1
  simp only [List.cons.injEq, Prod.mk.injEq] at h1
  obtain ⟨⟨_, rfl, rfl⟩, _⟩ := h1
  refine ⟨hs.2 j hj, ?_⟩
  obtain ⟨a, b, c, d, ha, hb, hc, hd, ba, bb, bc, bd, hv⟩ := he.2 j hj
  refine ⟨a, b, c, d, ha, hb, hc, hd, fun pa pb pc pd => ?_⟩
  rw [hv, sub_one_u64_of_pos a pa ba, sub_one_u64_of_pos b pb bb, sub_one_u64_of_pos c pc bc,
    sub_one_u64_of_pos d pd bd]

/-- Witness for C3 on the scenario of the specification (`E = 1`, `j = 0`). -/
theorem read_tags_and_connectivity_witness :
    headers example_single_zone = ("f1", 4, 1) :: [] ∧
    read example_single_zone = .ok example_single_zone_model ∧ 0 < 1 ∧
    ((∃ a, (firstZoneInts example_single_zone)[0]? = some a ∧
        example_single_zone_model.mesh.sml[0]? = some a) ∧
    ∃ a b c d, (firstZoneInts example_single_zone)[1 + 4 * 0]? = some a ∧
      (firstZoneInts example_single_zone)[1 + 4 * 0 + 1]? = some b ∧
      (firstZoneInts example_single_zone)[1 + 4 * 0 + 2]? = some c ∧
      (firstZoneInts example_single_zone)[1 + 4 * 0 + 3]? = some d ∧
      (1 ≤ a → 1 ≤ b → 1 ≤ c → 1 ≤ d →
        example_single_zone_model.mesh.til[0]? = some (a - 1, b - 1, c - 1, d - 1))) :=
  ⟨rfl, rfl, by decide,
    read_tags_and_connectivity example_single_zone "f1" 4 1 [] example_single_zone_model rfl rfl
      0 (by decide)⟩

/-- C4: for every input on which `read` returns a model, with `V` the vertex count of the
first header and `f` the float tokens of the float rows between the first zone header and
the second (or the end of the input), in reading order: vertex `i` of the model is
`(f[i], f[V+i], f[2V+i])` for every `i < V`. -/
theorem read_vertices (lines : List Line) (t : String) (V E : Nat)
    (rest : List (String × Nat × Nat)) (m : Model)
    (hh : headers lines = (t, V, E) :: rest) (hr : read lines = .ok m) (i : Nat) (hi : i < V) :
    ∃ a b c, (zoneFloats lines 0)[i]? = some (some a) ∧
      (zoneFloats lines 0)[V + i]? = some (some b) ∧
      (zoneFloats lines 0)[2 * V + i]? = some (some c) ∧
      m.mesh.vcl[i]? = some (a, b, c) := by
  obtain ⟨t', V', E', rest', h1, _, hv, _, _, _⟩ := read_ok_tokens lines m hr
  rw [hh] at h1
  simp only [List.cons.injEq, Prod.mk.injEq] at h1
  obtain ⟨⟨_, rfl, rfl⟩, _⟩ := h1
  exact hv.2 i hi

/-- Witness for C4 on the scenario of the specification (vertex 2 of 4). -/
theorem read_vertices_witness :
    headers example_single_zone = ("f1", 4, 1) :: [] ∧
    read example_single_zone = .ok example_single_zone_model ∧ 2 < 4 ∧
    ∃ a b c, (zoneFloats example_single_zone 0)[2]? = some (some a) ∧
      (zoneFloats example_single_zone 0)[4 + 2]? = some (some b) ∧
      (zoneFloats example_single_zone 0)[2 * 4 + 2]? = some (some c) ∧
      example_single_zone_model.mesh.vcl[2]? = some (a, b, c) :=
  ⟨rfl, rfl, by decide,
    read_vertices example_single_zone "f1" 4 1 [] example_single_zone_model rfl rfl 2
      (by decide)⟩

/-- C5: for every input on which `read` returns a model, with `V` the vertex count, `f`
the float tokens of the first zone and `g_k` the float tokens of the float rows between
the header of zone `k ≥ 1` and the next header (or the end of the input): for every
`i < V`, vector `i` of snapshot 0 is `(f[3V+i], f[4V+i], f[5V+i])` and vector `i` of
snapshot `k` is `(g_k[i], g_k[V+i], g_k[2V+i])`. -/
theorem read_snapshots (lines : List Line) (t : String) (V E : Nat)
    (rest : List (String × Nat × Nat)) (m : Model)
    (hh : headers lines = (t, V, E) :: rest) (hr : read lines = .ok m) (i : Nat) (hi : i < V) :
    (∃ s a b c, m.field_list.fields[0]? = some s ∧
      (zoneFloats lines 0)[3 * V + i]? = some (some a) ∧
      (zoneFloats lines 0)[4 * V + i]? = some (some b) ∧
      (zoneFloats lines 0)[5 * V + i]? = some (some c) ∧
      s.vectors[i]? = some (a, b, c)) ∧
    ∀ k, 1 ≤ k → k < (headers lines).length →
      ∃ s a b c, m.field_list.fields[k]? = some s ∧
        (zoneFloats lines k)[i]? = some (some a) ∧
        (zoneFloats lines k)[V + i]? = some (some b) ∧
        (zoneFloats lines k)[2 * V + i]? = some (some c) ∧
        s.vectors[i]? = some (a, b, c) := by
  obtain ⟨t', V', E', rest', h1, _, _, _, _, hf⟩ := read_ok_tokens lines m hr
  have h2 := h1
  rw [hh] at h2
  simp only [List.cons.injEq, Prod.mk.injEq] at h2
  obtain ⟨⟨_, rfl, rfl⟩, _⟩ := h2
  constructor
  · obtain ⟨s, hs1, _, _, hs3⟩ := hf.2 0 (by rw [h1]; simp)
    obtain ⟨a, b, c, ha, hb, hc, hv⟩ := hs3 i hi
    exact ⟨s, a, b, c, hs1, by simpa using ha, by simpa using hb, by simpa using hc, hv⟩
  · intro k hk1 hk2
    obtain ⟨s, hs1, _, _, hs3⟩ := hf.2 k hk2
    obtain ⟨a, b, c, ha, hb, hc, hv⟩ := hs3 i hi
    have hk0 : k ≠ 0 := by omega
    simp only [hk0, if_false, Nat.zero_add, Nat.zero_mul, Nat.one_mul] at ha hb hc
    exact ⟨s, a, b, c, hs1, ha, hb, hc, hv⟩

/-- Witness for C5 on an input with two zones (vector 1 of 2). -/
theorem read_snapshots_witness :
    headers example_two_zones = ("a", 2, 0) :: [("b", 2, 0)] ∧
    read example_two_zones = .ok example_two_zones_model ∧ 1 < 2 ∧
    ((∃ s a b c, example_two_zones_model.field_list.fields[0]? = some s ∧
      (zoneFloats example_two_zones 0)[3 * 2 + 1]? = some (some a) ∧
      (zoneFloats example_two_zones 0)[4 * 2 + 1]? = some (some b) ∧
      (zoneFloats example_two_zones 0)[5 * 2 + 1]? = some (some c) ∧
      s.vectors[1]? = some (a, b, c)) ∧
    ∀ k, 1 ≤ k → k < (headers example_two_zones).length →
      ∃ s a b c, example_two_zones_model.field_list.fields[k]? = some s ∧
        (zoneFloats example_two_zones k)[1]? = some (some a) ∧
        (zoneFloats example_two_zones k)[2 + 1]? = some (some b) ∧
        (zoneFloats example_two_zones k)[2 * 2 + 1]? = some (some c) ∧
        s.vectors[1]? = some (a, b, c)) :=
  ⟨rfl, rfl, by decide,
    read_snapshots example_two_zones "a" 2 0 [("b", 2, 0)] example_two_zones_model rfl rfl 1
      (by decide)⟩

/-! ## Finalisation -/

theorem first_violated_append (xs ys : List (Bool × Error)) :
    first_violated (xs ++ ys) =
      match first_violated xs with
      | some e => some e
      | none => first_violated ys := by
  induction xs with
  | nil => cases h : first_violated ys <;> simp [first_violated, h]
  | cons x xs ih =>
    obtain ⟨ok, e⟩ := x
    cases ok <;> simp [first_violated, ih]

theorem first_violated_eq_none (xs : List (Bool × Error)) :
    first_violated xs = none ↔ ∀ p ∈ xs, p.1 = true := by
  induction xs with
  | nil => simp [first_violated]
  | cons x xs ih =>
    obtain ⟨ok, e⟩ := x
    cases ok <;> simp [first_violated, ih]

theorem validate_zone_eq (c : TecplotData) (V i : Nat) (hV : c.n_verts = some V)
    (hx : i < c.mx.length) (hy : i < c.my.length) (hz : i < c.mz.length) :
    c.validate_zone i =
      match first_violated (zone_checks c V i) with
      | some e => .error e
      | none => .ok () := by
  simp only [TecplotData.validate_zone, at_index, List.getElem?_eq_getElem hx,
    List.getElem?_eq_getElem hy, List.getElem?_eq_getElem hz, hV, value, bind, Except.bind,
    zone_checks, first_violated, List.getD_eq_getElem?_getD, Option.getD_some, bne_iff_ne,
    ne_eq, ite_not, pure, Except.pure, throw, throwThe, MonadExceptOf.throw,
    decide_eq_true_eq]
  by_cases h1 : c.mx[i].length = V
  · by_cases h2 : c.my[i].length = V
    · by_cases h3 : c.mz[i].length = V
      · simp only [h1, h2, h3, if_true]
      · simp only [h1, h2, h3, if_true, if_false]
    · simp only [h1, h2, if_true, if_false]
  · simp only [h1, if_false]

theorem forM_validate_zone (c : TecplotData) (V : Nat) (hV : c.n_verts = some V)
    (idxs : List Nat)
    (hb : ∀ i ∈ idxs, i < c.mx.length ∧ i < c.my.length ∧ i < c.mz.length) :
    idxs.forM c.validate_zone =
      match first_violated ((idxs.map (zone_checks c V)).flatten) with
      | some e => .error e
      | none => .ok () := by
  induction idxs with
  | nil => rfl
  | cons i is ih =>
    obtain ⟨hx, hy, hz⟩ := hb i (List.mem_cons_self _ _)
    rw [List.forM_cons', validate_zone_eq c V i hV hx hy hz,
      ih (fun j hj => hb j (List.mem_cons_of_mem _ hj)), List.map_cons, List.flatten_cons,
      first_violated_append]
    cases first_violated (zone_checks c V i) <;> rfl

theorem validate_object_eq (c : TecplotData) (V E Z : Nat) (hV : c.n_verts = some V)
    (hE : c.n_elems = some E) (hZ : c.n_zones = some Z) (hT : c.zone_titles.length = Z)
    (hw : 4 * E < 2 ^ 64) :
    c.validate_object =
      match first_violated (final_checks c V E) with
      | some e => .error e
      | none => .ok () := by
  have hm : 4 * E % 2 ^ 64 = 4 * E := Nat.mod_eq_of_lt hw
  simp only [TecplotData.validate_object, hV, hE, hZ, hT, hm, value, bind, Except.bind,
    final_checks, first_violated, List.cons_append, List.nil_append, bne_iff_ne,
    ne_eq, ite_not, pure, Except.pure, throw, throwThe, MonadExceptOf.throw,
    decide_eq_true_eq]
  by_cases h1 : V = c.x.length
  swap
  · simp only [h1, Ne.symm h1, if_false]
  by_cases h2 : V = c.y.length
  swap
  · simp only [h1.symm, h2, Ne.symm h2, if_true, if_false]
  by_cases h3 : V = c.z.length
  swap
  · simp only [h1.symm, h2.symm, h3, Ne.symm h3, if_true, if_false]
  by_cases h4 : 4 * E = c.tetra_idxs.length
  swap
  · simp only [h1.symm, h2.symm, h3.symm, h4, Ne.symm h4, if_true, if_false]
  by_cases h5 : E = c.tetra_submesh_idxs.length
  swap
  · simp only [h1.symm, h2.symm, h3.symm, h4.symm, h5, Ne.symm h5, if_true, if_false]
  by_cases h6 : Z = c.mx.length
  swap
  · simp only [h1.symm, h2.symm, h3.symm, h4.symm, h5.symm, h6, Ne.symm h6, if_true, if_false]
  by_cases h7 : Z = c.my.length
  swap
  · simp only [h1.symm, h2.symm, h3.symm, h4.symm, h5.symm, h6.symm, h7, Ne.symm h7, if_true,
      if_false]
  by_cases h8 : Z = c.mz.length
  swap
  · simp only [h1.symm, h2.symm, h3.symm, h4.symm, h5.symm, h6.symm, h7.symm, h8, Ne.symm h8,
      if_true, if_false]
  simp only [h1.symm, h2.symm, h3.symm, h4.symm, h5.symm, h6.symm, h7.symm, h8.symm, if_true]
  exact forM_validate_zone c V hV (List.range Z) (fun i hi => by
    have := List.mem_range.1 hi
    omega)

theorem finish_object_eq (c : TecplotData) (V E : Nat) (hV : c.n_verts = some V)
    (hE : c.n_elems = some E) (hw : 4 * E < 2 ^ 64) :
    c.finish_object =
      match first_violated (final_checks c V E) with
      | some e => .error e
      | none => .ok { c with n_zones := some c.zone_titles.length } := by
  unfold TecplotData.finish_object
  have := validate_object_eq { c with n_zones := some c.zone_titles.length } V E
    c.zone_titles.length hV hE rfl rfl hw
  simp only [bind, Except.bind, this, pure, Except.pure]
  have hfc : final_checks { c with n_zones := some c.zone_titles.length } V E
      = final_checks c V E := rfl
  rw [hfc]
  cases first_violated (final_checks c V E) <;> rfl

theorem mapM_exists {α β : Type} (f : α → Except Error β) (xs : List α)
    (h : ∀ x ∈ xs, ∃ y, f x = .ok y) : ∃ ys, xs.mapM f = .ok ys := by
  induction xs with
  | nil => exact ⟨[], rfl⟩
  | cons x xs ih =>
    obtain ⟨y, hy⟩ := h x (List.mem_cons_self _ _)
    obtain ⟨ys, hys⟩ := ih (fun z hz => h z (List.mem_cons_of_mem _ hz))
    refine ⟨y :: ys, ?_⟩
    rw [List.mapM_cons, hy, hys]
    rfl

theorem at_index_of_lt {α : Type} (v : List α) (i : Nat) (h : i < v.length) :
    at_index v i = .ok v[i] := by
  unfold at_index
  rw [List.getElem?_eq_getElem h]

theorem zone_checks_all_iff (c : TecplotData) (V i : Nat) :
    (∀ p ∈ zone_checks c V i, p.1 = true) ↔
      (c.mx.getD i []).length = V ∧ (c.my.getD i []).length = V ∧
        (c.mz.getD i []).length = V := by
  simp only [zone_checks, List.mem_cons, List.mem_singleton, forall_eq_or_imp, forall_eq,
    decide_eq_true_eq, List.not_mem_nil, false_implies, implies_true, and_true]

theorem final_checks_all_iff (c : TecplotData) (V E : Nat) :
    (∀ p ∈ final_checks c V E, p.1 = true) ↔
      c.x.length = V ∧ c.y.length = V ∧ c.z.length = V ∧ c.tetra_idxs.length = 4 * E ∧
      c.tetra_submesh_idxs.length = E ∧ c.mx.length = c.zone_titles.length ∧
      c.my.length = c.zone_titles.length ∧ c.mz.length = c.zone_titles.length ∧
      ∀ i, i < c.zone_titles.length →
        (c.mx.getD i []).length = V ∧ (c.my.getD i []).length = V ∧
          (c.mz.getD i []).length = V := by
  have hz : (∀ p ∈ ((List.range c.zone_titles.length).map (zone_checks c V)).flatten,
      p.1 = true) ↔ ∀ i, i < c.zone_titles.length →
        (c.mx.getD i []).length = V ∧ (c.my.getD i []).length = V ∧
          (c.mz.getD i []).length = V := by
    constructor
    · intro h i hi
      apply (zone_checks_all_iff c V i).1
      intro p hp
      apply h
      rw [List.mem_flatten]
      exact ⟨_, List.mem_map.2 ⟨i, List.mem_range.2 hi, rfl⟩, hp⟩
    · intro h p hp
      rw [List.mem_flatten] at hp
      obtain ⟨l, hl, hpl⟩ := hp
      obtain ⟨i, hi, rfl⟩ := List.mem_map.1 hl
      exact (zone_checks_all_iff c V i).2 (h i (List.mem_range.1 hi)) p hpl
  unfold final_checks
  rw [List.forall_mem_append, hz]
  simp only [List.mem_cons, List.mem_singleton, forall_eq_or_imp, forall_eq,
    decide_eq_true_eq, List.not_mem_nil, false_implies, implies_true, and_true, and_assoc]

theorem get_field_exists (c : TecplotData) (V k : Nat) (hV : c.n_verts = some V)
    (hx : k < c.mx.length) (hy : k < c.my.length) (hz : k < c.mz.length)
    (lx : c.mx[k].length = V) (ly : c.my[k].length = V) (lz : c.mz[k].length = V) :
    ∃ f, c.get_field k = .ok f := by
  have hf : ∀ i, i < V → ∃ a b d, c.mx[k][i]? = some a ∧ c.my[k][i]? = some b ∧
      c.mz[k][i]? = some d := by
    intro i hi
    exact ⟨_, _, _, List.getElem?_eq_getElem (by omega), List.getElem?_eq_getElem (by omega),
      List.getElem?_eq_getElem (by omega)⟩
  obtain ⟨vs, hvs⟩ := mapM_exists (fun i => (Except.ok ((c.mx[k].getD i ⟨0⟩,
    c.my[k].getD i ⟨0⟩, c.mz[k].getD i ⟨0⟩)) : Except Error Vec3)) (List.range V)
    (fun i _ => ⟨_, rfl⟩)
  obtain ⟨hl, hvals⟩ := (mapM_range_eq_ok _ _ _).1 hvs
  refine ⟨{ annotation := "", vectors := vs }, ?_⟩
  rw [get_field_eq_ok]
  refine ⟨V, hV, rfl, hl, fun i hi => ?_⟩
  obtain ⟨a, b, d, ha, hb, hd⟩ := hf i hi
  obtain ⟨y, hy1, hy2⟩ := hvals i hi
  simp only [Except.ok.injEq] at hy2
  refine ⟨c.mx[k], c.my[k], c.mz[k], a, b, d, List.getElem?_eq_getElem hx, ha,
    List.getElem?_eq_getElem hy, hb, List.getElem?_eq_getElem hz, hd, ?_⟩
  rw [hy1, ← hy2, List.getD_eq_getElem?_getD, List.getD_eq_getElem?_getD,
    List.getD_eq_getElem?_getD, ha, hb, hd]
  rfl

theorem get_verts_exists (c : TecplotData) (V : Nat) (hV : c.n_verts = some V)
    (lx : c.x.length = V) (ly : c.y.length = V) (lz : c.z.length = V) :
    ∃ vs, c.get_verts = .ok vs := by
  obtain ⟨vs, hvs⟩ := mapM_exists (fun i => (Except.ok ((c.x.getD i ⟨0⟩,
    c.y.getD i ⟨0⟩, c.z.getD i ⟨0⟩)) : Except Error Vec3)) (List.range V)
    (fun i _ => ⟨_, rfl⟩)
  obtain ⟨hl, hvals⟩ := (mapM_range_eq_ok _ _ _).1 hvs
  refine ⟨vs, (get_verts_eq_ok _ _).2 ⟨V, hV, hl, fun i hi => ?_⟩⟩
  obtain ⟨y, hy1, hy2⟩ := hvals i hi
  simp only [Except.ok.injEq] at hy2
  have ha : c.x[i]? = some (c.x[i]) := List.getElem?_eq_getElem (by omega)
  have hb : c.y[i]? = some (c.y[i]) := List.getElem?_eq_getElem (by omega)
  have hd : c.z[i]? = some (c.z[i]) := List.getElem?_eq_getElem (by omega)
  refine ⟨_, _, _, ha, hb, hd, ?_⟩
  rw [hy1, ← hy2, List.getD_eq_getElem?_getD, List.getD_eq_getElem?_getD,
    List.getD_eq_getElem?_getD, ha, hb, hd]
  rfl

theorem get_elements_exists (c : TecplotData) (E : Nat) (hE : c.n_elems = some E)
    (lt : c.tetra_idxs.length = 4 * E) : ∃ es, c.get_elements = .ok es := by
  obtain ⟨es, hes⟩ := mapM_exists (fun i => (Except.ok ((c.tetra_idxs.getD (4 * i) 0,
    c.tetra_idxs.getD (4 * i + 1) 0, c.tetra_idxs.getD (4 * i + 2) 0,
    c.tetra_idxs.getD (4 * i + 3) 0)) : Except Error Tet)) (List.range E)
    (fun i _ => ⟨_, rfl⟩)
  obtain ⟨hl, hvals⟩ := (mapM_range_eq_ok _ _ _).1 hes
  refine ⟨es, (get_elements_eq_ok _ _).2 ⟨E, hE, hl, fun i hi => ?_⟩⟩
  obtain ⟨y, hy1, hy2⟩ := hvals i hi
  simp only [Except.ok.injEq] at hy2
  have h0 : c.tetra_idxs[4 * i]? = some (c.tetra_idxs[4 * i]) :=
    List.getElem?_eq_getElem (by omega)
  have h1 : c.tetra_idxs[4 * i + 1]? = some (c.tetra_idxs[4 * i + 1]) :=
    List.getElem?_eq_getElem (by omega)
  have h2 : c.tetra_idxs[4 * i + 2]? = some (c.tetra_idxs[4 * i + 2]) :=
    List.getElem?_eq_getElem (by omega)
  have h3 : c.tetra_idxs[4 * i + 3]? = some (c.tetra_idxs[4 * i + 3]) :=
    List.getElem?_eq_getElem (by omega)
  refine ⟨_, _, _, _, h0, h1, h2, h3, ?_⟩
  rw [hy1, ← hy2, List.getD_eq_getElem?_getD, List.getD_eq_getElem?_getD,
    List.getD_eq_getElem?_getD, List.getD_eq_getElem?_getD, h0, h1, h2, h3]
  rfl

theorem get_submesh_idxs_exists (c : TecplotData) (E : Nat) (hE : c.n_elems = some E)
    (ls : c.tetra_submesh_idxs.length = E) : ∃ ss, c.get_submesh_idxs = .ok ss := by
  refine ⟨c.tetra_submesh_idxs, (get_submesh_idxs_eq_ok _ _).2 ⟨E, hE, ls, fun i hi => ?_⟩⟩
  exact ⟨_, List.getElem?_eq_getElem (by omega), List.getElem?_eq_getElem (by omega)⟩

theorem get_fields_exists (c : TecplotData) (V Z : Nat) (hV : c.n_verts = some V)
    (hZ : c.n_zones = some Z) (hx : c.mx.length = Z) (hy : c.my.length = Z)
    (hz : c.mz.length = Z)
    (hl : ∀ i, i < Z → (c.mx.getD i []).length = V ∧ (c.my.getD i []).length = V ∧
      (c.mz.getD i []).length = V) : ∃ fl, c.get_fields = .ok fl := by
  obtain ⟨fs, hfs⟩ := mapM_exists c.get_field (List.range Z) (by
    intro k hk
    have hk' := List.mem_range.1 hk
    obtain ⟨z1, z2, z3⟩ := hl k hk'
    rw [List.getD_eq_getElem?_getD, List.getElem?_eq_getElem (by omega),
      Option.getD_some] at z1 z2 z3
    exact get_field_exists c V k hV (by omega) (by omega) (by omega) z1 z2 z3)
  obtain ⟨h1, h2⟩ := (mapM_range_eq_ok _ _ _).1 hfs
  exact ⟨{ fields := fs }, (get_fields_eq_ok _ _).2 ⟨Z, hZ, h1, h2⟩⟩

/-- An accumulator that passes every check of finalisation is projected without error. -/
theorem finish_ok_of_checks (c : TecplotData) (V E : Nat) (hV : c.n_verts = some V)
    (hE : c.n_elems = some E) (hw : 4 * E < 2 ^ 64)
    (hc : ∀ p ∈ final_checks c V E, p.1 = true) : ∃ m, finish c = .ok m := by
  have hfo := finish_object_eq c V E hV hE hw
  rw [(first_violated_eq_none _).2 hc] at hfo
  obtain ⟨c1, c2, c3, c4, c5, c6, c7, c8, c9⟩ := (final_checks_all_iff c V E).1 hc
  obtain ⟨vs, hvs⟩ := get_verts_exists { c with n_zones := some c.zone_titles.length } V hV
    c1 c2 c3
  obtain ⟨es, hes⟩ := get_elements_exists { c with n_zones := some c.zone_titles.length } E hE
    c4
  obtain ⟨ss, hss⟩ := get_submesh_idxs_exists
    { c with n_zones := some c.zone_titles.length } E hE c5
  obtain ⟨fl, hfl⟩ := get_fields_exists { c with n_zones := some c.zone_titles.length } V
    c.zone_titles.length hV rfl c6 c7 c8 c9
  exact ⟨{ mesh := { vcl := vs, til := es, sml := ss }, field_list := fl },
    (finish_eq_ok _ _).2 ⟨_, hfo, hvs, hes, hss, hfl⟩⟩

theorem History.comp_getD_length (j V : Nat) (hj : j < 3) (zs : List (List Dbl)) (i : Nat)
    (hl : ∀ k g, zs[k]? = some g → g.length = (if k = 0 then 6 else 3) * V)
    (hi : i < zs.length) : ((History.comp j V zs).getD i []).length = V := by
  rw [List.getD_eq_getElem?_getD, History.comp_getElem?, List.getElem?_eq_getElem hi]
  have := hl i zs[i] (List.getElem?_eq_getElem hi)
  simp only [Option.map_some', Option.getD_some, slice_length]
  by_cases h0 : i = 0
  · simp only [h0, if_true] at this ⊢
    rw [this]
    interval_cases j <;> omega
  · simp only [h0, if_false] at this ⊢
    rw [this]
    interval_cases j <;> omega

/-- The accumulator of a history whose blocks are all complete passes every check of
finalisation. -/
theorem History.checks_of_full (h : History) (hw : h.wf) (hi : h.ints.length = 5 * h.E)
    (hl : ∀ k g, h.zones[k]? = some g → g.length = (if k = 0 then 6 else 3) * h.V) :
    ∀ p ∈ final_checks h.curves h.V h.E, p.1 = true := by
  rw [final_checks_all_iff]
  have hf : h.firstZone.length = 6 * h.V := by
    simpa using hl 0 _ (History.firstZone_eq h)
  have hz : h.zones.length = h.curves.zone_titles.length := by
    rw [History.zones_length]; exact hw.2.2.1.symm
  refine ⟨?_, ?_, ?_, ?_, ?_, ?_, ?_, ?_, ?_⟩
  · simp only [History.curves, slice_length, hf]; omega
  · simp only [History.curves, slice_length, hf]; omega
  · simp only [History.curves, slice_length, hf]; omega
  · simp only [History.curves, List.length_map, List.length_drop, hi]; omega
  · simp only [History.curves, List.length_take, hi]; omega
  · rw [History.curves_mx, History.comp_length]; exact hz
  · rw [History.curves_my, History.comp_length]; exact hz
  · rw [History.curves_mz, History.comp_length]; exact hz
  · intro i hi'
    rw [← hz] at hi'
    rw [History.curves_mx, History.curves_my, History.curves_mz]
    exact ⟨History.comp_getD_length 0 h.V (by omega) _ i hl hi',
      History.comp_getD_length 1 h.V (by omega) _ i hl hi',
      History.comp_getD_length 2 h.V (by omega) _ i hl hi'⟩

theorem History.finish_ok_of_full (h : History) (hw : h.wf) (hi : h.ints.length = 5 * h.E)
    (hl : ∀ k g, h.zones[k]? = some g → g.length = (if k = 0 then 6 else 3) * h.V) :
    ∃ m, finish h.curves = .ok m :=
  finish_ok_of_checks h.curves h.V h.E rfl rfl (by have := hw.2.1; omega)
    (History.checks_of_full h hw hi hl)

/-! ## Progress on well-formed input -/

theorem reduceOption_length_of_ne_none {α : Type} (toks : List (Option α))
    (h : ∀ t ∈ toks, t ≠ none) : toks.reduceOption.length = toks.length := by
  have h1 := congrArg List.length (reduceOption_map_some toks h)
  rw [List.length_map] at h1
  exact h1

theorem History.run_progress (ls : List Line) (h : History) (hw : h.wf)
    (hh : ∀ x ∈ headers ls, x.2 = (h.V, h.E))
    (hi : ∀ l ∈ ls, ∀ k ∈ l.intTokens, k < 2 ^ 64)
    (hf : ∀ l ∈ ls, ∀ t ∈ l.floatTokens, t ≠ none)
    (hc : h.cur.length + (floatTokensOf (ls.takeWhile Line.notZone)).length ≤ h.capacity)
    (hb : ∀ b ∈ zoneBodies ls, intTokensOf b = [] ∧ (floatTokensOf b).length ≤ 3 * h.V)
    (hn : if h.done = [] then
        h.ints.length + (intTokensOf (ls.takeWhile Line.notZone)).length ≤ 5 * h.E
      else intTokensOf (ls.takeWhile Line.notZone) = []) :
    ∃ h', h.run ls = some h' := by
  induction ls generalizing h with
  | nil => exact ⟨h, rfl⟩
  | cons l ls ih =>
    rw [History.run_cons]
    have hi' : ∀ l ∈ ls, ∀ k ∈ l.intTokens, k < 2 ^ 64 :=
      fun l hl => hi l (List.mem_cons_of_mem _ hl)
    have hf' : ∀ l ∈ ls, ∀ t ∈ l.floatTokens, t ≠ none :=
      fun l hl => hf l (List.mem_cons_of_mem _ hl)
    cases l with
    | zone t n e =>
      have hne := hh (t, n, e) (by rw [headers_cons_zone]; exact List.mem_cons_self _ _)
      simp only [Prod.mk.injEq] at hne
      have hs : h.step (Line.zone t n e) = some
          { h with titles := h.titles ++ [t], done := h.done ++ [h.cur], cur := [] } := by
        simp only [History.step, hne, and_self, if_true]
      rw [hs]
      obtain ⟨w1, _, _⟩ := History.step_wf h _ _ hw hs
      rw [zoneBodies_cons_zone] at hb
      obtain ⟨b1, b2⟩ := hb _ (List.mem_cons_self _ _)
      apply ih _ w1
      · intro x hx
        exact hh x (by rw [headers_cons_zone]; exact List.mem_cons_of_mem _ hx)
      · exact hi'
      · exact hf'
      · simp only [List.length_nil, Nat.zero_add, History.capacity, History.offset,
          List.append_eq_nil, List.cons_ne_nil, and_false, if_false]
        exact b2
      · intro b hb'
        exact hb b (List.mem_cons_of_mem _ hb')
      · simp only [List.append_eq_nil, List.cons_ne_nil, and_false, if_false]
        exact b1
    | intRow a as =>
      have htw : (Line.intRow a as :: ls).takeWhile Line.notZone =
          Line.intRow a as :: ls.takeWhile Line.notZone := rfl
      rw [htw, intTokensOf_cons] at hn
      rw [htw, floatTokensOf_cons] at hc
      have hd : h.done = [] := by
        by_contra hd
        rw [if_neg hd] at hn
        simp [Line.intTokens] at hn
      rw [if_pos hd] at hn
      simp only [Line.intTokens, List.length_append] at hn
      have hs : h.step (Line.intRow a as) = some { h with ints := h.ints ++ a :: as } := by
        simp only [History.step]
        rw [if_pos ⟨hd, by omega, hi _ (List.mem_cons_self _ _)⟩]
      rw [hs]
      obtain ⟨w1, _, _⟩ := History.step_wf h _ _ hw hs
      apply ih _ w1 hh hi' hf' hc hb
      simp only [hd, if_true, List.length_append]
      omega
    | floatRow a as =>
      have htw : (Line.floatRow a as :: ls).takeWhile Line.notZone =
          Line.floatRow a as :: ls.takeWhile Line.notZone := rfl
      rw [htw, intTokensOf_cons] at hn
      rw [htw, floatTokensOf_cons] at hc
      simp only [Line.floatTokens, List.length_append] at hc
      have hne := hf _ (List.mem_cons_self _ _)
      simp only [Line.floatTokens] at hne
      have hs : h.step (Line.floatRow a as) =
          some { h with cur := h.cur ++ (a :: as).reduceOption } := by
        simp only [History.step]
        rw [if_pos ⟨by omega, hne⟩]
      rw [hs]
      obtain ⟨w1, _, _⟩ := History.step_wf h _ _ hw hs
      apply ih _ w1 hh hi' hf' _ hb hn
      simp only [List.length_append, reduceOption_length_of_ne_none _ hne]
      simp only [History.capacity, History.offset] at hc ⊢
      omega
    | other =>
      have htw : (Line.other :: ls).takeWhile Line.notZone =
          Line.other :: ls.takeWhile Line.notZone := rfl
      rw [htw, intTokensOf_cons] at hn
      rw [htw, floatTokensOf_cons] at hc
      exact ih h hw hh hi' hf' hc hb hn

theorem lines_decompose (lines : List Line) (hh : headers lines ≠ []) :
    ∃ pre t n e rest, lines = pre ++ Line.zone t n e :: rest ∧ pre = preamble lines := by
  induction lines with
  | nil => exact absurd rfl hh
  | cons l ls ih =>
    cases l with
    | zone t n e => exact ⟨[], t, n, e, ls, rfl, rfl⟩
    | intRow a as =>
      obtain ⟨pre, t, n, e, rest, h1, h2⟩ := ih hh
      exact ⟨Line.intRow a as :: pre, t, n, e, rest, by rw [h1]; rfl, by rw [h2]; rfl⟩
    | floatRow a as =>
      obtain ⟨pre, t, n, e, rest, h1, h2⟩ := ih hh
      exact ⟨Line.floatRow a as :: pre, t, n, e, rest, by rw [h1]; rfl, by rw [h2]; rfl⟩
    | other =>
      obtain ⟨pre, t, n, e, rest, h1, h2⟩ := ih hh
      exact ⟨Line.other :: pre, t, n, e, rest, by rw [h1]; rfl, by rw [h2]; rfl⟩

/-- C6 (as amended): for every well-formed input whose numeric tokens are all within the
range of their conversion (integer tokens below `2^64`, float tokens within the range of a
double), `read` raises no error and returns a model. -/
theorem read_well_formed (lines : List Line) (V E : Nat) (hwf : wellFormed V E lines)
    (hr : tokensInRange lines) : ∃ m, read lines = .ok m := by
  obtain ⟨hV, hE, hne, hall, hpre, hints, hfl, hlater⟩ := hwf
  obtain ⟨hri, hrf⟩ := hr
  obtain ⟨pre, t, n, e, rest, rfl, hp⟩ := lines_decompose lines hne
  rw [← hp] at hpre
  have hhd : headers (pre ++ Line.zone t n e :: rest) = (t, n, e) :: headers rest := by
    rw [headers_append, headers_of_other pre hpre, List.nil_append, headers_cons_zone]
  have hzb : zoneBodies (pre ++ Line.zone t n e :: rest) =
      rest.takeWhile Line.notZone :: zoneBodies rest := by
    rw [zoneBodies_append_other pre _ hpre, zoneBodies_cons_zone]
  have hne2 := hall (t, n, e) (by rw [hhd]; exact List.mem_cons_self _ _)
  simp only [Prod.mk.injEq] at hne2
  obtain ⟨rfl, rfl⟩ := hne2
  have hints' : (intTokensOf (rest.takeWhile Line.notZone)).length = 5 * e := by
    rw [← hints, firstZoneInts, hzb]; rfl
  have hfl' : (floatTokensOf (rest.takeWhile Line.notZone)).length = 6 * n := by
    rw [← hfl, zoneFloats, hzb]; rfl
  rw [hzb, List.tail_cons] at hlater
  have hw0 := History.start_wf t n e hV hE
  obtain ⟨h', hrun⟩ := History.run_progress rest (History.start t n e) hw0
    (fun x hx => hall x (by rw [hhd]; exact List.mem_cons_of_mem _ hx))
    (fun l hl => hri l (List.mem_append_right _ (List.mem_cons_of_mem _ hl)))
    (fun l hl => hrf l (List.mem_append_right _ (List.mem_cons_of_mem _ hl)))
    (by simp only [History.start, History.capacity, History.offset, List.length_nil,
          Nat.zero_add, if_true]; omega)
    (fun b hb => ⟨(hlater b hb).1, by simp only [History.start]; have := (hlater b hb).2; omega⟩)
    (by simp only [History.start, if_true, List.length_nil, Nat.zero_add]; omega)
  obtain ⟨w, hV', hE'⟩ := History.run_wf rest _ h' hw0 hrun
  obtain ⟨_, _, r3, r4, _, _⟩ := History.run_tokens rest _ h' hrun
  simp only [History.start] at hV' hE' r3 r4
  have hfull : ∀ k g, h'.zones[k]? = some g → g.length = (if k = 0 then 6 else 3) * h'.V := by
    intro k g hg
    have h1 : (h'.zones.map (List.map some))[k]? = some (g.map some) := by
      rw [List.getElem?_map, hg]; rfl
    rw [r3] at h1
    simp only [List.map_nil, List.nil_append] at h1
    rw [hV']
    cases k with
    | zero =>
      simp only [List.getElem?_cons_zero, Option.some.injEq] at h1
      have := congrArg List.length h1
      rw [List.length_map] at this
      simp only [if_true]
      omega
    | succ k =>
      simp only [List.getElem?_cons_succ, List.getElem?_map, Option.map_eq_some'] at h1
      obtain ⟨b, hb, hbe⟩ := h1
      have := congrArg List.length hbe
      rw [List.length_map, (hlater b (List.getElem?_mem hb)).2] at this
      simp only [Nat.succ_ne_zero, if_false]
      omega
  obtain ⟨m, hm⟩ := History.finish_ok_of_full h' w
    (by rw [r4 trivial, hE']; simpa using hints') hfull
  exact ⟨m, (read_eq_ok _ _).2 ⟨h'.state,
    (process_lines_initial _ _).2 (Or.inr ⟨pre, t, n, e, rest, h', rfl, hpre, hV, hE, hrun, rfl⟩),
    hm⟩⟩

/-- Witness for C6 (as amended) on the scenario of the specification. -/
theorem read_well_formed_witness :
    wellFormed 4 1 example_single_zone ∧ tokensInRange example_single_zone ∧
      ∃ m, read example_single_zone = .ok m :=
  have h1 : wellFormed 4 1 example_single_zone := by
    unfold wellFormed
    decide
  have h2 : tokensInRange example_single_zone := by
    unfold tokensInRange
    decide
  ⟨h1, h2, read_well_formed example_single_zone 4 1 h1 h2⟩

/-- C6 as stated fails: on a well-formed input whose first integer token is `2^64`,
`read` raises `std::out_of_range` (from `std::stoull`) and returns no model; likewise on
a well-formed input whose first float token is out of the range of a double (from
`std::stod`). -/
theorem read_well_formed_wide_integer :
    (wellFormed 0 1 example_wide_integer ∧
      read example_wide_integer = .error Error.out_of_range ∧
      ¬ ∃ m, read example_wide_integer = .ok m) ∧
    (wellFormed 1 0 example_wide_float ∧
      read example_wide_float = .error Error.out_of_range ∧
      ¬ ∃ m, read example_wide_float = .ok m) :=
  ⟨⟨by unfold wellFormed; decide, rfl, by rintro ⟨m, hm⟩; cases hm⟩,
    ⟨by unfold wellFormed; decide, rfl, by rintro ⟨m, hm⟩; cases hm⟩⟩

/-! ## Errors of the line loop -/

theorem read_error_at_line (pre rest : List Line) (l : Line) (s : ReaderState) (err : Error)
    (hp : process_lines ReaderState.initial pre = .ok s)
    (hl : process_line s l = .error err) : read (pre ++ l :: rest) = .error err := by
  unfold read
  rw [process_lines_append, hp]
  simp only [bind, Except.bind]
  rw [process_lines_cons, hl]
  rfl

theorem headers_history_first (pre : List Line) (h : History) (t : String) (V E : Nat)
    (hs : List (String × Nat × Nat))
    (h1 : headers pre = h.titles.map (fun t => (t, h.V, h.E)))
    (h2 : headers pre = (t, V, E) :: hs) : h.V = V ∧ h.E = E := by
  rw [h1] at h2
  cases ht : h.titles with
  | nil => rw [ht] at h2; cases h2
  | cons a as =>
    rw [ht] at h2
    simp only [List.map_cons, List.cons.injEq, Prod.mk.injEq] at h2
    exact ⟨h2.1.2.1, h2.1.2.2⟩

/-- C7 (as amended): if all lines before a second or later zone header are processed
without error, the header's `N` or `E` differs from the value fixed by the first zone
header, and the header's `N` (and, when `N` matches, its `E`) fits a 32-bit `int`, then
`read` fails with a zone-count-mismatch error at that header (unexpected number of
vertices when `N` differs, of elements otherwise): no model is produced and the outcome
is the same whatever lines follow the header. -/
theorem read_zone_count_mismatch (pre : List Line) (t : String) (V E : Nat)
    (hs : List (String × Nat × Nat)) (t' : String) (n e : Nat)
    (hp : ∃ s, process_lines ReaderState.initial pre = .ok s)
    (hh : headers pre = (t, V, E) :: hs) (hd : n ≠ V ∨ e ≠ E)
    (hn : n < 2 ^ 31) (he : n = V → e < 2 ^ 31) :
    ∃ err, err.isZoneCountMismatch = true ∧
      err = (if n ≠ V then Error.unexpected_number_of_vertices
        else Error.unexpected_number_of_elements) ∧
      ∀ rest, read (pre ++ Line.zone t' n e :: rest) = .error err := by
  obtain ⟨s, hp⟩ := hp
  obtain ⟨h, hw, rfl, r1, _⟩ := process_lines_ok_history pre s hp (by rw [hh]; simp)
  obtain ⟨rfl, rfl⟩ := headers_history_first pre h t V E hs r1 hh
  by_cases hv : n = h.V
  · have hE : e ≠ h.E := by
      rcases hd with hd | hd
      · exact absurd hv hd
      · exact hd
    refine ⟨Error.unexpected_number_of_elements, rfl, by simp [hv],
      fun rest => read_error_at_line pre rest _ h.state _ hp ?_⟩
    simp only [process_line, process_zone_history, if_pos hn, if_pos hv, if_pos (he hv),
      if_neg hE]
  · refine ⟨Error.unexpected_number_of_vertices, rfl, by simp [hv],
      fun rest => read_error_at_line pre rest _ h.state _ hp ?_⟩
    simp only [process_line, process_zone_history, if_pos hn, if_neg hv]

/-- Witness for C7 (as amended): a second header with a different element count. -/
theorem read_zone_count_mismatch_witness :
    (∃ s, process_lines ReaderState.initial [Line.zone "a" 4 1] = .ok s) ∧
    headers [Line.zone "a" 4 1] = ("a", 4, 1) :: [] ∧ (4 ≠ 4 ∨ 2 ≠ 1) ∧ 4 < 2 ^ 31 ∧
    (4 = 4 → 2 < 2 ^ 31) ∧
    ∃ err, err.isZoneCountMismatch = true ∧
      err = (if 4 ≠ 4 then Error.unexpected_number_of_vertices
        else Error.unexpected_number_of_elements) ∧
      ∀ rest, read ([Line.zone "a" 4 1] ++ Line.zone "b" 4 2 :: rest) = .error err :=
  ⟨⟨_, rfl⟩, rfl, by decide, by decide, by decide,
    read_zone_count_mismatch [Line.zone "a" 4 1] "a" 4 1 [] "b" 4 2 ⟨_, rfl⟩ rfl (by decide)
      (by decide) (by decide)⟩

/-- C7 as stated fails: a second zone header whose `N` differs from the first and does not
fit a 32-bit `int` makes `read` fail with `std::out_of_range` (from `std::stoi`), which is
not a zone-count-mismatch error. -/
theorem read_zone_count_mismatch_wide_header :
    (∃ s, process_lines ReaderState.initial [Line.zone "a" 0 0] = .ok s) ∧
    example_wide_header = [Line.zone "a" 0 0] ++ [Line.zone "b" (2 ^ 31) 0] ∧
    2 ^ 31 ≠ 0 ∧
    read example_wide_header = .error Error.out_of_range ∧
    Error.out_of_range.isZoneCountMismatch = false :=
  ⟨⟨_, rfl⟩, rfl, by decide, rfl, rfl⟩

/-- C8: if an integer row occurs after a second or later zone header has been processed
and no earlier line raised an error, `read` fails with the unexpected-integer-row error
("Integers should only be found in the first zone."), whatever the tokens of the row and
the fill levels of the arrays are, and whatever lines follow. -/
theorem read_integer_row_in_later_zone (pre : List Line) (a : Nat) (as : List Nat)
    (rest : List Line) (hp : ∃ s, process_lines ReaderState.initial pre = .ok s)
    (hh : 2 ≤ (headers pre).length) :
    read (pre ++ Line.intRow a as :: rest) = .error Error.integers_outside_first_zone := by
  obtain ⟨s, hp⟩ := hp
  obtain ⟨h, hw, rfl, r1, _⟩ := process_lines_ok_history pre s hp (by
    intro h0; rw [h0] at hh; simp at hh)
  apply read_error_at_line pre rest _ h.state _ hp
  have hd : h.done ≠ [] := by
    intro hd
    have := hw.2.2.1
    rw [r1, List.length_map, this, hd] at hh
    simp at hh
  simp only [process_line, process_int_row]
  rw [if_neg (fun hz => hd ((History.zone_counter_eq_one h).1 hz))]
  rfl

/-- Witness for C8: an integer row after two zone headers. -/
theorem read_integer_row_in_later_zone_witness :
    (∃ s, process_lines ReaderState.initial example_two_headers = .ok s) ∧
    2 ≤ (headers example_two_headers).length ∧
    read (example_two_headers ++ Line.intRow 1 [2] :: [Line.other]) =
      .error Error.integers_outside_first_zone :=
  ⟨⟨_, rfl⟩, by decide,
    read_integer_row_in_later_zone example_two_headers 1 [2] [Line.other] ⟨_, rfl⟩
      (by decide)⟩

theorem process_lines_of_other (pre : List Line) (h : ∀ l ∈ pre, l = Line.other)
    (s : ReaderState) : process_lines s pre = .ok s := by
  induction pre with
  | nil => rfl
  | cons l ls ih =>
    have := h l (List.mem_cons_self _ _)
    subst this
    rw [process_lines_cons]
    exact ih (fun l hl => h l (List.mem_cons_of_mem _ hl))

/-- C9 (as amended): a numeric row that occurs before any zone header, after unrecognised
lines only, makes `read` fail: an integer row with the very error of an integer row in a
later zone ("Integers should only be found in the first zone."), a float row with
`std::bad_optional_access`, which is distinct from the unexpected-integer-row,
too-many-integers and too-many-floats errors. -/
theorem read_numeric_row_before_first_header (pre rest : List Line)
    (hpre : ∀ l ∈ pre, l = Line.other) :
    (∀ a as, read (pre ++ Line.intRow a as :: rest) =
      .error Error.integers_outside_first_zone) ∧
    (∀ a as, read (pre ++ Line.floatRow a as :: rest) = .error Error.bad_optional_access) ∧
    Error.bad_optional_access ≠ Error.integers_outside_first_zone ∧
    Error.bad_optional_access ≠ Error.too_many_integers ∧
    Error.bad_optional_access ≠ Error.too_many_doubles := by
  refine ⟨fun a as => ?_, fun a as => ?_, by decide, by decide, by decide⟩
  · exact read_error_at_line pre rest _ _ _ (process_lines_of_other pre hpre _) rfl
  · exact read_error_at_line pre rest _ _ _ (process_lines_of_other pre hpre _) rfl

/-- Witness for C9 (as amended): a numeric row after one unrecognised line. -/
theorem read_numeric_row_before_first_header_witness :
    (∀ l ∈ [Line.other], l = Line.other) ∧
    ((∀ a as, read ([Line.other] ++ Line.intRow a as :: [Line.zone "a" 1 0]) =
      .error Error.integers_outside_first_zone) ∧
    (∀ a as, read ([Line.other] ++ Line.floatRow a as :: [Line.zone "a" 1 0]) =
      .error Error.bad_optional_access) ∧
    Error.bad_optional_access ≠ Error.integers_outside_first_zone ∧
    Error.bad_optional_access ≠ Error.too_many_integers ∧
    Error.bad_optional_access ≠ Error.too_many_doubles) :=
  ⟨by decide,
    read_numeric_row_before_first_header [Line.other] [Line.zone "a" 1 0] (by decide)⟩

/-- C9 as stated fails: an integer row before any zone header raises the same error as
an integer row after a second zone header (the unexpected-integer-row error), not a
distinct missing-zone-declaration error. -/
theorem read_integer_row_before_first_header_same_error :
    read [Line.intRow 1 [2]] = .error Error.integers_outside_first_zone ∧
    read (example_two_headers ++ [Line.intRow 1 [2]]) =
      .error Error.integers_outside_first_zone :=
  ⟨rfl, rfl⟩

/-- C10 (as amended): for every accumulator with expected counts `V` and `E` set and
`4E` below `2^64`, `finish_object` raises the error of the first violated check in the
fixed order (x, y, z counts equal `V`; connectivity count equals `4E`; region-tag count
equals `E`; mx, my, mz hold as many snapshots as zone headers were read; then for each
snapshot in index order its mx, my, mz counts equal `V`); it raises no error exactly when
no check is violated; and `read` returns a model only when the accumulator left by the
line loop violates no check. -/
theorem finish_object_first_violated (c : TecplotData) (V E : Nat) (hV : c.n_verts = some V)
    (hE : c.n_elems = some E) (hw : 4 * E < 2 ^ 64) :
    (c.finish_object =
      match first_violated (final_checks c V E) with
      | some e => .error e
      | none => .ok { c with n_zones := some c.zone_titles.length }) ∧
    ((∃ c', c.finish_object = .ok c') ↔ ∀ p ∈ final_checks c V E, p.1 = true) ∧
    ∀ lines m, read lines = .ok m →
      ∃ s V' E', process_lines ReaderState.initial lines = .ok s ∧
        s.curves.n_verts = some V' ∧ s.curves.n_elems = some E' ∧ 4 * E' < 2 ^ 64 ∧
        ∀ p ∈ final_checks s.curves V' E', p.1 = true := by
  have key := finish_object_eq c V E hV hE hw
  refine ⟨key, ?_, ?_⟩
  · rw [← first_violated_eq_none, key]
    cases first_violated (final_checks c V E) with
    | none => simp
    | some e => simp
  · intro lines m hr
    obtain ⟨s, hp, hf⟩ := (read_eq_ok lines m).1 hr
    obtain ⟨h, w, hf', r1, _⟩ := read_ok_history lines m hr
    have hne : headers lines ≠ [] := by
      rw [r1]
      intro h0
      have := congrArg List.length h0
      rw [List.length_map, w.2.2.1] at this
      simp at this
    obtain ⟨h2, w2, rfl, _⟩ := process_lines_ok_history lines s hp hne
    have hw2 : 4 * h2.E < 2 ^ 64 := by have := w2.2.1; omega
    refine ⟨h2.state, h2.V, h2.E, hp, rfl, rfl, hw2, ?_⟩
    obtain ⟨c', hc', _⟩ := (finish_eq_ok _ _).1 hf
    have k2 := finish_object_eq h2.state.curves h2.V h2.E rfl rfl hw2
    rw [hc'] at k2
    rw [← first_violated_eq_none]
    cases hfv : first_violated (final_checks h2.state.curves h2.V h2.E) with
    | none => rfl
    | some e => rw [hfv] at k2; cases k2

/-- Witness for C10 (as amended): with one vertex expected and an empty x array the first
violated check is the x count. -/
theorem finish_object_first_violated_witness :
    example_short_x.n_verts = some 1 ∧ example_short_x.n_elems = some 0 ∧ 4 * 0 < 2 ^ 64 ∧
    first_violated (final_checks example_short_x 1 0) = some Error.XCountException ∧
    ((example_short_x.finish_object =
      match first_violated (final_checks example_short_x 1 0) with
      | some e => .error e
      | none => .ok { example_short_x with n_zones := some example_short_x.zone_titles.length }) ∧
    ((∃ c', example_short_x.finish_object = .ok c') ↔
      ∀ p ∈ final_checks example_short_x 1 0, p.1 = true) ∧
    ∀ lines m, read lines = .ok m →
      ∃ s V' E', process_lines ReaderState.initial lines = .ok s ∧
        s.curves.n_verts = some V' ∧ s.curves.n_elems = some E' ∧ 4 * E' < 2 ^ 64 ∧
        ∀ p ∈ final_checks s.curves V' E', p.1 = true) :=
  ⟨rfl, rfl, by decide, rfl,
    finish_object_first_violated example_short_x 1 0 rfl rfl (by decide)⟩

/-- C10 as stated fails: with `E = 2^62` expected elements and empty arrays the first
violated check in the fixed order is the connectivity count (`0` entries, not `4E`), but
`4E` wraps to `0` on `size_t`, the connectivity check passes and `finish_object` raises
the region-tag count error. -/
theorem finish_object_wrapped_count :
    example_wrapped_count.n_verts = some 0 ∧ example_wrapped_count.n_elems = some (2 ^ 62) ∧
    first_violated (final_checks example_wrapped_count 0 (2 ^ 62)) =
      some Error.TetraIdxCountException ∧
    example_wrapped_count.finish_object = .error Error.TetraSubmeshIdxCountException :=
  ⟨rfl, rfl, by decide, rfl⟩

/-! ## One token on an arbitrary accumulator -/

theorem route_int_eq (c : TecplotData) (E k : Nat) (hE : c.n_elems = some E)
    (hw : 4 * E < 2 ^ 64) :
    route_int c k =
      if c.tetra_submesh_idxs.length < E then
        (if k < 2 ^ 64 then
          .ok { c with tetra_submesh_idxs := c.tetra_submesh_idxs ++ [k] }
        else .error Error.out_of_range)
      else if c.tetra_idxs.length < 4 * E then
        (if k < 2 ^ 64 then .ok { c with tetra_idxs := c.tetra_idxs ++ [sub_one_u64 k] }
        else .error Error.out_of_range)
      else .error Error.too_many_integers := by
  have hm : E * 4 % 2 ^ 64 = E * 4 := Nat.mod_eq_of_lt (by omega)
  simp only [route_int, TecplotData.tetra_submesh_idx_is_full, TecplotData.tetra_idx_is_full,
    hE, value, stoull, bind, Except.bind, pure, Except.pure, throw, throwThe,
    MonadExceptOf.throw, hm, ge_iff_le, Bool.not_eq_true', decide_eq_false_iff_not, not_le]
  by_cases h1 : c.tetra_submesh_idxs.length < E
  · simp only [h1, if_true]
    by_cases hk : k < 2 ^ 64 <;> simp only [hk, if_true, if_false]
  · simp only [h1, if_false]
    by_cases h2 : c.tetra_idxs.length < 4 * E
    · have h2' : c.tetra_idxs.length < E * 4 := by omega
      simp only [h2, h2', if_true]
      by_cases hk : k < 2 ^ 64 <;> simp only [hk, if_true, if_false]
    · have h2' : ¬ c.tetra_idxs.length < E * 4 := by omega
      simp only [h2, h2', if_false]

theorem route_float_first_eq (c : TecplotData) (V i : Nat) (a b d : List Dbl) (t : FloatTok)
    (hV : c.n_verts = some V) (hi : c.current_field_idx = some i)
    (ha : c.mx[i]? = some a) (hb : c.my[i]? = some b) (hd : c.mz[i]? = some d) :
    route_float_first c t =
      if c.x.length < V then (stod t).map (fun v => { c with x := c.x ++ [v] })
      else if c.y.length < V then (stod t).map (fun v => { c with y := c.y ++ [v] })
      else if c.z.length < V then (stod t).map (fun v => { c with z := c.z ++ [v] })
      else if a.length < V then (stod t).map (fun v => { c with mx := c.mx.set i (a ++ [v]) })
      else if b.length < V then (stod t).map (fun v => { c with my := c.my.set i (b ++ [v]) })
      else if d.length < V then (stod t).map (fun v => { c with mz := c.mz.set i (d ++ [v]) })
      else .error Error.too_many_doubles := by
  simp only [route_float_first, push_current_mx, push_current_my, push_current_mz,
    TecplotData.x_is_full, TecplotData.y_is_full, TecplotData.z_is_full,
    TecplotData.current_mx_is_full, TecplotData.current_my_is_full,
    TecplotData.current_mz_is_full, at_index, hV, hi, ha, hb, hd, value, bind,
    Except.bind, pure, Except.pure, throw, throwThe, MonadExceptOf.throw, ge_iff_le,
    Bool.not_eq_true', decide_eq_false_iff_not, not_le]
  cases t with
  | none => simp only [stod, Except.map]
  | some v => simp only [stod, Except.map]

theorem route_float_later_eq (c : TecplotData) (V i : Nat) (a b d : List Dbl) (t : FloatTok)
    (hV : c.n_verts = some V) (hi : c.current_field_idx = some i)
    (ha : c.mx[i]? = some a) (hb : c.my[i]? = some b) (hd : c.mz[i]? = some d) :
    route_float_later c t =
      if a.length < V then (stod t).map (fun v => { c with mx := c.mx.set i (a ++ [v]) })
      else if b.length < V then (stod t).map (fun v => { c with my := c.my.set i (b ++ [v]) })
      else if d.length < V then (stod t).map (fun v => { c with mz := c.mz.set i (d ++ [v]) })
      else .error Error.too_many_doubles := by
  simp only [route_float_later, push_current_mx, push_current_my, push_current_mz,
    TecplotData.current_mx_is_full, TecplotData.current_my_is_full,
    TecplotData.current_mz_is_full, at_index, hV, hi, ha, hb, hd, value, bind,
    Except.bind, pure, Except.pure, throw, throwThe, MonadExceptOf.throw, ge_iff_le,
    Bool.not_eq_true', decide_eq_false_iff_not, not_le]
  cases t with
  | none => simp only [stod, Except.map]
  | some v => simp only [stod, Except.map]

/-! ## One token in a reachable state -/

theorem reachable_history (pre : List Line) (s : ReaderState)
    (hp : process_lines ReaderState.initial pre = .ok s) (hz : s.zone_counter ≠ 0) :
    ∃ h : History, h.wf ∧ s = h.state := by
  rcases (process_lines_initial pre s).1 hp with ⟨_, h1⟩ | ⟨p, t, n, e, rest, h', _, _, hn, he, hr, hs⟩
  · subst h1; exact absurd rfl hz
  · exact ⟨h', (History.run_wf rest _ h' (History.start_wf t n e hn he) hr).1, hs⟩

theorem process_int_row_single (s : ReaderState) (k : Nat) (hz : s.zone_counter = 1) :
    process_line s (Line.intRow k []) =
      (route_int s.curves k).map (fun c => { s with curves := c }) := by
  simp only [process_line, process_int_row, hz, beq_self_eq_true, if_true, List.foldlM_cons,
    List.foldlM_nil, bind, Except.bind, pure, Except.pure]
  cases route_int s.curves k <;> rfl

theorem process_float_row_single_first (s : ReaderState) (t : FloatTok)
    (hz : s.zone_counter = 1) :
    process_line s (Line.floatRow t []) =
      (route_float_first s.curves t).map (fun c => { s with curves := c }) := by
  simp only [process_line, process_float_row, hz, beq_self_eq_true, if_true, List.foldlM_cons,
    List.foldlM_nil, bind, Except.bind, pure, Except.pure]
  cases route_float_first s.curves t <;> rfl

theorem process_float_row_single_later (s : ReaderState) (t : FloatTok)
    (hz : s.zone_counter ≠ 1) :
    process_line s (Line.floatRow t []) =
      (route_float_later s.curves t).map (fun c => { s with curves := c }) := by
  have hz' : (s.zone_counter == 1) = false := by simpa using hz
  simp only [process_line, process_float_row, hz', Bool.false_eq_true, if_false,
    List.foldlM_cons, List.foldlM_nil, bind, Except.bind, pure, Except.pure]
  cases route_float_later s.curves t <;> rfl

/-- C18 (as amended): while the first zone is current (expected element count `E`),
processing one integer token `k` below `2^64` appends `k` unchanged to the region-tag
array if that array holds fewer than `E` entries; otherwise appends `k - 1` (on 64-bit
unsigned integers) to the connectivity array if it holds fewer than `4E` entries; otherwise
raises the too-many-integers error, and does so for every token; no other array is
modified. -/
theorem int_token_first_zone (pre : List Line) (s : ReaderState) (E k : Nat)
    (hp : process_lines ReaderState.initial pre = .ok s) (hz : s.zone_counter = 1)
    (hE : s.curves.n_elems = some E) (hk : k < 2 ^ 64) :
    (process_line s (Line.intRow k []) =
      if s.curves.tetra_submesh_idxs.length < E then
        .ok { s with curves :=
          { s.curves with tetra_submesh_idxs := s.curves.tetra_submesh_idxs ++ [k] } }
      else if s.curves.tetra_idxs.length < 4 * E then
        .ok { s with curves :=
          { s.curves with tetra_idxs := s.curves.tetra_idxs ++ [sub_one_u64 k] } }
      else .error Error.too_many_integers) ∧
    (1 ≤ k → sub_one_u64 k = k - 1) ∧
    (∀ k', E ≤ s.curves.tetra_submesh_idxs.length → 4 * E ≤ s.curves.tetra_idxs.length →
      process_line s (Line.intRow k' []) = .error Error.too_many_integers) := by
  obtain ⟨h, hw, rfl⟩ := reachable_history pre s hp (by rw [hz]; decide)
  have hE' : h.E = E := by simpa [History.state, History.curves] using hE
  have hw4 : 4 * E < 2 ^ 64 := by have := hw.2.1; omega
  refine ⟨?_, fun h1 => sub_one_u64_of_pos k h1 hk, fun k' h1 h2 => ?_⟩
  · rw [process_int_row_single _ _ hz, route_int_eq _ E k hE hw4]
    simp only [hk, if_true]
    split_ifs <;> rfl
  · rw [process_int_row_single _ _ hz, route_int_eq _ E k' hE hw4,
      if_neg (by omega), if_neg (by omega)]
    rfl

/-- Witness for C18 (as amended): token 7 after a header declaring one element. -/
theorem int_token_first_zone_witness :
    process_lines ReaderState.initial example_first_zone = .ok example_first_zone_state ∧
    example_first_zone_state.zone_counter = 1 ∧
    example_first_zone_state.curves.n_elems = some 1 ∧ 7 < 2 ^ 64 ∧
    process_line example_first_zone_state (Line.intRow 7 []) =
      .ok { example_first_zone_state with curves :=
        { example_first_zone_state.curves with tetra_submesh_idxs := [7] } } :=
  ⟨rfl, rfl, rfl, by decide,
    (int_token_first_zone example_first_zone example_first_zone_state 1 7 rfl rfl rfl
      (by decide)).1⟩

/-- C18 as stated fails: with room in the region-tag array, the integer token `2^64` is
not appended: `std::stoull` raises `std::out_of_range`. -/
theorem int_token_first_zone_wide :
    process_lines ReaderState.initial example_first_zone = .ok example_first_zone_state ∧
    example_first_zone_state.zone_counter = 1 ∧
    example_first_zone_state.curves.n_elems = some 1 ∧
    example_first_zone_state.curves.tetra_submesh_idxs.length < 1 ∧
    process_line example_first_zone_state (Line.intRow (2 ^ 64) []) =
      .error Error.out_of_range :=
  ⟨rfl, rfl, rfl, by decide, rfl⟩

theorem History.first_zone_arrays (h : History) (hd : h.done = []) :
    h.curves.mx = [slice 3 h.V h.cur] ∧ h.curves.my = [slice 4 h.V h.cur] ∧
    h.curves.mz = [slice 5 h.V h.cur] ∧ h.curves.current_field_idx = some 0 ∧
    h.curves.x = slice 0 h.V h.cur ∧ h.curves.y = slice 1 h.V h.cur ∧
    h.curves.z = slice 2 h.V h.cur := by
  simp [History.curves, History.comp, History.offset, History.firstZone, hd]

theorem slice_length_le {α : Type} (j V : Nat) (f : List α) : (slice j V f).length ≤ V := by
  rw [slice_length]; omega

/-- C19 (as amended): while the first zone is current (expected vertex count `V`),
processing one float token within the range of a double appends its value to the first of
the arrays x, y, z, snapshot-0 mx, my, mz (in that order) that holds fewer than `V`
entries and modifies no other array; for every float token, the too-many-floats error is
raised if and only if all six arrays already hold `V` entries. -/
theorem float_token_first_zone (pre : List Line) (s : ReaderState) (V : Nat) (v : Dbl)
    (hp : process_lines ReaderState.initial pre = .ok s) (hz : s.zone_counter = 1)
    (hV : s.curves.n_verts = some V) :
    ∃ a b d, s.curves.mx = [a] ∧ s.curves.my = [b] ∧ s.curves.mz = [d] ∧
    (process_line s (Line.floatRow (some v) []) =
      if s.curves.x.length < V then
        .ok { s with curves := { s.curves with x := s.curves.x ++ [v] } }
      else if s.curves.y.length < V then
        .ok { s with curves := { s.curves with y := s.curves.y ++ [v] } }
      else if s.curves.z.length < V then
        .ok { s with curves := { s.curves with z := s.curves.z ++ [v] } }
      else if a.length < V then .ok { s with curves := { s.curves with mx := [a ++ [v]] } }
      else if b.length < V then .ok { s with curves := { s.curves with my := [b ++ [v]] } }
      else if d.length < V then .ok { s with curves := { s.curves with mz := [d ++ [v]] } }
      else .error Error.too_many_doubles) ∧
    ∀ t, process_line s (Line.floatRow t []) = .error Error.too_many_doubles ↔
      s.curves.x.length = V ∧ s.curves.y.length = V ∧ s.curves.z.length = V ∧
        a.length = V ∧ b.length = V ∧ d.length = V := by
  obtain ⟨h, hw, rfl⟩ := reachable_history pre s hp (by rw [hz]; decide)
  have hd : h.done = [] := (History.zone_counter_eq_one h).1 (by rw [hz]; rfl)
  have hV' : h.V = V := by simpa [History.state, History.curves] using hV
  obtain ⟨e1, e2, e3, e4, e5, e6, e7⟩ := History.first_zone_arrays h hd
  have key := fun t => route_float_first_eq h.state.curves V 0 (slice 3 h.V h.cur)
    (slice 4 h.V h.cur) (slice 5 h.V h.cur) t hV e4
    (by rw [show h.state.curves.mx = _ from e1]; rfl)
    (by rw [show h.state.curves.my = _ from e2]; rfl)
    (by rw [show h.state.curves.mz = _ from e3]; rfl)
  refine ⟨_, _, _, e1, e2, e3, ?_, fun t => ?_⟩
  · rw [process_float_row_single_first _ _ hz, key]
    simp only [stod, Except.map, show h.state.curves.mx = _ from e1,
      show h.state.curves.my = _ from e2, show h.state.curves.mz = _ from e3,
      List.set_cons_zero]
    split_ifs <;> rfl
  · rw [process_float_row_single_first _ _ hz, key]
    have b1 : h.state.curves.x.length ≤ V := by
      rw [show h.state.curves.x = _ from e5, hV']; exact slice_length_le _ _ _
    have b2 : h.state.curves.y.length ≤ V := by
      rw [show h.state.curves.y = _ from e6, hV']; exact slice_length_le _ _ _
    have b3 : h.state.curves.z.length ≤ V := by
      rw [show h.state.curves.z = _ from e7, hV']; exact slice_length_le _ _ _
    have b4 : (slice 3 h.V h.cur).length ≤ V := by rw [hV']; exact slice_length_le _ _ _
    have b5 : (slice 4 h.V h.cur).length ≤ V := by rw [hV']; exact slice_length_le _ _ _
    have b6 : (slice 5 h.V h.cur).length ≤ V := by rw [hV']; exact slice_length_le _ _ _
    cases t with
    | none =>
      simp only [stod, Except.map]
      split_ifs <;> simp <;> omega
    | some v' =>
      simp only [stod, Except.map]
      split_ifs <;> simp <;> omega

/-- Witness for C19 (as amended): the first float token after a header declaring one
vertex goes to x. -/
theorem float_token_first_zone_witness :
    process_lines ReaderState.initial example_first_zone_vertex =
      .ok example_first_zone_vertex_state ∧
    example_first_zone_vertex_state.zone_counter = 1 ∧
    example_first_zone_vertex_state.curves.n_verts = some 1 ∧
    process_line example_first_zone_vertex_state (Line.floatRow (tok 5) []) =
      .ok { example_first_zone_vertex_state with curves :=
        { example_first_zone_vertex_state.curves with x := [⟨5⟩] } } ∧
    ∃ a b d, example_first_zone_vertex_state.curves.mx = [a] ∧
      example_first_zone_vertex_state.curves.my = [b] ∧
      example_first_zone_vertex_state.curves.mz = [d] ∧
      (process_line example_first_zone_vertex_state (Line.floatRow (some ⟨5⟩) []) =
        if example_first_zone_vertex_state.curves.x.length < 1 then
          .ok { example_first_zone_vertex_state with curves :=
            { example_first_zone_vertex_state.curves with
              x := example_first_zone_vertex_state.curves.x ++ [⟨5⟩] } }
        else if example_first_zone_vertex_state.curves.y.length < 1 then
          .ok { example_first_zone_vertex_state with curves :=
            { example_first_zone_vertex_state.curves with
              y := example_first_zone_vertex_state.curves.y ++ [⟨5⟩] } }
        else if example_first_zone_vertex_state.curves.z.length < 1 then
          .ok { example_first_zone_vertex_state with curves :=
            { example_first_zone_vertex_state.curves with
              z := example_first_zone_vertex_state.curves.z ++ [⟨5⟩] } }
        else if a.length < 1 then
          .ok { example_first_zone_vertex_state with curves :=
            { example_first_zone_vertex_state.curves with mx := [a ++ [⟨5⟩]] } }
        else if b.length < 1 then
          .ok { example_first_zone_vertex_state with curves :=
            { example_first_zone_vertex_state.curves with my := [b ++ [⟨5⟩]] } }
        else if d.length < 1 then
          .ok { example_first_zone_vertex_state with curves :=
            { example_first_zone_vertex_state.curves with mz := [d ++ [⟨5⟩]] } }
        else .error Error.too_many_doubles) ∧
      ∀ t, process_line example_first_zone_vertex_state (Line.floatRow t []) =
          .error Error.too_many_doubles ↔
        example_first_zone_vertex_state.curves.x.length = 1 ∧
        example_first_zone_vertex_state.curves.y.length = 1 ∧
        example_first_zone_vertex_state.curves.z.length = 1 ∧
        a.length = 1 ∧ b.length = 1 ∧ d.length = 1 :=
  ⟨rfl, rfl, rfl, rfl,
    float_token_first_zone example_first_zone_vertex example_first_zone_vertex_state 1 ⟨5⟩
      rfl rfl rfl⟩

/-- C19 as stated fails: with room in x, a float token out of the range of a double (such
as `1e999`) is not appended: `std::stod` raises `std::out_of_range`. -/
theorem float_token_first_zone_wide :
    process_lines ReaderState.initial example_first_zone_vertex =
      .ok example_first_zone_vertex_state ∧
    example_first_zone_vertex_state.zone_counter = 1 ∧
    example_first_zone_vertex_state.curves.n_verts = some 1 ∧
    example_first_zone_vertex_state.curves.x.length < 1 ∧
    process_line example_first_zone_vertex_state (Line.floatRow none []) =
      .error Error.out_of_range :=
  ⟨rfl, rfl, rfl, by decide, rfl⟩

theorem History.later_zone_arrays (h : History) (hd : h.done ≠ []) :
    h.curves.mx[h.done.length]? = some (slice 0 h.V h.cur) ∧
    h.curves.my[h.done.length]? = some (slice 1 h.V h.cur) ∧
    h.curves.mz[h.done.length]? = some (slice 2 h.V h.cur) ∧
    h.curves.current_field_idx = some h.done.length := by
  simp only [History.curves, History.offset, hd, if_false, Nat.zero_add]
  exact ⟨getElem?_snoc_at _ _ _ (History.comp_length _ _ _),
    getElem?_snoc_at _ _ _ (History.comp_length _ _ _),
    getElem?_snoc_at _ _ _ (History.comp_length _ _ _), trivial⟩

/-- C20 (as amended): while a zone `k ≥ 1` is current, processing one float token within
the range of a double appends its value to the first of snapshot `k`'s mx, my, mz holding
fewer than `V` entries; every float token raises too-many-floats exactly when all three
hold `V`; and whenever a float token is processed without error, the coordinate arrays
x, y, z, the region-tag and connectivity arrays and the component arrays of every earlier
snapshot are left unchanged, whether or not they are full. -/
theorem float_token_later_zone (pre : List Line) (s : ReaderState) (V k : Nat) (v : Dbl)
    (hp : process_lines ReaderState.initial pre = .ok s) (hz : s.zone_counter = k + 1)
    (hk : 1 ≤ k) (hV : s.curves.n_verts = some V) :
    ∃ a b d, s.curves.mx[k]? = some a ∧ s.curves.my[k]? = some b ∧
      s.curves.mz[k]? = some d ∧
    (process_line s (Line.floatRow (some v) []) =
      if a.length < V then
        .ok { s with curves := { s.curves with mx := s.curves.mx.set k (a ++ [v]) } }
      else if b.length < V then
        .ok { s with curves := { s.curves with my := s.curves.my.set k (b ++ [v]) } }
      else if d.length < V then
        .ok { s with curves := { s.curves with mz := s.curves.mz.set k (d ++ [v]) } }
      else .error Error.too_many_doubles) ∧
    (∀ t, process_line s (Line.floatRow t []) = .error Error.too_many_doubles ↔
      a.length = V ∧ b.length = V ∧ d.length = V) ∧
    ∀ t s', process_line s (Line.floatRow t []) = .ok s' →
      s'.curves.x = s.curves.x ∧ s'.curves.y = s.curves.y ∧ s'.curves.z = s.curves.z ∧
      s'.curves.tetra_submesh_idxs = s.curves.tetra_submesh_idxs ∧
      s'.curves.tetra_idxs = s.curves.tetra_idxs ∧
      ∀ j, j < k → s'.curves.mx[j]? = s.curves.mx[j]? ∧ s'.curves.my[j]? = s.curves.my[j]? ∧
        s'.curves.mz[j]? = s.curves.mz[j]? := by
  obtain ⟨h, hw, rfl⟩ := reachable_history pre s hp (by rw [hz]; omega)
  have hlen : h.done.length = k := by
    have : h.done.length + 1 = k + 1 := hz
    omega
  have hd : h.done ≠ [] := by
    intro h0; rw [h0] at hlen; simp at hlen; omega
  have hz1 : h.state.zone_counter ≠ 1 := by rw [hz]; omega
  have hV' : h.V = V := by simpa [History.state, History.curves] using hV
  obtain ⟨e1, e2, e3, e4⟩ := History.later_zone_arrays h hd
  rw [hlen] at e1 e2 e3 e4
  have key := fun t => route_float_later_eq h.state.curves V k (slice 0 h.V h.cur)
    (slice 1 h.V h.cur) (slice 2 h.V h.cur) t hV e4 e1 e2 e3
  have b4 : (slice 0 h.V h.cur).length ≤ V := by rw [hV']; exact slice_length_le _ _ _
  have b5 : (slice 1 h.V h.cur).length ≤ V := by rw [hV']; exact slice_length_le _ _ _
  have b6 : (slice 2 h.V h.cur).length ≤ V := by rw [hV']; exact slice_length_le _ _ _
  refine ⟨_, _, _, e1, e2, e3, ?_, fun t => ?_, fun t s' hs' => ?_⟩
  · rw [process_float_row_single_later _ _ hz1, key]
    simp only [stod, Except.map]
    split_ifs <;> rfl
  · rw [process_float_row_single_later _ _ hz1, key]
    cases t with
    | none =>
      simp only [stod, Except.map]
      split_ifs <;> simp <;> omega
    | some v' =>
      simp only [stod, Except.map]
      split_ifs <;> simp <;> omega
  · rw [process_float_row_single_later _ _ hz1, key] at hs'
    cases t with
    | none =>
      simp only [stod, Except.map] at hs'
      split_ifs at hs'
    | some v' =>
      simp only [stod, Except.map] at hs'
      split_ifs at hs' <;> cases hs' <;>
        refine ⟨rfl, rfl, rfl, rfl, rfl, fun j hj => ⟨?_, ?_, ?_⟩⟩ <;>
        first
          | rfl
          | exact List.getElem?_set_ne (by omega)

/-- Witness for C20 (as amended): the first float token of a second zone goes to the mx
array of snapshot 1. -/
theorem float_token_later_zone_witness :
    process_lines ReaderState.initial example_second_zone = .ok example_second_zone_state ∧
    example_second_zone_state.zone_counter = 1 + 1 ∧ 1 ≤ 1 ∧
    example_second_zone_state.curves.n_verts = some 1 ∧
    process_line example_second_zone_state (Line.floatRow (tok 9) []) =
      .ok { example_second_zone_state with curves :=
        { example_second_zone_state.curves with mx := [[⟨4⟩], [⟨9⟩]] } } ∧
    ∃ a b d, example_second_zone_state.curves.mx[1]? = some a ∧
      example_second_zone_state.curves.my[1]? = some b ∧
      example_second_zone_state.curves.mz[1]? = some d ∧
    (process_line example_second_zone_state (Line.floatRow (some ⟨9⟩) []) =
      if a.length < 1 then
        .ok { example_second_zone_state with curves :=
          { example_second_zone_state.curves with
            mx := example_second_zone_state.curves.mx.set 1 (a ++ [⟨9⟩]) } }
      else if b.length < 1 then
        .ok { example_second_zone_state with curves :=
          { example_second_zone_state.curves with
            my := example_second_zone_state.curves.my.set 1 (b ++ [⟨9⟩]) } }
      else if d.length < 1 then
        .ok { example_second_zone_state with curves :=
          { example_second_zone_state.curves with
            mz := example_second_zone_state.curves.mz.set 1 (d ++ [⟨9⟩]) } }
      else .error Error.too_many_doubles) ∧
    (∀ t, process_line example_second_zone_state (Line.floatRow t []) =
        .error Error.too_many_doubles ↔ a.length = 1 ∧ b.length = 1 ∧ d.length = 1) ∧
    ∀ t s', process_line example_second_zone_state (Line.floatRow t []) = .ok s' →
      s'.curves.x = example_second_zone_state.curves.x ∧
      s'.curves.y = example_second_zone_state.curves.y ∧
      s'.curves.z = example_second_zone_state.curves.z ∧
      s'.curves.tetra_submesh_idxs = example_second_zone_state.curves.tetra_submesh_idxs ∧
      s'.curves.tetra_idxs = example_second_zone_state.curves.tetra_idxs ∧
      ∀ j, j < 1 → s'.curves.mx[j]? = example_second_zone_state.curves.mx[j]? ∧
        s'.curves.my[j]? = example_second_zone_state.curves.my[j]? ∧
        s'.curves.mz[j]? = example_second_zone_state.curves.mz[j]? :=
  ⟨rfl, rfl, by decide, rfl, rfl,
    float_token_later_zone example_second_zone example_second_zone_state 1 1 ⟨9⟩ rfl rfl
      (by decide) rfl⟩

/-- C20 as stated fails: with room in snapshot 1's mx, a float token out of the range of
a double (such as `1e999`) is not appended: `std::stod` raises `std::out_of_range`. -/
theorem float_token_later_zone_wide :
    process_lines ReaderState.initial example_second_zone = .ok example_second_zone_state ∧
    example_second_zone_state.zone_counter = 2 ∧
    example_second_zone_state.curves.n_verts = some 1 ∧
    example_second_zone_state.curves.mx[1]? = some [] ∧
    process_line example_second_zone_state (Line.floatRow none []) =
      .error Error.out_of_range :=
  ⟨rfl, rfl, rfl, rfl, rfl⟩

/-! ## Patterns -/

theorem regex_match_iff (line : List Char) (p : Regex) :
    regex_match line p = true ↔ line ∈ p.matches' :=
  RegularExpression.rmatch_iff_matches' p line

theorem Regex.mem_chars (P : Regex) (x : List Char) (hx : x ∈ P.matches') :
    ∀ c ∈ x, c ∈ Regex.chars P := by
  induction P generalizing x with
  | zero => cases hx
  | epsilon =>
    have : x = [] := hx
    subst this
    intro c hc; cases hc
  | char a =>
    have : x = [a] := hx
    subst this
    intro c hc
    simpa [Regex.chars] using hc
  | plus P Q ihP ihQ =>
    intro c hc
    simp only [Regex.chars, List.mem_append]
    rcases hx with h | h
    · exact Or.inl (ihP x h c hc)
    · exact Or.inr (ihQ x h c hc)
  | comp P Q ihP ihQ =>
    intro c hc
    simp only [Regex.chars, List.mem_append]
    obtain ⟨a, ha, b, hb, rfl⟩ := Language.mem_mul.1 hx
    rcases List.mem_append.1 hc with h | h
    · exact Or.inl (ihP a ha c h)
    · exact Or.inr (ihQ b hb c h)
  | star P ih =>
    intro c hc
    obtain ⟨L, rfl, hL⟩ := Language.mem_kstar.1 hx
    obtain ⟨y, hy, hcy⟩ := List.mem_flatten.1 hc
    exact ih y (hL y hy) c hcy

theorem Regex.forces_spec (p : Char → Bool) (P : Regex) (hf : Regex.forces p P = true)
    (x : List Char) (hx : x ∈ P.matches') : ∃ c ∈ x, p c = true := by
  induction P generalizing x with
  | zero => cases hx
  | epsilon => cases hf
  | char a =>
    have : x = [a] := hx
    subst this
    exact ⟨a, List.mem_singleton.2 rfl, hf⟩
  | plus P Q ihP ihQ =>
    simp only [Regex.forces, Bool.and_eq_true] at hf
    rcases hx with h | h
    · exact ihP hf.1 x h
    · exact ihQ hf.2 x h
  | comp P Q ihP ihQ =>
    simp only [Regex.forces, Bool.or_eq_true] at hf
    obtain ⟨a, ha, b, hb, rfl⟩ := Language.mem_mul.1 hx
    rcases hf with h | h
    · obtain ⟨c, hc, hp⟩ := ihP h a ha
      exact ⟨c, List.mem_append_left _ hc, hp⟩
    · obtain ⟨c, hc, hp⟩ := ihQ h b hb
      exact ⟨c, List.mem_append_right _ hc, hp⟩
  | star P _ => cases hf

theorem mem_mul_matches (P Q : Regex) (x : List Char) :
    x ∈ (P * Q).matches' ↔ ∃ a b, a ∈ P.matches' ∧ b ∈ Q.matches' ∧ x = a ++ b := by
  rw [RegularExpression.matches'_mul, Language.mem_mul]
  constructor
  · rintro ⟨a, ha, b, hb, rfl⟩; exact ⟨a, b, ha, hb, rfl⟩
  · rintro ⟨a, b, ha, hb, rfl⟩; exact ⟨a, ha, b, hb, rfl⟩

theorem mem_char_matches (c : Char) (x : List Char) :
    x ∈ (RegularExpression.char c).matches' ↔ x = [c] := Iff.rfl

/-! ## The groups of a zone header -/

theorem dropWhile_append_all {α : Type} (p : α → Bool) (a r : List α)
    (h : ∀ c ∈ a, p c = true) : (a ++ r).dropWhile p = r.dropWhile p := by
  induction a with
  | nil => rfl
  | cons x xs ih =>
    rw [List.cons_append, List.dropWhile_cons_of_pos (h x (List.mem_cons_self _ _))]
    exact ih (fun c hc => h c (List.mem_cons_of_mem _ hc))

theorem takeWhile_append_all {α : Type} (p : α → Bool) (a r : List α)
    (h : ∀ c ∈ a, p c = true) : (a ++ r).takeWhile p = a ++ r.takeWhile p := by
  induction a with
  | nil => rfl
  | cons x xs ih =>
    rw [List.cons_append, List.takeWhile_cons_of_pos (h x (List.mem_cons_self _ _)),
      ih (fun c hc => h c (List.mem_cons_of_mem _ hc))]
    rfl

theorem after_char_append (q : Char) (a r : List Char) (h : ∀ c ∈ a, c ≠ q) :
    after_char q (a ++ q :: r) = r := by
  unfold after_char
  rw [dropWhile_append_all _ a _ (fun c hc => by simpa using h c hc),
    List.dropWhile_cons_of_neg (by simp)]
  rfl

theorem takeWhile_ne_append (q : Char) (a r : List Char) (h : ∀ c ∈ a, c ≠ q) :
    (a ++ q :: r).takeWhile (fun x => x != q) = a := by
  rw [takeWhile_append_all _ a _ (fun c hc => by simpa using h c hc),
    List.takeWhile_cons_of_neg (by simp), List.append_nil]

theorem first_digits_append (a b r : List Char) (ha : ∀ c ∈ a, c ∉ digit_chars)
    (hb : ∀ c ∈ b, c ∈ digit_chars) (hb0 : b ≠ [])
    (hr : ∀ c, r.head? = some c → c ∉ digit_chars) :
    first_digits (a ++ b ++ r) = b ∧ after_first_digits (a ++ b ++ r) = r := by
  obtain ⟨d, ds, rfl⟩ := List.exists_cons_of_ne_nil hb0
  have hd : d ∈ digit_chars := hb d (List.mem_cons_self _ _)
  have h1 : (a ++ (d :: ds) ++ r).dropWhile (fun x => decide (x ∉ digit_chars)) =
      (d :: ds) ++ r := by
    rw [List.append_assoc, dropWhile_append_all _ a _ (fun c hc => by simpa using ha c hc),
      List.cons_append, List.dropWhile_cons_of_neg (by simpa using hd)]
  have h2 : (r.takeWhile (fun x => decide (x ∈ digit_chars)) = []) ∧
      (r.dropWhile (fun x => decide (x ∈ digit_chars)) = r) := by
    cases r with
    | nil => exact ⟨rfl, rfl⟩
    | cons c cs =>
      have := hr c rfl
      exact ⟨List.takeWhile_cons_of_neg (by simpa using this),
        List.dropWhile_cons_of_neg (by simpa using this)⟩
  constructor
  · unfold first_digits
    rw [h1, takeWhile_append_all _ (d :: ds) _ (fun c hc => by simpa using hb c hc), h2.1,
      List.append_nil]
  · unfold after_first_digits
    rw [h1, dropWhile_append_all _ (d :: ds) _ (fun c hc => by simpa using hb c hc), h2.2]

theorem head_not_digit_of_append (a r : List Char) (ha : ∀ c ∈ a, c ∉ digit_chars)
    (ha0 : a ≠ []) : ∀ c, (a ++ r).head? = some c → c ∉ digit_chars := by
  obtain ⟨x, xs, rfl⟩ := List.exists_cons_of_ne_nil ha0
  intro c hc
  simp only [List.cons_append, List.head?_cons, Option.some.injEq] at hc
  subst hc
  exact ha x (List.mem_cons_self _ _)

/-! ## The alphabets of the patterns -/

theorem rx_zone_lead_no_quote : ∀ c ∈ Regex.chars rx_zone_lead, c ≠ quote_char := by decide

set_option maxRecDepth 100000 in
theorem rx_zone_title_no_quote : ∀ c ∈ Regex.chars rx_zone_title, c ≠ quote_char := by decide

theorem rx_zone_n_lead_no_digit : ∀ c ∈ Regex.chars rx_zone_n_lead, c ∉ digit_chars := by
  decide

theorem rx_zone_e_lead_no_digit : ∀ c ∈ Regex.chars rx_zone_e_lead, c ∉ digit_chars := by
  decide

theorem rx_spaces_no_digit : ∀ c ∈ Regex.chars (Regex.many rx_space), c ∉ digit_chars := by
  decide

theorem rx_digits_digit : ∀ c ∈ Regex.chars rx_digits, c ∈ digit_chars := by decide

theorem rx_digits_ne_nil (x : List Char) (hx : x ∈ rx_digits.matches') : x ≠ [] := by
  obtain ⟨c, hc, _⟩ := Regex.forces_spec (fun _ => true) rx_digits (by decide) x hx
  exact List.ne_nil_of_mem hc

theorem rx_zone_e_lead_ne_nil (x : List Char) (hx : x ∈ rx_zone_e_lead.matches') : x ≠ [] := by
  obtain ⟨c, hc, _⟩ := Regex.forces_spec (fun _ => true) rx_zone_e_lead (by decide) x hx
  exact List.ne_nil_of_mem hc

theorem rx_zone_n_lead_ne_nil (x : List Char) (hx : x ∈ rx_zone_n_lead.matches') : x ≠ [] := by
  obtain ⟨c, hc, _⟩ := Regex.forces_spec (fun _ => true) rx_zone_n_lead (by decide) x hx
  exact List.ne_nil_of_mem hc

theorem head_of_mem_all (r : List Char) (p : Char → Prop) (h : ∀ c ∈ r, p c) :
    ∀ c, r.head? = some c → p c := by
  intro c hc
  cases r with
  | nil => cases hc
  | cons x xs =>
    simp only [List.head?_cons, Option.some.injEq] at hc
    subst hc
    exact h x (List.mem_cons_self _ _)

/-- The three groups of a line that is built from pieces matching the parts of a zone
pattern, whatever the two count fields are introduced by. -/
theorem zone_groups (lead title l1 d1 l2 d2 trail : List Char)
    (hlead : ∀ c ∈ lead, c ≠ quote_char) (htitle : ∀ c ∈ title, c ≠ quote_char)
    (hl1 : ∀ c ∈ l1, c ∉ digit_chars) (hd1 : ∀ c ∈ d1, c ∈ digit_chars) (hd1n : d1 ≠ [])
    (hl2 : ∀ c ∈ l2, c ∉ digit_chars) (hl2n : l2 ≠ [])
    (hd2 : ∀ c ∈ d2, c ∈ digit_chars) (hd2n : d2 ≠ [])
    (htrail : ∀ c ∈ trail, c ∉ digit_chars) :
    zone_title (lead ++ [quote_char] ++ title ++ [quote_char] ++ l1 ++ d1 ++ l2 ++ d2 ++ trail)
        = title ∧
      zone_n_digits
        (lead ++ [quote_char] ++ title ++ [quote_char] ++ l1 ++ d1 ++ l2 ++ d2 ++ trail) = d1 ∧
      zone_e_digits
        (lead ++ [quote_char] ++ title ++ [quote_char] ++ l1 ++ d1 ++ l2 ++ d2 ++ trail) = d2 ∧
      after_char quote_char (after_char quote_char
        (lead ++ [quote_char] ++ title ++ [quote_char] ++ l1 ++ d1 ++ l2 ++ d2 ++ trail)) =
        l1 ++ d1 ++ (l2 ++ d2 ++ trail) := by
  have e : lead ++ [quote_char] ++ title ++ [quote_char] ++ l1 ++ d1 ++ l2 ++ d2 ++ trail =
      lead ++ quote_char :: (title ++ quote_char :: (l1 ++ d1 ++ (l2 ++ d2 ++ trail))) := by
    simp
  have a1 := after_char_append quote_char lead
    (title ++ quote_char :: (l1 ++ d1 ++ (l2 ++ d2 ++ trail))) hlead
  have a2 := after_char_append quote_char title (l1 ++ d1 ++ (l2 ++ d2 ++ trail)) htitle
  have f1 := first_digits_append l1 d1 (l2 ++ d2 ++ trail) hl1 hd1 hd1n
    (by rw [List.append_assoc]; exact head_not_digit_of_append l2 _ hl2 hl2n)
  have f2 := first_digits_append l2 d2 trail hl2 hd2 hd2n (head_of_mem_all trail _ htrail)
  rw [e]
  refine ⟨?_, ?_, ?_, ?_⟩
  · unfold zone_title
    rw [a1, takeWhile_ne_append quote_char title _ htitle]
  · unfold zone_n_digits
    rw [a1, a2, f1.1]
  · unfold zone_e_digits
    rw [a1, a2, f1.2, f2.1]
  · rw [a1, a2]

/-! ## The shape of a zone header -/

/-- The words of a zone pattern whose two count fields are introduced by `L1` and `L2`. -/
theorem mem_zone_shape (L1 L2 : Regex) (x : List Char) :
    x ∈ (rx_zone_lead * RegularExpression.char quote_char * rx_zone_title *
        RegularExpression.char quote_char * L1 * rx_digits * L2 * rx_digits *
        Regex.many rx_space).matches' ↔
      ∃ lead title l1 d1 l2 d2 trail,
        lead ∈ rx_zone_lead.matches' ∧ title ∈ rx_zone_title.matches' ∧ l1 ∈ L1.matches' ∧
        d1 ∈ rx_digits.matches' ∧ l2 ∈ L2.matches' ∧ d2 ∈ rx_digits.matches' ∧
        trail ∈ (Regex.many rx_space).matches' ∧
        x = lead ++ [quote_char] ++ title ++ [quote_char] ++ l1 ++ d1 ++ l2 ++ d2 ++ trail := by
  simp only [mem_mul_matches, mem_char_matches]
  constructor
  · rintro ⟨_, trail, ⟨_, d2, ⟨_, l2, ⟨_, d1, ⟨_, l1, ⟨_, _, ⟨_, title, ⟨lead, _, hlead, rfl,
      rfl⟩, htitle, rfl⟩, rfl, rfl⟩, hl1, rfl⟩, hd1, rfl⟩, hl2, rfl⟩, hd2, rfl⟩, htrail, rfl⟩
    exact ⟨lead, title, l1, d1, l2, d2, trail, hlead, htitle, hl1, hd1, hl2, hd2, htrail, rfl⟩
  · rintro ⟨lead, title, l1, d1, l2, d2, trail, hlead, htitle, hl1, hd1, hl2, hd2, htrail, rfl⟩
    exact ⟨_, trail, ⟨_, d2, ⟨_, l2, ⟨_, d1, ⟨_, l1, ⟨_, _, ⟨_, title, ⟨lead, _, hlead, rfl,
      rfl⟩, htitle, rfl⟩, rfl, rfl⟩, hl1, rfl⟩, hd1, rfl⟩, hl2, rfl⟩, hd2, rfl⟩, htrail, rfl⟩

/-- The first character after the separator of a count field is the letter of the field. -/
theorem zone_field_letter (k : Char) (hk : k ∉ Regex.chars rx_zone_sep) (x r : List Char)
    (hx : x ∈ (rx_zone_sep * RegularExpression.char k * Regex.many rx_space *
      RegularExpression.char '=' * Regex.many rx_space).matches') :
    ((x ++ r).dropWhile (fun c => decide (c ∈ Regex.chars rx_zone_sep))).head? = some k := by
  simp only [mem_mul_matches, mem_char_matches] at hx
  obtain ⟨_, b, ⟨_, _, ⟨_, a, ⟨sep, _, hsep, rfl, rfl⟩, _, rfl⟩, rfl, rfl⟩, _, rfl⟩ := hx
  have e : sep ++ [k] ++ a ++ ['='] ++ b ++ r = sep ++ k :: (a ++ '=' :: (b ++ r)) := by simp
  rw [e, dropWhile_append_all _ sep _
    (fun c hc => by simpa using Regex.mem_chars rx_zone_sep sep hsep c hc),
    List.dropWhile_cons_of_neg (by simpa using hk)]
  rfl

/-- A line with `E=` before `N=` does not match the zone pattern. -/
theorem e_first_not_zone (line : List Char) (h : line ∈ regex_zone_e_first.matches') :
    line ∉ new_regex_zone.matches' := by
  intro h2
  obtain ⟨lead, title, l1, d1, l2, d2, trail, hlead, htitle, hl1, hd1, hl2, hd2, htrail, e1⟩ :=
    (mem_zone_shape rx_zone_e_lead rx_zone_n_lead line).1 h
  obtain ⟨lead2, title2, m1, c1, m2, c2, trail2, hlead2, htitle2, hm1, hc1, hm2, hc2, htrail2,
    e2⟩ := (mem_zone_shape rx_zone_n_lead rx_zone_e_lead line).1 h2
  have g1 := (zone_groups lead title l1 d1 l2 d2 trail
    (fun c hc => rx_zone_lead_no_quote c (Regex.mem_chars _ _ hlead c hc))
    (fun c hc => rx_zone_title_no_quote c (Regex.mem_chars _ _ htitle c hc))
    (fun c hc => rx_zone_e_lead_no_digit c (Regex.mem_chars _ _ hl1 c hc))
    (fun c hc => rx_digits_digit c (Regex.mem_chars _ _ hd1 c hc)) (rx_digits_ne_nil _ hd1)
    (fun c hc => rx_zone_n_lead_no_digit c (Regex.mem_chars _ _ hl2 c hc))
    (rx_zone_n_lead_ne_nil _ hl2)
    (fun c hc => rx_digits_digit c (Regex.mem_chars _ _ hd2 c hc)) (rx_digits_ne_nil _ hd2)
    (fun c hc => rx_spaces_no_digit c (Regex.mem_chars _ _ htrail c hc))).2.2.2
  have g2 := (zone_groups lead2 title2 m1 c1 m2 c2 trail2
    (fun c hc => rx_zone_lead_no_quote c (Regex.mem_chars _ _ hlead2 c hc))
    (fun c hc => rx_zone_title_no_quote c (Regex.mem_chars _ _ htitle2 c hc))
    (fun c hc => rx_zone_n_lead_no_digit c (Regex.mem_chars _ _ hm1 c hc))
    (fun c hc => rx_digits_digit c (Regex.mem_chars _ _ hc1 c hc)) (rx_digits_ne_nil _ hc1)
    (fun c hc => rx_zone_e_lead_no_digit c (Regex.mem_chars _ _ hm2 c hc))
    (rx_zone_e_lead_ne_nil _ hm2)
    (fun c hc => rx_digits_digit c (Regex.mem_chars _ _ hc2 c hc)) (rx_digits_ne_nil _ hc2)
    (fun c hc => rx_spaces_no_digit c (Regex.mem_chars _ _ htrail2 c hc))).2.2.2
  rw [← e1] at g1
  rw [← e2, g1] at g2
  have k1 := zone_field_letter 'E' (by decide) l1 (d1 ++ (l2 ++ d2 ++ trail)) hl1
  have k2 := zone_field_letter 'N' (by decide) m1 (c1 ++ (m2 ++ c2 ++ trail2)) hm1
  rw [← List.append_assoc, g2, List.append_assoc, k2] at k1
  exact absurd k1 (by decide)

/-- A line of the shape of a zone header, in either order of the count fields, is no
numeric row. -/
theorem zone_shape_not_row (L1 L2 : Regex) (line : List Char)
    (h : line ∈ (rx_zone_lead * RegularExpression.char quote_char * rx_zone_title *
        RegularExpression.char quote_char * L1 * rx_digits * L2 * rx_digits *
        Regex.many rx_space).matches') :
    line ∉ new_regex_int_line.matches' ∧ line ∉ new_regex_float_line.matches' := by
  obtain ⟨lead, title, l1, d1, l2, d2, trail, hlead, -, -, -, -, -, -, rfl⟩ :=
    (mem_zone_shape L1 L2 line).1 h
  obtain ⟨c, hc, hz⟩ := Regex.forces_spec (fun c => c == 'Z') rx_zone_lead (by decide) lead hlead
  have hc2 : c ∈ lead ++ [quote_char] ++ title ++ [quote_char] ++ l1 ++ d1 ++ l2 ++ d2 ++ trail := by
    simp [hc]
  have hce : c = 'Z' := by simpa using hz
  subst hce
  constructor
  · intro hi
    exact absurd (Regex.mem_chars _ _ hi _ hc2) (by decide)
  · intro hf
    exact absurd (Regex.mem_chars _ _ hf _ hc2) (by decide)

/-! ## The classification of a line -/

theorem regex_match_false_iff (line : List Char) (p : Regex) :
    regex_match line p = false ↔ line ∉ p.matches' := by
  rw [← regex_match_iff, Bool.not_eq_true]

theorem regex_split_loop_open (cur : List Char) (hcur : cur ≠ []) (s : List Char) :
    ∃ t ∈ regex_split_loop cur false s, t ≠ [] := by
  induction s generalizing cur with
  | nil => exact ⟨cur.reverse, by simp [regex_split_loop], by simpa using hcur⟩
  | cons c cs ih =>
    by_cases hc : c ∈ space_chars
    · exact ⟨cur.reverse, by simp [regex_split_loop, hc], by simpa using hcur⟩
    · obtain ⟨t, ht, ht0⟩ := ih (c :: cur) (List.cons_ne_nil _ _)
      exact ⟨t, by simpa [regex_split_loop, hc] using ht, ht0⟩

theorem regex_split_loop_token (cur : List Char) (in_sep : Bool) (s : List Char)
    (h : ∃ c ∈ s, c ∉ space_chars) : ∃ t ∈ regex_split_loop cur in_sep s, t ≠ [] := by
  induction s generalizing cur in_sep with
  | nil => obtain ⟨c, hc, _⟩ := h; cases hc
  | cons c cs ih =>
    by_cases hc : c ∈ space_chars
    · obtain ⟨d, hd, hd0⟩ := h
      have hd2 : d ∈ cs := by
        rcases List.mem_cons.1 hd with e | e
        · subst e; exact absurd hc hd0
        · exact e
      obtain ⟨t, ht, ht0⟩ := ih [] true ⟨d, hd2, hd0⟩
      refine ⟨t, ?_, ht0⟩
      cases in_sep
      · simp only [regex_split_loop, hc, if_true]
        exact List.mem_cons_of_mem _ ht
      · simpa only [regex_split_loop, hc, if_true] using ht
    · obtain ⟨t, ht, ht0⟩ := regex_split_loop_open (c :: cur) (List.cons_ne_nil _ _) cs
      exact ⟨t, by simpa [regex_split_loop, hc] using ht, ht0⟩

/-- A line that contains a digit has a token. -/
theorem row_tokens_of_digit (line : List Char) (h : ∃ c ∈ line, c ∈ digit_chars) :
    ∃ a as, row_tokens line = a :: as := by
  obtain ⟨c, hc, hd⟩ := h
  have hs : c ∉ space_chars := by
    revert hd
    have : ∀ d ∈ digit_chars, d ∉ space_chars := by decide
    exact this c
  obtain ⟨t, ht, ht0⟩ := regex_split_loop_token [] false line ⟨c, hc, hs⟩
  have hm : t ∈ row_tokens line := by
    unfold row_tokens regex_split
    rw [List.mem_filter]
    exact ⟨ht, by cases t with
      | nil => exact absurd rfl ht0
      | cons x xs => rfl⟩
  cases hr : row_tokens line with
  | nil => rw [hr] at hm; cases hm
  | cons a as => exact ⟨a, as, rfl⟩

theorem int_line_tokens (line : List Char) (h : line ∈ new_regex_int_line.matches') :
    ∃ a as, row_tokens line = a :: as := by
  obtain ⟨c, hc, hd⟩ := Regex.forces_spec (fun c => decide (c ∈ digit_chars))
    new_regex_int_line (by decide) line h
  exact row_tokens_of_digit line ⟨c, hc, by simpa using hd⟩

theorem float_line_tokens (line : List Char) (h : line ∈ new_regex_float_line.matches') :
    ∃ a as, row_tokens line = a :: as := by
  obtain ⟨c, hc, hd⟩ := Regex.forces_spec (fun c => decide (c ∈ digit_chars))
    new_regex_float_line (by decide) line h
  exact row_tokens_of_digit line ⟨c, hc, by simpa using hd⟩

theorem zone_not_row (line : List Char) (h : line ∈ new_regex_zone.matches') :
    line ∉ new_regex_int_line.matches' ∧ line ∉ new_regex_float_line.matches' :=
  zone_shape_not_row rx_zone_n_lead rx_zone_e_lead line h

theorem process_line_other (s : ReaderState) : process_line s Line.other = .ok s := rfl

/-- C11 (as amended): a line made of optional leading whitespace, `ZONE`, `T=`, a quoted
title, the vertex-count field `N=<n>` and then the element-count field `E=<e>` is
classified as a zone header with that title, vertex count `n` and element count `e`; the
line made of the same pieces with `E=<e>` before `N=<n>` matches none of the patterns and
is classified as a line to skip. -/
theorem zone_header_field_order (stod_text : List Char → FloatTok)
    (lead title nlead nd elead ed trail : List Char)
    (hlead : regex_match lead rx_zone_lead = true)
    (htitle : regex_match title rx_zone_title = true)
    (hnlead : regex_match nlead rx_zone_n_lead = true)
    (hnd : regex_match nd rx_digits = true)
    (helead : regex_match elead rx_zone_e_lead = true)
    (hed : regex_match ed rx_digits = true)
    (htrail : regex_match trail (Regex.many rx_space) = true) :
    classify stod_text
        (lead ++ [quote_char] ++ title ++ [quote_char] ++ nlead ++ nd ++ elead ++ ed ++ trail) =
      Line.zone (String.mk title) (digits_value nd) (digits_value ed) ∧
    regex_match
        (lead ++ [quote_char] ++ title ++ [quote_char] ++ elead ++ ed ++ nlead ++ nd ++ trail)
        regex_zone_e_first = true ∧
    classify stod_text
        (lead ++ [quote_char] ++ title ++ [quote_char] ++ elead ++ ed ++ nlead ++ nd ++ trail) =
      Line.other := by
  rw [regex_match_iff] at hlead htitle hnlead hnd helead hed htrail
  have hN : lead ++ [quote_char] ++ title ++ [quote_char] ++ nlead ++ nd ++ elead ++ ed ++ trail
      ∈ new_regex_zone.matches' :=
    (mem_zone_shape rx_zone_n_lead rx_zone_e_lead _).2
      ⟨lead, title, nlead, nd, elead, ed, trail, hlead, htitle, hnlead, hnd, helead, hed,
        htrail, rfl⟩
  have hE : lead ++ [quote_char] ++ title ++ [quote_char] ++ elead ++ ed ++ nlead ++ nd ++ trail
      ∈ regex_zone_e_first.matches' :=
    (mem_zone_shape rx_zone_e_lead rx_zone_n_lead _).2
      ⟨lead, title, elead, ed, nlead, nd, trail, hlead, htitle, helead, hed, hnlead, hnd,
        htrail, rfl⟩
  obtain ⟨g1, g2, g3, -⟩ := zone_groups lead title nlead nd elead ed trail
    (fun c hc => rx_zone_lead_no_quote c (Regex.mem_chars _ _ hlead c hc))
    (fun c hc => rx_zone_title_no_quote c (Regex.mem_chars _ _ htitle c hc))
    (fun c hc => rx_zone_n_lead_no_digit c (Regex.mem_chars _ _ hnlead c hc))
    (fun c hc => rx_digits_digit c (Regex.mem_chars _ _ hnd c hc)) (rx_digits_ne_nil _ hnd)
    (fun c hc => rx_zone_e_lead_no_digit c (Regex.mem_chars _ _ helead c hc))
    (rx_zone_e_lead_ne_nil _ helead)
    (fun c hc => rx_digits_digit c (Regex.mem_chars _ _ hed c hc)) (rx_digits_ne_nil _ hed)
    (fun c hc => rx_spaces_no_digit c (Regex.mem_chars _ _ htrail c hc))
  refine ⟨?_, (regex_match_iff _ _).2 hE, ?_⟩
  · unfold classify
    rw [if_pos ((regex_match_iff _ _).2 hN), g1, g2, g3]
  · have n1 := e_first_not_zone _ hE
    have n2 := zone_shape_not_row rx_zone_e_lead rx_zone_n_lead _ hE
    unfold classify
    rw [if_neg (by rw [regex_match_iff]; exact n1), if_neg (by rw [regex_match_iff]; exact n2.1),
      if_neg (by rw [regex_match_iff]; exact n2.2)]

set_option maxRecDepth 100000 in
/-- Witness for C11 (as amended): the pieces of `ZONE T="f1", N=4, E=1`. -/
theorem zone_header_field_order_witness :
    classify (fun _ => none)
        ("ZONE T=".toList ++ [quote_char] ++ "f1".toList ++ [quote_char] ++ ", N=".toList ++
          "4".toList ++ ", E=".toList ++ "1".toList ++ []) =
      Line.zone (String.mk "f1".toList) (digits_value "4".toList) (digits_value "1".toList) ∧
    regex_match
        ("ZONE T=".toList ++ [quote_char] ++ "f1".toList ++ [quote_char] ++ ", E=".toList ++
          "1".toList ++ ", N=".toList ++ "4".toList ++ [])
        regex_zone_e_first = true ∧
    classify (fun _ => none)
        ("ZONE T=".toList ++ [quote_char] ++ "f1".toList ++ [quote_char] ++ ", E=".toList ++
          "1".toList ++ ", N=".toList ++ "4".toList ++ []) =
      Line.other :=
  zone_header_field_order (fun _ => none) "ZONE T=".toList "f1".toList ", N=".toList
    "4".toList ", E=".toList "1".toList [] (by decide) (by decide) (by decide) (by decide)
    (by decide) (by decide) (by decide)

set_option maxRecDepth 100000 in
/-- C11 as stated fails: the line `ZONE T="f1", E=1, N=4` has the element-count field
before the vertex-count field, yet it does not match the zone pattern and is not classified
as a zone header, while `ZONE T="f1", N=4, E=1` is the header of a zone with 4 vertices and
1 element. -/
theorem zone_header_e_first_skipped :
    regex_match example_header_e_first regex_zone_e_first = true ∧
    regex_match example_header_e_first new_regex_zone = false ∧
    classify (fun _ => none) example_header_e_first = Line.other ∧
    classify (fun _ => none) example_header_n_first = Line.zone "f1" 4 1 := by
  decide

theorem classify_of_no_match (stod_text : List Char → FloatTok) (line : List Char)
    (hz : regex_match line new_regex_zone = false)
    (hi : regex_match line new_regex_int_line = false)
    (hf : regex_match line new_regex_float_line = false) :
    classify stod_text line = Line.other := by
  unfold classify
  rw [if_neg (by rw [hz]; decide), if_neg (by rw [hi]; decide), if_neg (by rw [hf]; decide)]

/-- C12: classification is the first match in the order zone header, integer row, float
row.  A line matching the zone pattern is classified as a zone header and matches neither
numeric pattern; every line matching the integer-row pattern is classified as an integer
row of its tokens, whether or not it also matches the float-row pattern; a line matching
the float-row pattern but not the integer-row pattern is classified as a float row; a line
matching no pattern is classified as a line to skip. -/
theorem classify_first_match (stod_text : List Char → FloatTok) (line : List Char) :
    (regex_match line new_regex_zone = true →
      classify stod_text line =
        Line.zone (String.mk (zone_title line)) (digits_value (zone_n_digits line))
          (digits_value (zone_e_digits line)) ∧
      regex_match line new_regex_int_line = false ∧
      regex_match line new_regex_float_line = false) ∧
    (regex_match line new_regex_int_line = true →
      ∃ a as, row_tokens line = a :: as ∧
        classify stod_text line = Line.intRow (digits_value a) (as.map digits_value)) ∧
    (regex_match line new_regex_int_line = false →
      regex_match line new_regex_float_line = true →
      ∃ a as, row_tokens line = a :: as ∧
        classify stod_text line = Line.floatRow (stod_text a) (as.map stod_text)) ∧
    (regex_match line new_regex_zone = false → regex_match line new_regex_int_line = false →
      regex_match line new_regex_float_line = false → classify stod_text line = Line.other) := by
  refine ⟨fun hz => ?_, fun hi => ?_, fun hi hf => ?_, fun hz hi hf => ?_⟩
  · have hn := zone_not_row line ((regex_match_iff _ _).1 hz)
    exact ⟨by unfold classify; rw [if_pos hz], (regex_match_false_iff _ _).2 hn.1,
      (regex_match_false_iff _ _).2 hn.2⟩
  · have hz : ¬ regex_match line new_regex_zone = true := fun hz =>
      (zone_not_row line ((regex_match_iff _ _).1 hz)).1 ((regex_match_iff _ _).1 hi)
    obtain ⟨a, as, ht⟩ := int_line_tokens line ((regex_match_iff _ _).1 hi)
    exact ⟨a, as, ht, by unfold classify; rw [if_neg hz, if_pos hi, ht]⟩
  · have hz : ¬ regex_match line new_regex_zone = true := fun hz =>
      (zone_not_row line ((regex_match_iff _ _).1 hz)).2 ((regex_match_iff _ _).1 hf)
    obtain ⟨a, as, ht⟩ := float_line_tokens line ((regex_match_iff _ _).1 hf)
    exact ⟨a, as, ht, by
      unfold classify
      rw [if_neg hz, if_neg (by rw [hi]; decide), if_pos hf, ht]⟩
  · exact classify_of_no_match stod_text line hz hi hf

set_option maxRecDepth 100000 in
/-- Witness for C12: the line `0 1 0` matches the integer-row pattern and the float-row
pattern, and is classified as the integer row of the tokens 0, 1, 0. -/
theorem classify_first_match_witness :
    regex_match "0 1 0".toList new_regex_int_line = true ∧
    regex_match "0 1 0".toList new_regex_float_line = true ∧
    ∃ a as, row_tokens "0 1 0".toList = a :: as ∧
      classify (fun _ => none) "0 1 0".toList =
        Line.intRow (digits_value a) (as.map digits_value) ∧
      Line.intRow (digits_value a) (as.map digits_value) = Line.intRow 0 [1, 0] := by
  obtain ⟨a, as, ht, hc⟩ := (classify_first_match (fun _ => none) "0 1 0".toList).2.1 (by decide)
  refine ⟨by decide, by decide, a, as, ht, hc, ?_⟩
  rw [← hc]
  decide

/-- C13: for every accumulator state and every line that matches none of the zone-header,
integer-row and float-row patterns, the line is classified as a line to skip, and
processing it raises no error and returns the state unchanged: every array of the
accumulator and the zone counter are as before. -/
theorem unmatched_line_skipped (stod_text : List Char → FloatTok) (s : ReaderState)
    (line : List Char) (hz : regex_match line new_regex_zone = false)
    (hi : regex_match line new_regex_int_line = false)
    (hf : regex_match line new_regex_float_line = false) :
    classify stod_text line = Line.other ∧
    process_line s (classify stod_text line) = .ok s := by
  have h := classify_of_no_match stod_text line hz hi hf
  exact ⟨h, by rw [h]; rfl⟩

/-- Witness for C13: the empty line matches none of the three patterns, and is skipped
in the state reached after a zone header. -/
theorem unmatched_line_skipped_witness :
    regex_match [] new_regex_zone = false ∧ regex_match [] new_regex_int_line = false ∧
    regex_match [] new_regex_float_line = false ∧
    classify (fun _ => none) [] = Line.other ∧
    process_line example_first_zone_state (classify (fun _ => none) []) =
      .ok example_first_zone_state :=
  ⟨by decide, by decide, by decide,
    unmatched_line_skipped (fun _ => none) example_first_zone_state [] (by decide) (by decide)
      (by decide)⟩

/-! ## The model that `read` returns -/

/-- The model returned by `TecplotFileLoader::read` holds a field list with one snapshot
per zone header of the input; the field list is never empty. -/
theorem read_field_list_size (lines : List Line) (m : Model) (hr : read lines = .ok m) :
    m.field_list.fields.length = (headers lines).length ∧ m.field_list.fields ≠ [] := by
  obtain ⟨t, V, E, rest, h1, _, _, _, _, hf, _⟩ := read_ok_tokens lines m hr
  refine ⟨hf, fun h0 => ?_⟩
  rw [h0, h1] at hf
  cases hf

/-- The size of the field list on the single-zone input. -/
theorem read_field_list_size_witness :
    read example_single_zone = .ok example_single_zone_model ∧
    example_single_zone_model.field_list.fields.length = (headers example_single_zone).length ∧
    example_single_zone_model.field_list.fields ≠ [] :=
  ⟨rfl, read_field_list_size example_single_zone example_single_zone_model rfl⟩

/-- C17 fails on the code: the comment of `TecplotFileLoader::read` states that the model
returned `will only contain Mesh information`, as the models of the other two loaders do,
and on the single-zone input `read` returns a model whose field list is not empty: it
holds one snapshot. -/
theorem read_field_list_not_empty :
    read example_single_zone = .ok example_single_zone_model ∧
    example_single_zone_model.field_list.fields.length = 1 ∧
    example_single_zone_model.field_list.fields ≠ [] :=
  ⟨rfl, rfl, by decide⟩

/-! ## The writers -/

theorem XDMFFileWriter.write_loop_length (hdf5_file_name : String) (model : Model) (k : Nat)
    (fs : List Field) : (XDMFFileWriter.write_loop hdf5_file_name model k fs).length = fs.length := by
  induction fs generalizing k with
  | nil => rfl
  | cons f fs ih => simp [XDMFFileWriter.write_loop, ih]

theorem XDMFFileWriter.write_loop_get (hdf5_file_name : String) (model : Model) (k : Nat)
    (fs : List Field) (i : Nat) (hi : i < fs.length) :
    (XDMFFileWriter.write_loop hdf5_file_name model k fs)[i]? =
      some (XDMFFileWriter.field_grid hdf5_file_name model (k + i)) := by
  induction fs generalizing k i with
  | nil => cases hi
  | cons f fs ih =>
    cases i with
    | zero => simp [XDMFFileWriter.write_loop]
    | succ i =>
      simp only [XDMFFileWriter.write_loop, List.getElem?_cons_succ]
      rw [ih (k + 1) i (by simpa using hi)]
      congr 2
      omega

theorem XDMFFileWriter.temporal_grids_write (hdf5_file_name : String) (model : Model) :
    XDMFFileWriter.temporal_grids (XDMFFileWriter.write hdf5_file_name model) =
      XDMFFileWriter.write_loop hdf5_file_name model 0 model.field_list.fields := by
  simp [XDMFFileWriter.temporal_grids, XDMFFileWriter.write, XmlNode.is_named,
    XmlNode.children_named, XmlNode.children]

theorem MicromagFileWriter.write_field_datasets (f : Field) (i : Nat) :
    created_datasets (MicromagFileWriter.write_field f i) =
      ["/fields/field" ++ to_string i ++ "/vectors"] := by
  unfold MicromagFileWriter.write_field created_datasets
  split_ifs <;> rfl

theorem created_datasets_append (a b : List H5Op) :
    created_datasets (a ++ b) = created_datasets a ++ created_datasets b := by
  simp [created_datasets]

theorem MicromagFileWriter.write_fields_loop_datasets (k : Nat) (fs : List Field) :
    (created_datasets (MicromagFileWriter.write_fields_loop k fs)).length = fs.length ∧
    ∀ i, i < fs.length →
      (created_datasets (MicromagFileWriter.write_fields_loop k fs))[i]? =
        some ("/fields/field" ++ to_string (k + i) ++ "/vectors") := by
  induction fs generalizing k with
  | nil => exact ⟨rfl, fun i hi => by cases hi⟩
  | cons f fs ih =>
    simp only [MicromagFileWriter.write_fields_loop, created_datasets_append,
      MicromagFileWriter.write_field_datasets, List.singleton_append, List.length_cons]
    refine ⟨by rw [(ih (k + 1)).1], fun i hi => ?_⟩
    cases i with
    | zero => simp
    | succ i =>
      rw [List.getElem?_cons_succ, (ih (k + 1)).2 i (by omega)]
      congr 4
      omega

theorem MicromagFileWriter.write_datasets (model : Model) :
    created_datasets (MicromagFileWriter.write model) =
      ["/mesh/vertices", "/mesh/elements", "/mesh/submesh"] ++
        created_datasets (MicromagFileWriter.write_fields_loop 0 model.field_list.fields) := by
  simp [MicromagFileWriter.write, MicromagFileWriter.write_mesh, created_datasets_append,
    MicromagFileWriter.write_vertices, MicromagFileWriter.write_elements,
    MicromagFileWriter.write_submesh_indices, MicromagFileWriter.write_fields]
  simp [created_datasets, H5Op.dataset_path]

/-- C15: for every model with `n` field snapshots, `XDMFFileWriter::write` emits exactly
`n` temporal grid entries; the entry `i` (counted from 0) has a `Time` element with `Value`
the decimal text of `i` and a vector `Attribute` whose `DataItem` has the value
`<hdf5_file_name>:/fields/field<i>/vectors`; and `/fields/field<i>/vectors` is the path of
the one dataset that `MicromagFileWriter` creates for field `i` of the same model, the
dataset number `3 + i` of the file after the three datasets of the mesh. -/
theorem xdmf_grids_match_fields (hdf5_file_name : String) (model : Model) :
    (XDMFFileWriter.temporal_grids (XDMFFileWriter.write hdf5_file_name model)).length =
      model.field_list.fields.length ∧
    (created_datasets (MicromagFileWriter.write model)).length =
      3 + model.field_list.fields.length ∧
    ∀ i, i < model.field_list.fields.length →
      ∃ topology geometry attribute_sid attrs f,
        (XDMFFileWriter.temporal_grids (XDMFFileWriter.write hdf5_file_name model))[i]? =
          some (XmlNode.element "Grid" "" [("Name", "m"), ("GridType", "Uniform")]
            [topology, geometry, attribute_sid,
              XmlNode.element "Time" "" [("Value", to_string i)] [],
              XmlNode.element "Attribute" ""
                [("Name", "m"), ("AttributeType", "Vector"), ("Center", "Node")]
                [XmlNode.element "DataItem"
                  (hdf5_file_name ++ ":/fields/field" ++ to_string i ++ "/vectors") attrs []]]) ∧
        model.field_list.fields[i]? = some f ∧
        created_datasets (MicromagFileWriter.write_field f i) =
          ["/fields/field" ++ to_string i ++ "/vectors"] ∧
        (created_datasets (MicromagFileWriter.write model))[3 + i]? =
          some ("/fields/field" ++ to_string i ++ "/vectors") := by
  rw [XDMFFileWriter.temporal_grids_write, MicromagFileWriter.write_datasets]
  have hd := MicromagFileWriter.write_fields_loop_datasets 0 model.field_list.fields
  refine ⟨XDMFFileWriter.write_loop_length _ _ _ _, ?_, fun i hi => ?_⟩
  · rw [List.length_append, hd.1]
    rfl
  · have hg := XDMFFileWriter.write_loop_get hdf5_file_name model 0 model.field_list.fields i hi
    rw [Nat.zero_add] at hg
    have hp := hd.2 i hi
    rw [Nat.zero_add] at hp
    refine ⟨_, _, _, _, model.field_list.fields[i], hg, (List.getElem?_eq_getElem hi), 
      MicromagFileWriter.write_field_datasets _ i, ?_⟩
    rw [List.getElem?_append_right (by simp), ← hp]
    congr 1
    simp

/-- Witness for C15: the second snapshot of the model of the two-zone input, with the
container `out.h5`. -/
theorem xdmf_grids_match_fields_witness :
    1 < example_two_zones_model.field_list.fields.length ∧
    ∃ topology geometry attribute_sid attrs f,
      (XDMFFileWriter.temporal_grids (XDMFFileWriter.write "out.h5" example_two_zones_model))[1]? =
        some (XmlNode.element "Grid" "" [("Name", "m"), ("GridType", "Uniform")]
          [topology, geometry, attribute_sid,
            XmlNode.element "Time" "" [("Value", to_string 1)] [],
            XmlNode.element "Attribute" ""
              [("Name", "m"), ("AttributeType", "Vector"), ("Center", "Node")]
              [XmlNode.element "DataItem"
                ("out.h5" ++ ":/fields/field" ++ to_string 1 ++ "/vectors") attrs []]]) ∧
      example_two_zones_model.field_list.fields[1]? = some f ∧
      created_datasets (MicromagFileWriter.write_field f 1) =
        ["/fields/field" ++ to_string 1 ++ "/vectors"] ∧
      (created_datasets (MicromagFileWriter.write example_two_zones_model))[3 + 1]? =
        some ("/fields/field" ++ to_string 1 ++ "/vectors") :=
  ⟨by decide, (xdmf_grids_match_fields "out.h5" example_two_zones_model).2.2 1 (by decide)⟩

/-- The texts of the witness for C15, evaluated. -/
theorem xdmf_witness_paths :
    "out.h5" ++ ":/fields/field" ++ to_string 1 ++ "/vectors" = "out.h5:/fields/field1/vectors" ∧
    created_datasets (MicromagFileWriter.write example_two_zones_model) =
      ["/mesh/vertices", "/mesh/elements", "/mesh/submesh", "/fields/field0/vectors",
        "/fields/field1/vectors"] := by
  decide

/-! ## The command-line program -/

set_option maxRecDepth 100000 in
/-- C16 fails on the code: with input and output paths supplied and an input file whose
only line is `1 2 3`, `TecplotFileLoader::read` raises an error, and `main` does not
return 1 after a diagnostic: the exception leaves `main` and the program is terminated.
A failing writer ends the run the same way.  The paths for argument failures do return 1
after writing to standard error, and a run without failure returns 0. -/
theorem main_read_failure_terminates :
    read_file (fun _ => none) example_input_int_row = .error Error.integers_outside_first_zone ∧
    main (fun _ => none) (.parsed (some "in.tec") (some "out.h5") none) example_input_int_row
      false false = { exit := .terminated, cerr := false } ∧
    main (fun _ => none) (.parsed (some "in.tec") (some "out.h5") (some "out.xdmf"))
      example_input_int_row false false = { exit := .terminated, cerr := false } ∧
    main (fun _ => none) .parse_error example_input_int_row false false =
      { exit := .returned 1, cerr := true } ∧
    main (fun _ => none) (.parsed (some "in.tec") none none) example_input_int_row false false =
      { exit := .returned 1, cerr := true } := by
  refine ⟨?_, ?_, ?_, rfl, rfl⟩
  · rfl
  · rfl
  · rfl

/-! ## Zone headers -/

/-- C21 (as amended): processing the first zone header (title `T`, `N=n`, `E=e`, both
counts within the range of an `int`) from the empty accumulator yields a state with
expected vertex count `n`, expected element count `e`, current snapshot index 0, exactly
one snapshot slot whose mx, my, mz arrays are empty, empty x, y, z, region-tag and
connectivity arrays, and zone titles `[T]`. -/
theorem first_zone_header (T : String) (n e : Nat) (hn : n < 2 ^ 31) (he : e < 2 ^ 31) :
    process_line ReaderState.initial (Line.zone T n e) =
      .ok { curves := first_zone_curves T n e, zone_counter := 1 } := by
  show process_zone ReaderState.initial T n e = _
  rw [process_zone_initial, if_pos hn, if_pos he]
  simp [History.start, History.state, History.curves, History.comp, History.firstZone,
    History.offset, slice, first_zone_curves]

/-- Witness for C21 (as amended): the header `ZONE T="f1", N=4, E=1`. -/
theorem first_zone_header_witness :
    4 < 2 ^ 31 ∧ 1 < 2 ^ 31 ∧
    process_line ReaderState.initial (Line.zone "f1" 4 1) =
      .ok { curves := first_zone_curves "f1" 4 1, zone_counter := 1 } :=
  ⟨by decide, by decide, first_zone_header "f1" 4 1 (by decide) (by decide)⟩

/-- C21 as stated fails: the first zone header with `N=2147483648` yields no state:
`std::stoi` raises `std::out_of_range`. -/
theorem first_zone_header_wide :
    process_line ReaderState.initial (Line.zone "f1" (2 ^ 31) 1) = .error Error.out_of_range :=
  rfl

theorem History.next_zone_state (h : History) (t : String) :
    { h with titles := h.titles ++ [t], done := h.done ++ [h.cur], cur := [] }.state =
      { curves := next_zone_curves h.state.curves (h.done.length + 1) t,
        zone_counter := h.state.zone_counter + 1 } := by
  simp [History.state, History.curves, History.comp_snoc, History.firstZone, History.offset,
    next_zone_curves, slice_nil, headD_snoc_snoc]

/-- C22: in a state reached by processing lines without error in which a zone is
current, processing a zone header whose `N` and `E` equal the fixed expected counts
increments the current snapshot index by exactly one, appends exactly one empty array to
each of mx, my, mz, appends the title of the header to the end of the zone-title list,
and leaves the expected counts, x, y, z, the region-tag and connectivity arrays and the
existing snapshot arrays unchanged. -/
theorem later_zone_header (pre : List Line) (s : ReaderState) (T : String) (n e : Nat)
    (hp : process_lines ReaderState.initial pre = .ok s) (hz : 1 ≤ s.zone_counter)
    (hn : s.curves.n_verts = some n) (he : s.curves.n_elems = some e) :
    ∃ k, s.curves.current_field_idx = some k ∧
      process_line s (Line.zone T n e) =
        .ok { curves := next_zone_curves s.curves (k + 1) T,
              zone_counter := s.zone_counter + 1 } := by
  obtain ⟨h, hw, rfl⟩ := reachable_history pre s hp (by omega)
  have hV : h.V = n := by simpa [History.state, History.curves] using hn
  have hE : h.E = e := by simpa [History.state, History.curves] using he
  refine ⟨h.done.length, rfl, ?_⟩
  show process_zone h.state T n e = _
  rw [process_zone_history, if_pos (by rw [← hV]; exact hw.1), if_pos hV.symm,
    if_pos (by rw [← hE]; exact hw.2.1), if_pos hE.symm, History.next_zone_state]

/-- Witness for C22: a third header after `example_second_zone`. -/
theorem later_zone_header_witness :
    process_lines ReaderState.initial example_second_zone = .ok example_second_zone_state ∧
    1 ≤ example_second_zone_state.zone_counter ∧
    example_second_zone_state.curves.n_verts = some 1 ∧
    example_second_zone_state.curves.n_elems = some 0 ∧
    (∃ k, example_second_zone_state.curves.current_field_idx = some k ∧
      process_line example_second_zone_state (Line.zone "c" 1 0) =
        .ok { curves := next_zone_curves example_second_zone_state.curves (k + 1) "c",
              zone_counter := example_second_zone_state.zone_counter + 1 }) ∧
    process_line example_second_zone_state (Line.zone "c" 1 0) = .ok example_third_zone_state :=
  ⟨rfl, by decide, rfl, rfl,
    later_zone_header example_second_zone example_second_zone_state "c" 1 0 rfl (by decide)
      rfl rfl, rfl⟩

/-! ## Invariants of the reachable states -/

theorem headers_map_length (titles : List String) (V E : Nat) (hs : List (String × Nat × Nat))
    (h : hs = titles.map (fun t => (t, V, E))) : hs.length = titles.length := by
  rw [h, List.length_map]

/-- C30: in every state reached by processing lines without error, the zone counter, the
zone-title list, mx, my and mz all have length equal to the number of zone headers
processed, and when that number is at least 1 the current snapshot index equals that
number minus 1 and the expected vertex and element counts are set. -/
theorem zone_count_invariant (pre : List Line) (s : ReaderState)
    (hp : process_lines ReaderState.initial pre = .ok s) :
    s.zone_counter = (headers pre).length ∧
    s.curves.zone_titles.length = (headers pre).length ∧
    s.curves.mx.length = (headers pre).length ∧ s.curves.my.length = (headers pre).length ∧
    s.curves.mz.length = (headers pre).length ∧
    (1 ≤ (headers pre).length →
      s.curves.current_field_idx = some ((headers pre).length - 1) ∧
      ∃ V E, s.curves.n_verts = some V ∧ s.curves.n_elems = some E) := by
  by_cases hh : headers pre = []
  · rcases (process_lines_initial pre s).1 hp with ⟨_, rfl⟩ | ⟨p, t, n, e, rest, h', rfl, _⟩
    · rw [hh]
      exact ⟨rfl, rfl, rfl, rfl, rfl, fun h => absurd h (by decide)⟩
    · rw [headers_append, headers_cons_zone] at hh
      simp at hh
  · obtain ⟨h, hw, rfl, hhd, _⟩ := process_lines_ok_history pre s hp hh
    have hl := headers_map_length _ _ _ _ hhd
    have ht : h.titles.length = h.done.length + 1 := hw.2.2.1
    rw [hl, ht]
    refine ⟨rfl, ht, ?_, ?_, ?_, fun _ => ⟨rfl, h.V, h.E, rfl, rfl⟩⟩
    · simp [History.state, History.curves, History.comp_length]
    · simp [History.state, History.curves, History.comp_length]
    · simp [History.state, History.curves, History.comp_length]

/-- Witness for C30: the state after `example_second_zone`, which holds two headers. -/
theorem zone_count_invariant_witness :
    process_lines ReaderState.initial example_second_zone = .ok example_second_zone_state ∧
    (headers example_second_zone).length = 2 ∧
    example_second_zone_state.zone_counter = (headers example_second_zone).length ∧
    example_second_zone_state.curves.zone_titles.length = (headers example_second_zone).length ∧
    example_second_zone_state.curves.mx.length = (headers example_second_zone).length ∧
    example_second_zone_state.curves.my.length = (headers example_second_zone).length ∧
    example_second_zone_state.curves.mz.length = (headers example_second_zone).length ∧
    (1 ≤ (headers example_second_zone).length →
      example_second_zone_state.curves.current_field_idx =
        some ((headers example_second_zone).length - 1) ∧
      ∃ V E, example_second_zone_state.curves.n_verts = some V ∧
        example_second_zone_state.curves.n_elems = some E) :=
  ⟨rfl, rfl, zone_count_invariant example_second_zone example_second_zone_state rfl⟩

theorem slice_succ_ne_nil {α : Type} (j V : Nat) (f : List α) (h : slice (j + 1) V f ≠ []) :
    (slice j V f).length = V := by
  have h1 : 0 < (slice (j + 1) V f).length := List.length_pos.2 h
  rw [slice_length, Nat.succ_mul] at h1
  rw [slice_length]
  omega

theorem History.zones_eq_cons (h : History) : ∃ later, h.zones = h.firstZone :: later := by
  unfold History.zones History.firstZone
  cases h.done with
  | nil => exact ⟨[], rfl⟩
  | cons a as => exact ⟨as ++ [h.cur], rfl⟩

theorem History.comp_succ_ne_nil (j V : Nat) (zs : List (List Dbl)) (k : Nat)
    (a b : List Dbl) (ha : (History.comp j V zs)[k]? = some a)
    (hb : (History.comp (j + 1) V zs)[k]? = some b) (hn : b ≠ []) : a.length = V := by
  cases zs with
  | nil => simp [History.comp] at ha
  | cons f later =>
    cases k with
    | zero =>
      simp only [History.comp, List.getElem?_cons_zero, Option.some.injEq] at ha hb
      subst ha hb
      exact slice_succ_ne_nil (j + 3) V f (by rw [Nat.add_right_comm]; exact hn)
    | succ k =>
      simp only [History.comp, List.getElem?_cons_succ, List.getElem?_map] at ha hb
      cases hg : later[k]? with
      | none => simp [hg] at ha
      | some g =>
        simp only [hg, Option.map_some', Option.some.injEq] at ha hb
        subst ha hb
        exact slice_succ_ne_nil j V g hn

/-- C25: in every state reached by processing lines without error, the arrays are filled
strictly in sequence: y is non-empty only if x holds `V` entries, z only if y holds `V`,
mx of snapshot 0 only if z holds `V`, for every snapshot `k` my of `k` is non-empty only
if mx of `k` holds `V` and mz of `k` only if my of `k` holds `V`, and the connectivity
array is non-empty only if the region-tag array holds `E` entries. -/
theorem arrays_fill_in_sequence (pre : List Line) (s : ReaderState)
    (hp : process_lines ReaderState.initial pre = .ok s) :
    (s.curves.y ≠ [] → s.curves.n_verts = some s.curves.x.length) ∧
    (s.curves.z ≠ [] → s.curves.n_verts = some s.curves.y.length) ∧
    (∀ a, s.curves.mx[0]? = some a → a ≠ [] → s.curves.n_verts = some s.curves.z.length) ∧
    (∀ (k : Nat) (a b : List Dbl), s.curves.mx[k]? = some a → s.curves.my[k]? = some b → b ≠ [] →
      s.curves.n_verts = some a.length) ∧
    (∀ (k : Nat) (b d : List Dbl), s.curves.my[k]? = some b → s.curves.mz[k]? = some d → d ≠ [] →
      s.curves.n_verts = some b.length) ∧
    (s.curves.tetra_idxs ≠ [] →
      s.curves.n_elems = some s.curves.tetra_submesh_idxs.length) := by
  rcases (process_lines_initial pre s).1 hp with ⟨_, rfl⟩ | ⟨p, t, n, e, rest, h, rfl, _, hn, he,
    hr, rfl⟩
  · refine ⟨fun h => absurd rfl h, fun h => absurd rfl h, fun a ha => ?_, fun k a b ha => ?_,
      fun k b d hb => ?_, fun h => absurd rfl h⟩
    · simp [ReaderState.initial, TecplotData.empty] at ha
    · simp [ReaderState.initial, TecplotData.empty] at ha
    · simp [ReaderState.initial, TecplotData.empty] at hb
  · obtain ⟨later, hz⟩ := History.zones_eq_cons h
    have hmx : h.state.curves.mx = History.comp 0 h.V h.zones := History.curves_mx h
    have hmy : h.state.curves.my = History.comp 1 h.V h.zones := History.curves_my h
    have hmz : h.state.curves.mz = History.comp 2 h.V h.zones := History.curves_mz h
    refine ⟨fun hy => ?_, fun hy => ?_, fun a ha hne => ?_, fun k a b ha hb hne => ?_,
      fun k b d hb hd hne => ?_, fun ht => ?_⟩
    · exact congrArg some (slice_succ_ne_nil 0 h.V h.firstZone hy).symm
    · exact congrArg some (slice_succ_ne_nil 1 h.V h.firstZone hy).symm
    · rw [hmx, hz] at ha
      simp only [History.comp, List.getElem?_cons_zero, Option.some.injEq] at ha
      subst ha
      exact congrArg some (slice_succ_ne_nil 2 h.V h.firstZone hne).symm
    · rw [hmx] at ha
      rw [hmy] at hb
      exact congrArg some (History.comp_succ_ne_nil 0 h.V h.zones k a b ha hb hne).symm
    · rw [hmy] at hb
      rw [hmz] at hd
      exact congrArg some (History.comp_succ_ne_nil 1 h.V h.zones k b d hb hd hne).symm
    · have hw := (History.run_wf rest _ h (History.start_wf t n e hn he) hr).1
      have h1 : (h.ints.drop h.E).map sub_one_u64 ≠ [] := ht
      have h2 : 0 < ((h.ints.drop h.E).map sub_one_u64).length := List.length_pos.2 h1
      rw [List.length_map, List.length_drop] at h2
      show some h.E = some (h.ints.take h.E).length
      rw [List.length_take]
      congr 1
      omega

/-- Witness for C25: after three float tokens of a first zone of two vertices, y is not
empty and x holds the two entries expected. -/
theorem arrays_fill_in_sequence_witness :
    process_lines ReaderState.initial example_partial_zone = .ok example_partial_zone_state ∧
    example_partial_zone_state.curves.y ≠ [] ∧
    example_partial_zone_state.curves.n_verts =
      some example_partial_zone_state.curves.x.length :=
  ⟨rfl, by decide,
    (arrays_fill_in_sequence example_partial_zone example_partial_zone_state rfl).1
      (by decide)⟩

/-! ## Token counts of an input that is read -/

theorem History.zone_bound (h : History) (hw : h.wf) (k : Nat) (g : List Dbl)
    (hg : h.zones[k]? = some g) : g.length ≤ (if k = 0 then 6 else 3) * h.V := by
  unfold History.zones at hg
  by_cases hk : k < h.done.length
  · rw [List.getElem?_append_left hk] at hg
    exact hw.2.2.2.2.2.1 k g hg
  · have hk2 : k = h.done.length := by
      by_contra hne
      rw [List.getElem?_eq_none (by simp; omega)] at hg
      cases hg
    subst hk2
    rw [getElem?_snoc_at _ _ _ rfl] at hg
    cases hg
    have hc := hw.2.2.2.2.1
    unfold History.capacity History.offset at hc
    by_cases hd : h.done = []
    · simp only [hd, List.length_nil, if_true] at hc ⊢
      exact hc
    · have : h.done.length ≠ 0 := fun h0 => hd (List.length_eq_zero.1 h0)
      simp only [hd, this, if_false, Nat.zero_add] at hc ⊢
      exact hc

theorem History.full_of_checks (h : History) (hw : h.wf)
    (hc : ∀ p ∈ final_checks h.curves h.V h.E, p.1 = true) :
    h.ints.length = 5 * h.E ∧
    ∀ k g, h.zones[k]? = some g → g.length = (if k = 0 then 6 else 3) * h.V := by
  rw [final_checks_all_iff] at hc
  obtain ⟨_, _, _, h4, h5, _, _, _, hz⟩ := hc
  constructor
  · simp only [History.curves, List.length_map, List.length_drop] at h4
    simp only [History.curves, List.length_take] at h5
    omega
  · intro k g hg
    have hb := History.zone_bound h hw k g hg
    have hk : k < h.curves.zone_titles.length := by
      have h1 : k < h.zones.length := by
        by_contra hne
        rw [List.getElem?_eq_none (by omega)] at hg
        cases hg
      rw [History.zones_length] at h1
      rw [show h.curves.zone_titles = h.titles from rfl, hw.2.2.1]
      exact h1
    have h3 := (hz k hk).2.2
    rw [History.curves_mz, List.getD_eq_getElem?_getD, History.comp_getElem?, hg] at h3
    simp only [Option.map_some', Option.getD_some] at h3
    have h6 := (slice_full_iff _ h.V g).1 (le_of_eq h3.symm)
    by_cases h0 : k = 0
    · simp only [h0, if_true] at h6 hb ⊢
      omega
    · simp only [h0, if_false, Nat.zero_add] at h6 hb ⊢
      omega

theorem finish_checks (c : TecplotData) (V E : Nat) (m : Model) (hV : c.n_verts = some V)
    (hE : c.n_elems = some E) (hw : 4 * E < 2 ^ 64) (hf : finish c = .ok m) :
    ∀ p ∈ final_checks c V E, p.1 = true := by
  obtain ⟨c', h1, _⟩ := (finish_eq_ok c m).1 hf
  rw [finish_object_eq c V E hV hE hw] at h1
  rw [← first_violated_eq_none]
  cases hv : first_violated (final_checks c V E) with
  | none => rfl
  | some e => rw [hv] at h1; cases h1

/-- C29: if `TecplotFileLoader::read` returns a model, then the input carried exact token
counts for the counts `V` and `E` of its first header: the integer rows of the first zone
held exactly `5E` integer tokens in total, no later zone held an integer row, the float
rows of the first zone held exactly `6V` float tokens, and the float rows of every later
zone held exactly `3V` float tokens. -/
theorem read_exact_token_counts (lines : List Line) (m : Model) (hr : read lines = .ok m) :
    ∃ t V E rest, headers lines = (t, V, E) :: rest ∧
      (firstZoneInts lines).length = 5 * E ∧
      (∀ b ∈ (zoneBodies lines).tail, intTokensOf b = []) ∧
      (zoneFloats lines 0).length = 6 * V ∧
      ∀ k, 1 ≤ k → k < (headers lines).length → (zoneFloats lines k).length = 3 * V := by
  obtain ⟨h, hw, hf, hh, hz, hi, hb, _⟩ := read_ok_history lines m hr
  have hc := finish_checks h.curves h.V h.E m rfl rfl (by have := hw.2.1; omega) hf
  obtain ⟨f1, f2⟩ := History.full_of_checks h hw hc
  have hlen : (headers lines).length = h.zones.length := by
    rw [headers_map_length _ _ _ _ hh, History.zones_length, hw.2.2.1]
  have ht : h.titles ≠ [] := by
    intro h0
    have := hw.2.2.1
    rw [h0] at this
    simp at this
  obtain ⟨t, ts, hts⟩ := List.exists_cons_of_ne_nil ht
  refine ⟨t, h.V, h.E, ts.map (fun t => (t, h.V, h.E)), by rw [hh, hts]; rfl, by rw [← hi, f1],
    hb, ?_, fun k hk1 hk => ?_⟩
  · rw [zoneFloats_of_history lines h hz 0 _ (History.firstZone_eq h), List.length_map]
    simpa using f2 0 _ (History.firstZone_eq h)
  · rw [hlen] at hk
    rw [zoneFloats_of_history lines h hz k _ (List.getElem?_eq_getElem hk), List.length_map,
      f2 k _ (List.getElem?_eq_getElem hk), if_neg (by omega)]

/-- Witness for C29 on the two-zone input: no integer token, twelve float tokens in the
first zone and six in the second. -/
theorem read_exact_token_counts_witness :
    read example_two_zones = .ok example_two_zones_model ∧
    ∃ t V E rest, headers example_two_zones = (t, V, E) :: rest ∧
      (firstZoneInts example_two_zones).length = 5 * E ∧
      (∀ b ∈ (zoneBodies example_two_zones).tail, intTokensOf b = []) ∧
      (zoneFloats example_two_zones 0).length = 6 * V ∧
      ∀ k, 1 ≤ k → k < (headers example_two_zones).length →
        (zoneFloats example_two_zones k).length = 3 * V :=
  ⟨rfl, read_exact_token_counts example_two_zones example_two_zones_model rfl⟩

/-! ## The projections -/

theorem flatMap_indices (ts : List Tet) (idx : List Nat) (hl : idx.length = 4 * ts.length)
    (h : ∀ i, i < ts.length → ∃ a b d e, idx[4 * i]? = some a ∧ idx[4 * i + 1]? = some b ∧
      idx[4 * i + 2]? = some d ∧ idx[4 * i + 3]? = some e ∧ ts[i]? = some (a, b, d, e)) :
    ts.flatMap Tet.indices = idx := by
  induction ts generalizing idx with
  | nil =>
    simp only [List.length_nil, Nat.mul_zero] at hl
    rw [List.length_eq_zero.1 hl]
    rfl
  | cons t ts ih =>
    obtain ⟨a, b, d, e, h0, h1, h2, h3, h4⟩ := h 0 (by simp)
    match idx, hl, h, h0, h1, h2, h3 with
    | x0 :: x1 :: x2 :: x3 :: rest, hl, h, h0, h1, h2, h3 =>
      simp only [Nat.mul_zero, List.getElem?_cons_zero, Option.some.injEq, Nat.zero_add,
        List.getElem?_cons_succ] at h0 h1 h2 h3 h4
      subst h0 h1 h2 h3 h4
      have hr : rest.length = 4 * ts.length := by
        simp only [List.length_cons] at hl
        omega
      have := ih rest hr (fun i hi => by
        obtain ⟨a, b, d, e, g0, g1, g2, g3, g4⟩ := h (i + 1) (by simpa using hi)
        refine ⟨a, b, d, e, ?_, ?_, ?_, ?_, by simpa using g4⟩
        · rw [show 4 * (i + 1) = 4 * i + 1 + 1 + 1 + 1 by ring] at g0
          simpa using g0
        · rw [show 4 * (i + 1) + 1 = 4 * i + 1 + 1 + 1 + 1 + 1 by ring] at g1
          simpa using g1
        · rw [show 4 * (i + 1) + 2 = 4 * i + 2 + 1 + 1 + 1 + 1 by ring] at g2
          simpa using g2
        · rw [show 4 * (i + 1) + 3 = 4 * i + 3 + 1 + 1 + 1 + 1 by ring] at g3
          simpa using g3)
      rw [List.flatMap_cons, this]
      rfl
    | [], hl, _, _, _, _, _ => simp only [List.length_cons, List.length_nil] at hl; omega
    | [_], hl, _, _, _, _, _ => simp only [List.length_cons, List.length_nil] at hl; omega
    | [_, _], hl, _, _, _, _, _ => simp only [List.length_cons, List.length_nil] at hl; omega
    | [_, _, _], hl, _, _, _, _, _ => simp only [List.length_cons, List.length_nil] at hl; omega

/-- C27: for every accumulator with expected element count `E` whose connectivity array
has exactly `4E` entries, `get_elements` returns exactly `E` tetrahedra, tetrahedron `i`
being entries `4i`, `4i+1`, `4i+2`, `4i+3` of the connectivity array in that order, so
concatenating the returned tetrahedra in order gives back the connectivity array. -/
theorem get_elements_groups (c : TecplotData) (E : Nat) (hE : c.n_elems = some E)
    (hl : c.tetra_idxs.length = 4 * E) :
    ∃ ts, c.get_elements = .ok ts ∧ ts.length = E ∧
      (∀ i, i < E → ∃ a b d e, c.tetra_idxs[4 * i]? = some a ∧
        c.tetra_idxs[4 * i + 1]? = some b ∧ c.tetra_idxs[4 * i + 2]? = some d ∧
        c.tetra_idxs[4 * i + 3]? = some e ∧ ts[i]? = some (a, b, d, e)) ∧
      ts.flatMap Tet.indices = c.tetra_idxs := by
  obtain ⟨ts, hts⟩ := get_elements_exists c E hE hl
  obtain ⟨E', hE', hlen, hi⟩ := (get_elements_eq_ok c ts).1 hts
  rw [hE] at hE'
  cases hE'
  exact ⟨ts, hts, hlen, hi, flatMap_indices ts c.tetra_idxs (by rw [hl, hlen])
    (fun i h => hi i (by rw [← hlen]; exact h))⟩

/-- Witness for C27: two tetrahedra from eight connectivity entries. -/
theorem get_elements_groups_witness :
    example_connectivity.n_elems = some 2 ∧ example_connectivity.tetra_idxs.length = 4 * 2 ∧
    example_connectivity.get_elements = .ok [(0, 1, 2, 3), (1, 2, 3, 4)] ∧
    ∃ ts, example_connectivity.get_elements = .ok ts ∧ ts.length = 2 ∧
      (∀ i, i < 2 → ∃ a b d e, example_connectivity.tetra_idxs[4 * i]? = some a ∧
        example_connectivity.tetra_idxs[4 * i + 1]? = some b ∧
        example_connectivity.tetra_idxs[4 * i + 2]? = some d ∧
        example_connectivity.tetra_idxs[4 * i + 3]? = some e ∧ ts[i]? = some (a, b, d, e)) ∧
      ts.flatMap Tet.indices = example_connectivity.tetra_idxs :=
  ⟨rfl, rfl, rfl, get_elements_groups example_connectivity 2 rfl rfl⟩

theorem forM_eq_ok {α : Type} (f : α → Except Error Unit) (xs : List α) :
    xs.forM f = .ok () ↔ ∀ x ∈ xs, f x = .ok () := by
  induction xs with
  | nil => simp [pure, Except.pure]
  | cons x xs ih =>
    rw [List.forM_cons']
    constructor
    · intro h
      cases hx : f x with
      | error e => rw [hx] at h; cases h
      | ok u =>
        rw [hx] at h
        intro y hy
        rcases List.mem_cons.1 hy with rfl | hy
        · exact hx
        · exact ih.1 h y hy
    · intro h
      rw [h x (List.mem_cons_self _ _)]
      exact ih.2 (fun y hy => h y (List.mem_cons_of_mem _ hy))

theorem validate_object_ok (c : TecplotData) (V Z : Nat) (hV : c.n_verts = some V)
    (hZ : c.n_zones = some Z) (h : c.validate_object = .ok ()) :
    c.mx.length = Z ∧ c.my.length = Z ∧ c.mz.length = Z ∧
    ∀ i, i < Z → c.validate_zone i = .ok () := by
  cases hE : c.n_elems with
  | none =>
    simp only [TecplotData.validate_object, hV, hE, hZ, value, bind, Except.bind,
      bne_iff_ne, ne_eq, ite_not, pure, Except.pure, throw, throwThe,
      MonadExceptOf.throw] at h
    split_ifs at h
  | some E =>
    simp only [TecplotData.validate_object, hV, hE, hZ, value, bind, Except.bind,
      bne_iff_ne, ne_eq, ite_not, pure, Except.pure, throw, throwThe,
      MonadExceptOf.throw] at h
    split_ifs at h with h1 h2 h3 h4 h5 h6 h7 h8
    exact ⟨h6.symm, h7.symm, h8.symm, fun i hi =>
      (forM_eq_ok _ _).1 h i (List.mem_range.2 hi)⟩

theorem validate_object_ok_lengths (c : TecplotData) (V Z : Nat) (hV : c.n_verts = some V)
    (hZ : c.n_zones = some Z) (h : c.validate_object = .ok ()) :
    c.mx.length = Z ∧ c.my.length = Z ∧ c.mz.length = Z ∧
    ∀ i, i < Z → (c.mx.getD i []).length = V ∧ (c.my.getD i []).length = V ∧
      (c.mz.getD i []).length = V := by
  obtain ⟨hx, hy, hz, hv⟩ := validate_object_ok c V Z hV hZ h
  refine ⟨hx, hy, hz, fun i hi => ?_⟩
  have h1 := hv i hi
  rw [validate_zone_eq c V i hV (by omega) (by omega) (by omega)] at h1
  rw [← zone_checks_all_iff, ← first_violated_eq_none]
  cases hf : first_violated (zone_checks c V i) with
  | none => rfl
  | some e => rw [hf] at h1; cases h1

/-- C28: for every validated accumulator with `Z` zones and `V` vertices, `get_fields`
returns exactly `Z` fields in zone index order, and field `k` is the field with empty
annotation whose vector `i` is (mx of `k` at `i`, my of `k` at `i`, mz of `k` at `i`) for
every `i < V`; the zone titles are not read: the result is the same whatever they are. -/
theorem get_fields_zones (c : TecplotData) (V Z : Nat) (hV : c.n_verts = some V)
    (hZ : c.n_zones = some Z) (hv : c.validate_object = .ok ()) :
    ∃ fl, c.get_fields = .ok fl ∧ fl.fields.length = Z ∧
      (∀ k, k < Z → ∃ f ax ay az, fl.fields[k]? = some f ∧ Field.annotation f = "" ∧
        c.mx[k]? = some ax ∧ c.my[k]? = some ay ∧ c.mz[k]? = some az ∧
        f.vectors.length = V ∧
        ∀ i, i < V → ∃ a b d, ax[i]? = some a ∧ ay[i]? = some b ∧ az[i]? = some d ∧
          f.vectors[i]? = some (a, b, d)) ∧
      ∀ titles, TecplotData.get_fields { c with zone_titles := titles } = .ok fl := by
  obtain ⟨hx, hy, hz, hl⟩ := validate_object_ok_lengths c V Z hV hZ hv
  obtain ⟨fl, hfl⟩ := get_fields_exists c V Z hV hZ hx hy hz hl
  obtain ⟨Z', hZ', hlen, hk⟩ := (get_fields_eq_ok c fl).1 hfl
  rw [hZ] at hZ'
  cases hZ'
  refine ⟨fl, hfl, hlen, fun k hkZ => ?_, fun titles => hfl⟩
  obtain ⟨f, hf1, hf2⟩ := hk k hkZ
  obtain ⟨V', hV', ha, hvl, hvi⟩ := (get_field_eq_ok c k f).1 hf2
  rw [hV] at hV'
  cases hV'
  have kx : k < c.mx.length := by omega
  have ky : k < c.my.length := by omega
  have kz : k < c.mz.length := by omega
  refine ⟨f, c.mx[k], c.my[k], c.mz[k], hf1, ha, List.getElem?_eq_getElem kx,
    List.getElem?_eq_getElem ky, List.getElem?_eq_getElem kz, hvl, fun i hi => ?_⟩
  obtain ⟨ax, ay, az, a, b, d, e1, e2, e3, e4, e5, e6, e7⟩ := hvi i hi
  rw [List.getElem?_eq_getElem kx] at e1
  rw [List.getElem?_eq_getElem ky] at e3
  rw [List.getElem?_eq_getElem kz] at e5
  cases e1
  cases e3
  cases e5
  exact ⟨a, b, d, e2, e4, e6, e7⟩

/-- Witness for C28: a validated accumulator with one vertex and two zones. -/
theorem get_fields_zones_witness :
    example_validated.n_verts = some 1 ∧ example_validated.n_zones = some 2 ∧
    example_validated.validate_object = .ok () ∧
    example_validated.get_fields =
      .ok { fields := [ { annotation := "", vectors := [(⟨4⟩, ⟨5⟩, ⟨6⟩)] },
                        { annotation := "", vectors := [(⟨7⟩, ⟨8⟩, ⟨9⟩)] } ] } ∧
    ∃ fl, example_validated.get_fields = .ok fl ∧ fl.fields.length = 2 ∧
      (∀ k, k < 2 → ∃ f ax ay az, fl.fields[k]? = some f ∧ Field.annotation f = "" ∧
        example_validated.mx[k]? = some ax ∧ example_validated.my[k]? = some ay ∧
        example_validated.mz[k]? = some az ∧ f.vectors.length = 1 ∧
        ∀ i, i < 1 → ∃ a b d, ax[i]? = some a ∧ ay[i]? = some b ∧ az[i]? = some d ∧
          f.vectors[i]? = some (a, b, d)) ∧
      ∀ titles, TecplotData.get_fields { example_validated with zone_titles := titles } =
        .ok fl :=
  ⟨rfl, rfl, rfl, rfl, get_fields_zones example_validated 1 2 rfl rfl rfl⟩

/-! ## The tokens of a row -/

theorem regex_split_loop_run (t cur s : List Char) (ht : ∀ c ∈ t, c ∉ space_chars) :
    regex_split_loop cur false (t ++ s) = regex_split_loop (t.reverse ++ cur) false s := by
  induction t generalizing cur with
  | nil => rfl
  | cons c cs ih =>
    have hc : c ∉ space_chars := ht c (List.mem_cons_self _ _)
    rw [List.cons_append, regex_split_loop, if_neg hc,
      ih (c :: cur) (fun x hx => ht x (List.mem_cons_of_mem _ hx))]
    simp

theorem filter_split_after_sep (s : List Char) :
    (regex_split_loop [] true s).filter (fun t => !t.isEmpty) =
      (regex_split_loop [] false s).filter (fun t => !t.isEmpty) := by
  cases s with
  | nil => rfl
  | cons c cs =>
    by_cases hc : c ∈ space_chars
    · simp [regex_split_loop, hc]
    · simp [regex_split_loop, hc]

theorem row_tokens_nil : row_tokens [] = [] := rfl

theorem row_tokens_space (c : Char) (s : List Char) (hc : c ∈ space_chars) :
    row_tokens (c :: s) = row_tokens s := by
  unfold row_tokens regex_split
  rw [regex_split_loop, if_pos hc, ← filter_split_after_sep]
  rfl

theorem row_tokens_spaces (ws s : List Char) (hw : ∀ c ∈ ws, c ∈ space_chars) :
    row_tokens (ws ++ s) = row_tokens s := by
  induction ws with
  | nil => rfl
  | cons c cs ih =>
    rw [List.cons_append, row_tokens_space c _ (hw c (List.mem_cons_self _ _)),
      ih (fun x hx => hw x (List.mem_cons_of_mem _ hx))]

theorem row_tokens_single (t : List Char) (h0 : t ≠ []) (ht : ∀ c ∈ t, c ∉ space_chars) :
    row_tokens t = [t] := by
  unfold row_tokens regex_split
  have := regex_split_loop_run t [] [] ht
  rw [List.append_nil] at this
  rw [this]
  cases t with
  | nil => exact absurd rfl h0
  | cons x xs => simp [regex_split_loop]

theorem row_tokens_token (t : List Char) (c : Char) (s : List Char) (h0 : t ≠ [])
    (ht : ∀ x ∈ t, x ∉ space_chars) (hc : c ∈ space_chars) :
    row_tokens (t ++ c :: s) = t :: row_tokens s := by
  unfold row_tokens regex_split
  rw [regex_split_loop_run t [] (c :: s) ht, regex_split_loop, if_pos hc,
    ← filter_split_after_sep]
  cases t with
  | nil => exact absurd rfl h0
  | cons x xs => simp

theorem regex_split_loop_tokens (cur : List Char) (in_sep : Bool) (s : List Char)
    (hcur : ∀ c ∈ cur, c ∉ space_chars) :
    ∀ t ∈ regex_split_loop cur in_sep s, ∀ c ∈ t, c ∉ space_chars := by
  induction s generalizing cur in_sep with
  | nil =>
    intro t ht
    cases in_sep
    · simp only [regex_split_loop, Bool.false_eq_true, if_false, List.mem_singleton] at ht
      subst ht
      intro c hc
      exact hcur c (List.mem_reverse.1 hc)
    · simp [regex_split_loop] at ht
  | cons x xs ih =>
    intro t ht
    by_cases hx : x ∈ space_chars
    · cases in_sep
      · simp only [regex_split_loop, hx, if_true, Bool.false_eq_true, if_false,
          List.mem_cons] at ht
        rcases ht with rfl | ht
        · intro c hc
          exact hcur c (List.mem_reverse.1 hc)
        · exact ih [] true (fun c hc => by cases hc) t ht
      · simp only [regex_split_loop, hx, if_true] at ht
        exact ih [] true (fun c hc => by cases hc) t ht
    · simp only [regex_split_loop, hx, if_false] at ht
      refine ih (x :: cur) false (fun c hc => ?_) t ht
      rcases List.mem_cons.1 hc with rfl | hc
      · exact hx
      · exact hcur c hc

theorem flatten_filter_nonempty (l : List (List Char)) :
    (l.filter (fun t => !t.isEmpty)).flatten = l.flatten := by
  induction l with
  | nil => rfl
  | cons t ts ih =>
    cases t with
    | nil => simpa using ih
    | cons x xs => simp [List.filter_cons, ih]

theorem regex_split_loop_flatten (cur : List Char) (in_sep : Bool) (s : List Char)
    (h : in_sep = true → cur = []) :
    (regex_split_loop cur in_sep s).flatten =
      cur.reverse ++ s.filter (fun c => decide (c ∉ space_chars)) := by
  induction s generalizing cur in_sep with
  | nil =>
    cases in_sep
    · simp [regex_split_loop]
    · simp [regex_split_loop, h rfl]
  | cons x xs ih =>
    by_cases hx : x ∈ space_chars
    · cases in_sep
      · simp [regex_split_loop, hx, ih [] true (fun _ => rfl)]
      · simp [regex_split_loop, hx, ih [] true (fun _ => rfl), h rfl]
    · simp [regex_split_loop, hx, ih (x :: cur) false (fun h0 => by cases h0)]

theorem classify_int_row (stod_text : List Char → FloatTok) (line : List Char) (a : Nat)
    (as : List Nat) (h : classify stod_text line = Line.intRow a as) :
    regex_match line new_regex_int_line = true ∧
      (row_tokens line).map digits_value = a :: as := by
  unfold classify at h
  split_ifs at h with h1 h2 h3
  · cases hr : row_tokens line with
    | nil => rw [hr] at h; cases h
    | cons b bs =>
      rw [hr] at h
      simp only [Line.intRow.injEq] at h
      exact ⟨h2, by rw [List.map_cons, h.1, h.2]⟩
  · cases hr : row_tokens line with
    | nil => rw [hr] at h; cases h
    | cons b bs => rw [hr] at h; cases h

theorem classify_float_row (stod_text : List Char → FloatTok) (line : List Char)
    (a : FloatTok) (as : List FloatTok) (h : classify stod_text line = Line.floatRow a as) :
    regex_match line new_regex_float_line = true ∧
      (row_tokens line).map stod_text = a :: as := by
  unfold classify at h
  split_ifs at h with h1 h2 h3
  · cases hr : row_tokens line with
    | nil => rw [hr] at h; cases h
    | cons b bs => rw [hr] at h; cases h
  · cases hr : row_tokens line with
    | nil => rw [hr] at h; cases h
    | cons b bs =>
      rw [hr] at h
      simp only [Line.floatRow.injEq] at h
      exact ⟨h3, by rw [List.map_cons, h.1, h.2]⟩

/-- C23: the tokens that are routed from a row are exactly the maximal runs of
non-whitespace characters of the line, in left-to-right order.  The token list of a line
is determined by: the empty line has no token; leading whitespace is dropped; a run of
non-whitespace characters followed by a whitespace character is one token, followed by
the tokens of the rest; a run of non-whitespace characters that ends the line is one
token.  No routed token is empty or contains whitespace, and a line classified as an
integer row or a float row routes the conversions of these tokens, in this order. -/
theorem row_tokens_maximal_runs (stod_text : List Char → FloatTok) (line : List Char) :
    row_tokens [] = [] ∧
    (∀ c s, c ∈ space_chars → row_tokens (c :: s) = row_tokens s) ∧
    (∀ t c s, t ≠ [] → (∀ x ∈ t, x ∉ space_chars) → c ∈ space_chars →
      row_tokens (t ++ c :: s) = t :: row_tokens s) ∧
    (∀ t, t ≠ [] → (∀ x ∈ t, x ∉ space_chars) → row_tokens t = [t]) ∧
    (∀ t ∈ row_tokens line, t ≠ [] ∧ ∀ c ∈ t, c ∉ space_chars) ∧
    (row_tokens line).flatten = line.filter (fun c => decide (c ∉ space_chars)) ∧
    (∀ a as, classify stod_text line = Line.intRow a as →
      (row_tokens line).map digits_value = a :: as) ∧
    (∀ a as, classify stod_text line = Line.floatRow a as →
      (row_tokens line).map stod_text = a :: as) := by
  refine ⟨rfl, row_tokens_space, row_tokens_token, row_tokens_single, fun t ht => ?_, ?_,
    fun a as h => (classify_int_row stod_text line a as h).2,
    fun a as h => (classify_float_row stod_text line a as h).2⟩
  · unfold row_tokens regex_split at ht
    rw [List.mem_filter] at ht
    refine ⟨fun h0 => ?_, regex_split_loop_tokens [] false line (fun c hc => by cases hc) t ht.1⟩
    rw [h0] at ht
    simp at ht
  · unfold row_tokens regex_split
    rw [flatten_filter_nonempty, regex_split_loop_flatten [] false line (fun h0 => by cases h0)]
    rfl

set_option maxRecDepth 100000 in
/-- Witness for C23: the line made of two spaces, `12`, a tab and a space, `7` and a space
is an integer row, and its tokens are `12` and `7`. -/
theorem row_tokens_maximal_runs_witness :
    row_tokens [' ', ' ', '1', '2', Char.ofNat 9, ' ', '7', ' '] = [['1', '2'], ['7']] ∧
    classify (fun _ => none) [' ', ' ', '1', '2', Char.ofNat 9, ' ', '7', ' '] =
      Line.intRow 12 [7] ∧
    (row_tokens [' ', ' ', '1', '2', Char.ofNat 9, ' ', '7', ' ']).map digits_value = 12 :: [7] :=
  ⟨by decide, by decide,
    (row_tokens_maximal_runs (fun _ => none)
      [' ', ' ', '1', '2', Char.ofNat 9, ' ', '7', ' ']).2.2.2.2.2.2.1 12 [7] (by decide)⟩

/-! ## The form of the tokens of a row -/

theorem mem_star_matches (P : Regex) (x : List Char) :
    x ∈ (Regex.many P).matches' ↔ ∃ L : List (List Char), x = L.flatten ∧ ∀ y ∈ L, y ∈ P.matches' :=
  Language.mem_kstar

theorem mem_opt_matches (P : Regex) (x : List Char) :
    x ∈ (Regex.opt P).matches' ↔ x = [] ∨ x ∈ P.matches' := by
  show x ∈ ((1 : Regex) + P).matches' ↔ _
  rw [RegularExpression.matches'_add, Language.mem_add, RegularExpression.matches'_epsilon,
    Language.mem_one]

theorem rx_spaces_space (x : List Char) (hx : x ∈ (Regex.many rx_space).matches') :
    ∀ c ∈ x, c ∈ space_chars := by
  intro c hc
  have h := Regex.mem_chars _ x hx c hc
  revert h
  have : ∀ d ∈ Regex.chars (Regex.many rx_space), d ∈ space_chars := by decide
  exact this c

theorem rx_spaces1_space (x : List Char) (hx : x ∈ (Regex.many1 rx_space).matches') :
    x ≠ [] ∧ ∀ c ∈ x, c ∈ space_chars := by
  constructor
  · obtain ⟨c, hc, _⟩ := Regex.forces_spec (fun _ => true) (Regex.many1 rx_space) (by decide) x hx
    exact List.ne_nil_of_mem hc
  · intro c hc
    have h := Regex.mem_chars _ x hx c hc
    revert h
    have : ∀ d ∈ Regex.chars (Regex.many1 rx_space), d ∈ space_chars := by decide
    exact this c

theorem row_tokens_token_rest (t rest : List Char) (h0 : t ≠ [])
    (ht : ∀ x ∈ t, x ∉ space_chars)
    (hr : rest = [] ∨ ∃ c s, rest = c :: s ∧ c ∈ space_chars) :
    row_tokens (t ++ rest) = t :: row_tokens rest := by
  rcases hr with rfl | ⟨c, s, rfl, hc⟩
  · rw [List.append_nil, row_tokens_single t h0 ht]
    rfl
  · rw [row_tokens_token t c s h0 ht hc, row_tokens_space c s hc]

theorem row_tail_tokens (T : Regex) (hT0 : ∀ x ∈ T.matches', x ≠ [])
    (hTs : ∀ x ∈ T.matches', ∀ c ∈ x, c ∉ space_chars) (L : List (List Char))
    (hL : ∀ y ∈ L, y ∈ (Regex.many1 rx_space * T).matches') (ws : List Char)
    (hws : ws ∈ (Regex.many rx_space).matches') :
    (L.flatten ++ ws = [] ∨ ∃ c s, L.flatten ++ ws = c :: s ∧ c ∈ space_chars) ∧
    ∀ t ∈ row_tokens (L.flatten ++ ws), t ∈ T.matches' := by
  induction L with
  | nil =>
    have hsp := rx_spaces_space ws hws
    constructor
    · cases ws with
      | nil => exact Or.inl rfl
      | cons c s => exact Or.inr ⟨c, s, rfl, hsp c (List.mem_cons_self _ _)⟩
    · intro t ht
      have : row_tokens ([].flatten ++ ws) = [] := by
        have := row_tokens_spaces ws [] hsp
        rw [List.append_nil] at this
        simpa using this
      rw [this] at ht
      cases ht
  | cons y L ih =>
    obtain ⟨ih1, ih2⟩ := ih (fun z hz => hL z (List.mem_cons_of_mem _ hz))
    obtain ⟨s, t, hs, ht, rfl⟩ := (mem_mul_matches _ _ y).1 (hL _ (List.mem_cons_self _ _))
    obtain ⟨hs0, hss⟩ := rx_spaces1_space s hs
    have e : (((s ++ t) :: L).flatten ++ ws) = s ++ (t ++ (L.flatten ++ ws)) := by simp
    rw [e]
    constructor
    · obtain ⟨c, s', rfl⟩ := List.exists_cons_of_ne_nil hs0
      exact Or.inr ⟨c, _, rfl, hss c (List.mem_cons_self _ _)⟩
    · intro u hu
      rw [row_tokens_spaces s _ hss,
        row_tokens_token_rest t _ (hT0 t ht) (hTs t ht) ih1] at hu
      rcases List.mem_cons.1 hu with rfl | hu
      · exact ht
      · exact ih2 u hu

theorem row_pattern_tokens (T : Regex) (hT0 : ∀ x ∈ T.matches', x ≠ [])
    (hTs : ∀ x ∈ T.matches', ∀ c ∈ x, c ∉ space_chars) (line : List Char)
    (h : line ∈ (Regex.many rx_space * T * Regex.many (Regex.many1 rx_space * T) *
      Regex.many rx_space).matches') :
    ∀ t ∈ row_tokens line, t ∈ T.matches' := by
  obtain ⟨_, ws1, h1, hws1, rfl⟩ := (mem_mul_matches _ _ line).1 h
  obtain ⟨_, u, h2, hu, rfl⟩ := (mem_mul_matches _ _ _).1 h1
  obtain ⟨ws0, t0, hws0, ht0, rfl⟩ := (mem_mul_matches _ _ _).1 h2
  obtain ⟨L, rfl, hL⟩ := (mem_star_matches _ u).1 hu
  obtain ⟨r1, r2⟩ := row_tail_tokens T hT0 hTs L hL ws1 hws1
  have e : ws0 ++ t0 ++ L.flatten ++ ws1 = ws0 ++ (t0 ++ (L.flatten ++ ws1)) := by simp
  rw [e, row_tokens_spaces ws0 _ (rx_spaces_space ws0 hws0),
    row_tokens_token_rest t0 _ (hT0 t0 ht0) (hTs t0 ht0) r1]
  intro t ht
  rcases List.mem_cons.1 ht with rfl | ht
  · exact ht0
  · exact r2 t ht

theorem rx_float_ne_nil (x : List Char) (hx : x ∈ rx_float.matches') : x ≠ [] := by
  obtain ⟨c, hc, _⟩ := Regex.forces_spec (fun _ => true) rx_float (by decide) x hx
  exact List.ne_nil_of_mem hc

theorem rx_digits_no_space (x : List Char) (hx : x ∈ rx_digits.matches') :
    ∀ c ∈ x, c ∉ space_chars := by
  intro c hc
  have h := Regex.mem_chars _ x hx c hc
  revert h
  have : ∀ d ∈ Regex.chars rx_digits, d ∉ space_chars := by decide
  exact this c

theorem rx_float_no_space (x : List Char) (hx : x ∈ rx_float.matches') :
    ∀ c ∈ x, c ∉ space_chars := by
  intro c hc
  have h := Regex.mem_chars _ x hx c hc
  revert h
  have : ∀ d ∈ Regex.chars rx_float, d ∉ space_chars := by decide
  exact this c

theorem int_line_token_form (line : List Char) (h : line ∈ new_regex_int_line.matches') :
    ∀ t ∈ row_tokens line, t ∈ rx_digits.matches' :=
  row_pattern_tokens rx_digits rx_digits_ne_nil rx_digits_no_space line h

theorem float_line_token_form (line : List Char) (h : line ∈ new_regex_float_line.matches') :
    ∀ t ∈ row_tokens line, t ∈ rx_float.matches' :=
  row_pattern_tokens rx_float rx_float_ne_nil rx_float_no_space line h

theorem rx_digits_sub_float (t : List Char) (h : t ∈ rx_digits.matches') :
    t ∈ rx_float.matches' := by
  unfold rx_float
  refine (mem_mul_matches _ _ t).2 ⟨t, [], (mem_mul_matches _ _ t).2 ⟨[], t,
    (mem_mul_matches _ _ _).2 ⟨[], [], (mem_mul_matches _ _ _).2 ⟨[], [],
      (mem_opt_matches _ _).2 (Or.inl rfl), (mem_star_matches _ _).2 ⟨[], rfl, fun y hy => by cases hy⟩,
      rfl⟩, (mem_opt_matches _ _).2 (Or.inl rfl), rfl⟩, h, rfl⟩,
    (mem_opt_matches _ _).2 (Or.inl rfl), (List.append_nil t).symm⟩

/-! ## Conversion of the tokens of a row -/

theorem digit_char_plain : ∀ d ∈ digit_chars,
    d ∉ space_chars ∧ d ≠ '+' ∧ d ≠ '-' ∧ d ≠ '.' := by decide

theorem skip_space_sign_plain (c : Char) (r : List Char) (h1 : c ∉ space_chars)
    (h2 : c ≠ '+') (h3 : c ≠ '-') : skip_space_sign (c :: r) = c :: r := by
  unfold skip_space_sign
  rw [List.dropWhile_cons_of_neg (by simpa using h1)]
  simp [h2, h3]

theorem skip_space_sign_sign (c : Char) (r : List Char) (hc : c = '+' ∨ c = '-') :
    skip_space_sign (c :: r) = r := by
  unfold skip_space_sign
  have hs : c ∉ space_chars := by
    rcases hc with rfl | rfl <;> decide
  rw [List.dropWhile_cons_of_neg (by simpa using hs)]
  simp [hc]

theorem rx_digits_head (t : List Char) (h : t ∈ rx_digits.matches') :
    ∃ d r, t = d :: r ∧ d ∈ digit_chars := by
  obtain ⟨d, r, rfl⟩ := List.exists_cons_of_ne_nil (rx_digits_ne_nil t h)
  exact ⟨d, r, rfl, rx_digits_digit d (Regex.mem_chars _ _ h d (List.mem_cons_self _ _))⟩

theorem stoull_converts_digits (t : List Char) (h : t ∈ rx_digits.matches') :
    stoull_converts t = true := by
  obtain ⟨d, r, rfl, hd⟩ := rx_digits_head t h
  obtain ⟨h1, h2, h3, _⟩ := digit_char_plain d hd
  unfold stoull_converts
  rw [skip_space_sign_plain d r h1 h2 h3]
  simpa using hd

theorem mem_any_of_matches (cs : List Char) (x : List Char) :
    x ∈ (Regex.any_of cs).matches' ↔ ∃ c ∈ cs, x = [c] := by
  induction cs with
  | nil =>
    constructor
    · intro h; cases h
    · rintro ⟨c, hc, _⟩; cases hc
  | cons a as ih =>
    show x ∈ (RegularExpression.char a + Regex.any_of as).matches' ↔ _
    rw [RegularExpression.matches'_add, Language.mem_add, ih, mem_char_matches]
    constructor
    · rintro (rfl | ⟨c, hc, rfl⟩)
      · exact ⟨a, List.mem_cons_self _ _, rfl⟩
      · exact ⟨c, List.mem_cons_of_mem _ hc, rfl⟩
    · rintro ⟨c, hc, rfl⟩
      rcases List.mem_cons.1 hc with rfl | hc
      · exact Or.inl rfl
      · exact Or.inr ⟨c, hc, rfl⟩

theorem stod_converts_number (body : List Char)
    (hb : ∃ c r, body = c :: r ∧ (c ∈ digit_chars ∨
      (c = '.' ∧ ∃ d r', r = d :: r' ∧ d ∈ digit_chars))) (sg : List Char)
    (hs : sg = [] ∨ sg = ['-'] ∨ sg = ['+']) : stod_converts (sg ++ body) = true := by
  obtain ⟨c, r, rfl, hc⟩ := hb
  have hplain : c ∉ space_chars ∧ c ≠ '+' ∧ c ≠ '-' := by
    rcases hc with hd | ⟨rfl, _⟩
    · exact ⟨(digit_char_plain c hd).1, (digit_char_plain c hd).2.1, (digit_char_plain c hd).2.2.1⟩
    · decide
  have hskip : skip_space_sign (sg ++ c :: r) = c :: r := by
    rcases hs with rfl | rfl | rfl
    · exact skip_space_sign_plain c r hplain.1 hplain.2.1 hplain.2.2
    · exact skip_space_sign_sign '-' _ (Or.inr rfl)
    · exact skip_space_sign_sign '+' _ (Or.inl rfl)
  unfold stod_converts
  rw [hskip]
  rcases hc with hd | ⟨rfl, d, r', rfl, hd⟩
  · simp [hd]
  · simp [hd]

theorem stod_converts_float (t : List Char) (h : t ∈ rx_float.matches') :
    stod_converts t = true := by
  unfold rx_float at h
  obtain ⟨_, ex, h1, _, rfl⟩ := (mem_mul_matches _ _ t).1 h
  obtain ⟨_, dg, h2, hdg, rfl⟩ := (mem_mul_matches _ _ _).1 h1
  obtain ⟨_, dot, h3, hdot, rfl⟩ := (mem_mul_matches _ _ _).1 h2
  obtain ⟨sg, ds, hsg, hds, rfl⟩ := (mem_mul_matches _ _ _).1 h3
  obtain ⟨d, r, rfl, hd⟩ := rx_digits_head dg hdg
  have hsg2 : sg = [] ∨ sg = ['-'] ∨ sg = ['+'] := by
    rcases (mem_opt_matches _ _).1 hsg with h0 | h0
    · exact Or.inl h0
    · obtain ⟨c, hc, rfl⟩ := (mem_any_of_matches _ _).1 h0
      simp only [List.mem_cons, List.mem_singleton, List.not_mem_nil, or_false] at hc
      rcases hc with rfl | rfl
      · exact Or.inr (Or.inl rfl)
      · exact Or.inr (Or.inr rfl)
  have hds2 : ∀ c ∈ ds, c ∈ digit_chars := by
    intro c hc
    have h0 := Regex.mem_chars _ ds hds c hc
    revert h0
    have : ∀ x ∈ Regex.chars (Regex.many (Regex.any_of digit_chars)), x ∈ digit_chars := by
      decide
    exact this c
  have hdot2 : dot = [] ∨ dot = ['.'] := by
    rcases (mem_opt_matches _ _).1 hdot with h0 | h0
    · exact Or.inl h0
    · exact Or.inr h0
  have e : sg ++ ds ++ dot ++ d :: r ++ ex = sg ++ (ds ++ (dot ++ (d :: (r ++ ex)))) := by simp
  rw [e]
  refine stod_converts_number _ ?_ sg hsg2
  cases ds with
  | cons x xs => exact ⟨x, _, rfl, Or.inl (hds2 x (List.mem_cons_self _ _))⟩
  | nil =>
    rcases hdot2 with rfl | rfl
    · exact ⟨d, _, rfl, Or.inl hd⟩
    · exact ⟨'.', _, rfl, Or.inr ⟨rfl, d, _, rfl, hd⟩⟩

/-- C24: every token routed from a line classified as an integer row is a non-empty
string of decimal digits, and every token routed from a line classified as a float row
has the form `[sign] digits* [.] digits+ [(e|E) [sign] digits+]`; hence a line with a
token that is not of the latter form is not a numeric row, and a line with a token that
is not a string of digits is not an integer row; `std::stoull` and `std::stod` can
perform a conversion on every routed token, so neither fails on syntax. -/
theorem routed_token_form (stod_text : List Char → FloatTok) (line : List Char) :
    (∀ a as, classify stod_text line = Line.intRow a as →
      ∀ t ∈ row_tokens line, regex_match t rx_digits = true ∧ stoull_converts t = true) ∧
    (∀ a as, classify stod_text line = Line.floatRow a as →
      ∀ t ∈ row_tokens line, regex_match t rx_float = true ∧ stod_converts t = true) ∧
    ((∃ t ∈ row_tokens line, regex_match t rx_digits = false) →
      ∀ a as, classify stod_text line ≠ Line.intRow a as) ∧
    ((∃ t ∈ row_tokens line, regex_match t rx_float = false) →
      (∀ a as, classify stod_text line ≠ Line.intRow a as) ∧
      ∀ a as, classify stod_text line ≠ Line.floatRow a as) := by
  have hint : ∀ a as, classify stod_text line = Line.intRow a as →
      ∀ t ∈ row_tokens line, t ∈ rx_digits.matches' := fun a as h =>
    int_line_token_form line ((regex_match_iff _ _).1 (classify_int_row stod_text line a as h).1)
  have hfloat : ∀ a as, classify stod_text line = Line.floatRow a as →
      ∀ t ∈ row_tokens line, t ∈ rx_float.matches' := fun a as h =>
    float_line_token_form line
      ((regex_match_iff _ _).1 (classify_float_row stod_text line a as h).1)
  refine ⟨fun a as h t ht => ?_, fun a as h t ht => ?_, ?_, ?_⟩
  · exact ⟨(regex_match_iff _ _).2 (hint a as h t ht), stoull_converts_digits t (hint a as h t ht)⟩
  · exact ⟨(regex_match_iff _ _).2 (hfloat a as h t ht),
      stod_converts_float t (hfloat a as h t ht)⟩
  · rintro ⟨t, ht, hn⟩ a as h
    exact (regex_match_false_iff _ _).1 hn (hint a as h t ht)
  · rintro ⟨t, ht, hn⟩
    exact ⟨fun a as h => (regex_match_false_iff _ _).1 hn (rx_digits_sub_float t (hint a as h t ht)),
      fun a as h => (regex_match_false_iff _ _).1 hn (hfloat a as h t ht)⟩

set_option maxRecDepth 100000 in
/-- Witness for C24: the line `-1.5e3 7` is a float row whose tokens have the form of a
number, and the lines `1.` and `NaN`, whose only token has not, are no numeric rows. -/
theorem routed_token_form_witness :
    classify (fun _ => none) "-1.5e3 7".toList = Line.floatRow none [none] ∧
    (∀ t ∈ row_tokens "-1.5e3 7".toList,
      regex_match t rx_float = true ∧ stod_converts t = true) ∧
    row_tokens "1.".toList = ["1.".toList] ∧ regex_match "1.".toList rx_float = false ∧
    classify (fun _ => none) "1.".toList = Line.other ∧
    row_tokens "NaN".toList = ["NaN".toList] ∧ regex_match "NaN".toList rx_float = false ∧
    classify (fun _ => none) "NaN".toList = Line.other :=
  ⟨by decide,
    (routed_token_form (fun _ => none) "-1.5e3 7".toList).2.1 none [none] (by decide),
    by decide, by decide, by decide, by decide, by decide, by decide⟩

/-! ## The state machine and the routing of the code -/

theorem Machine.init_inv (V : Nat) : Machine.init.inv V :=
  ⟨fun st h => by cases st <;> simp [Machine.init, FillState.rank] at h,
    fun st => by cases st <;> simp [Machine.init, Machine.target]⟩

/-- The first array, in the order of the states, that holds fewer than `V` entries. -/
theorem Machine.advance_eq (V : Nat) (m : Machine) (hm : m.inv V) :
    Machine.advance V m 6 m.state =
      if m.x.length < V then .AwaitingX
      else if m.y.length < V then .AwaitingY
      else if m.z.length < V then .AwaitingZ
      else if m.mx.length < V then .AwaitingSnapshotX
      else if m.my.length < V then .AwaitingSnapshotY
      else if m.mz.length < V then .AwaitingSnapshotZ
      else .Full := by
  obtain ⟨st, x, y, z, mx, my, mz⟩ := m
  have l0 := hm.2 .AwaitingX
  have l1 := hm.2 .AwaitingY
  have l2 := hm.2 .AwaitingZ
  have l3 := hm.2 .AwaitingSnapshotX
  have l4 := hm.2 .AwaitingSnapshotY
  have l5 := hm.2 .AwaitingSnapshotZ
  have p0 := hm.1 .AwaitingX
  have p1 := hm.1 .AwaitingY
  have p2 := hm.1 .AwaitingZ
  have p3 := hm.1 .AwaitingSnapshotX
  have p4 := hm.1 .AwaitingSnapshotY
  have p5 := hm.1 .AwaitingSnapshotZ
  simp only [Machine.target] at l0 l1 l2 l3 l4 l5 p0 p1 p2 p3 p4 p5
  have e0 : x.length = V ↔ ¬ x.length < V := by omega
  have e1 : y.length = V ↔ ¬ y.length < V := by omega
  have e2 : z.length = V ↔ ¬ z.length < V := by omega
  have e3 : mx.length = V ↔ ¬ mx.length < V := by omega
  have e4 : my.length = V ↔ ¬ my.length < V := by omega
  have e5 : mz.length = V ↔ ¬ mz.length < V := by omega
  rw [e0] at p0
  rw [e1] at p1
  rw [e2] at p2
  rw [e3] at p3
  rw [e4] at p4
  rw [e5] at p5
  cases st
  · simp only [Machine.advance, Machine.target, FillState.next, ne_eq, reduceCtorEq,
      not_false_eq_true, true_and, not_true_eq_false, false_and, if_false, e0, e1, e2, e3,
      e4, e5, ite_not]
  · simp only [Machine.advance, Machine.target, FillState.next, ne_eq, reduceCtorEq,
      not_false_eq_true, true_and, not_true_eq_false, false_and, if_false, e0, e1, e2, e3,
      e4, e5, ite_not, if_neg (p0 (by decide))]
  · simp only [Machine.advance, Machine.target, FillState.next, ne_eq, reduceCtorEq,
      not_false_eq_true, true_and, not_true_eq_false, false_and, if_false, e0, e1, e2, e3,
      e4, e5, ite_not, if_neg (p0 (by decide)), if_neg (p1 (by decide))]
  · simp only [Machine.advance, Machine.target, FillState.next, ne_eq, reduceCtorEq,
      not_false_eq_true, true_and, not_true_eq_false, false_and, if_false, e0, e1, e2, e3,
      e4, e5, ite_not, if_neg (p0 (by decide)), if_neg (p1 (by decide)),
      if_neg (p2 (by decide))]
  · simp only [Machine.advance, Machine.target, FillState.next, ne_eq, reduceCtorEq,
      not_false_eq_true, true_and, not_true_eq_false, false_and, if_false, e0, e1, e2, e3,
      e4, e5, ite_not, if_neg (p0 (by decide)), if_neg (p1 (by decide)),
      if_neg (p2 (by decide)), if_neg (p3 (by decide))]
  · simp only [Machine.advance, Machine.target, FillState.next, ne_eq, reduceCtorEq,
      not_false_eq_true, true_and, not_true_eq_false, false_and, if_false, e0, e1, e2, e3,
      e4, e5, ite_not, if_neg (p0 (by decide)), if_neg (p1 (by decide)),
      if_neg (p2 (by decide)), if_neg (p3 (by decide)), if_neg (p4 (by decide))]
  · simp only [Machine.advance, Machine.target, FillState.next, ne_eq, reduceCtorEq,
      not_false_eq_true, true_and, not_true_eq_false, false_and, if_false, e0, e1, e2, e3,
      e4, e5, ite_not, if_neg (p0 (by decide)), if_neg (p1 (by decide)),
      if_neg (p2 (by decide)), if_neg (p3 (by decide)), if_neg (p4 (by decide)),
      if_neg (p5 (by decide))]

theorem Machine.push_inv (V : Nat) (m : Machine) (hm : m.inv V) (st : FillState) (d : Dbl)
    (hst : st ≠ .Full) (hlt : (m.target st).length < V)
    (hpre : ∀ st' : FillState, st'.rank < st.rank → (m.target st').length = V) :
    (m.push st d).inv V := by
  obtain ⟨s0, x, y, z, mx, my, mz⟩ := m
  have l0 := hm.2 .AwaitingX
  have l1 := hm.2 .AwaitingY
  have l2 := hm.2 .AwaitingZ
  have l3 := hm.2 .AwaitingSnapshotX
  have l4 := hm.2 .AwaitingSnapshotY
  have l5 := hm.2 .AwaitingSnapshotZ
  have p0 := hpre .AwaitingX
  have p1 := hpre .AwaitingY
  have p2 := hpre .AwaitingZ
  have p3 := hpre .AwaitingSnapshotX
  have p4 := hpre .AwaitingSnapshotY
  have p5 := hpre .AwaitingSnapshotZ
  simp only [Machine.target] at l0 l1 l2 l3 l4 l5 p0 p1 p2 p3 p4 p5 hlt
  cases st
  case Full => exact absurd rfl hst
  all_goals
    simp only [FillState.rank] at p0 p1 p2 p3 p4 p5
    simp only [Machine.target] at hlt
    constructor
    · intro st' h'
      cases st' <;> simp only [Machine.push, FillState.rank, Machine.target] at h' ⊢ <;>
        omega
    · intro st'
      cases st' <;> simp only [Machine.push, Machine.target, List.length_append,
        List.length_singleton, List.length_nil] <;> omega

theorem Machine.advance_spec (V : Nat) (m : Machine) (hm : m.inv V) :
    (∀ st' : FillState, st'.rank < (Machine.advance V m 6 m.state).rank →
      (m.target st').length = V) ∧
    (Machine.advance V m 6 m.state ≠ .Full →
      (m.target (Machine.advance V m 6 m.state)).length < V) := by
  rw [Machine.advance_eq V m hm]
  have l0 := hm.2 .AwaitingX
  have l1 := hm.2 .AwaitingY
  have l2 := hm.2 .AwaitingZ
  have l3 := hm.2 .AwaitingSnapshotX
  have l4 := hm.2 .AwaitingSnapshotY
  have l5 := hm.2 .AwaitingSnapshotZ
  simp only [Machine.target] at l0 l1 l2 l3 l4 l5
  split_ifs with h0 h1 h2 h3 h4 h5
  all_goals
    constructor
    · intro st' h'
      cases st' <;> simp only [FillState.rank, Machine.target] at h' ⊢ <;> omega
    · intro hne
      first
        | exact absurd rfl hne
        | (simp only [Machine.target]; assumption)

theorem Machine.step_inv (V : Nat) (m : Machine) (hm : m.inv V) (t : FloatTok) (m' : Machine)
    (h : Machine.step V m t = .ok m') : m'.inv V := by
  obtain ⟨hpre, hlt⟩ := Machine.advance_spec V m hm
  unfold Machine.step at h
  simp only at h
  by_cases hf : Machine.advance V m 6 m.state = .Full
  · rw [if_pos hf] at h
    cases h
  · rw [if_neg hf] at h
    cases t with
    | none => cases h
    | some d =>
      simp only [stod, bind, Except.bind, pure, Except.pure, Except.ok.injEq] at h
      subst h
      exact Machine.push_inv V m hm _ d hf (hlt hf) hpre

theorem Machine.step_sim (c : TecplotData) (V : Nat) (hV : c.n_verts = some V)
    (hi : c.current_field_idx = some 0) (m : Machine) (hm : m.inv V) (t : FloatTok) :
    route_float_first (Machine.curves c m) t =
      (Machine.step V m t).map (Machine.curves c) := by
  rw [route_float_first_eq (Machine.curves c m) V 0 m.mx m.my m.mz t hV hi rfl rfl rfl]
  unfold Machine.step
  simp only
  rw [Machine.advance_eq V m hm]
  simp only [Machine.curves, List.set_cons_zero]
  split_ifs with h0 h1 h2 h3 h4 h5 <;>
    first
      | (cases t <;> rfl)
      | (cases t <;> simp_all)

theorem Machine.run_sim (c : TecplotData) (V : Nat) (hV : c.n_verts = some V)
    (hi : c.current_field_idx = some 0) (toks : List FloatTok) (m : Machine) (hm : m.inv V) :
    toks.foldlM route_float_first (Machine.curves c m) =
      (toks.foldlM (Machine.step V) m).map (Machine.curves c) := by
  induction toks generalizing m with
  | nil => rfl
  | cons t ts ih =>
    rw [List.foldlM_cons, List.foldlM_cons, Machine.step_sim c V hV hi m hm t]
    cases hs : Machine.step V m t with
    | error e => rfl
    | ok m' => exact ih m' (Machine.step_inv V m hm t m' hs)

/-- C26: routing the float tokens of the first zone with the explicit state machine
(states `AwaitingX`, `AwaitingY`, `AwaitingZ`, `AwaitingSnapshotX`, `AwaitingSnapshotY`,
`AwaitingSnapshotZ`, `Full`; the state advances past every target that holds `V` entries,
and a token arriving in `Full` raises too-many-floats) yields, for every token sequence
and every `V`, the same outcome as the routing of the code, which derives the target from
the fill levels on every token: the same error, or the same six arrays with the rest of
the accumulator unchanged. -/
theorem machine_refines_routing (c : TecplotData) (V : Nat) (toks : List FloatTok)
    (hV : c.n_verts = some V) (hi : c.current_field_idx = some 0) :
    toks.foldlM route_float_first (Machine.curves c Machine.init) =
      (Machine.run V toks).map (Machine.curves c) :=
  Machine.run_sim c V hV hi toks Machine.init (Machine.init_inv V)

/-- Witness for C26: after the header of a first zone of one vertex, six float tokens
fill the six arrays in both routings and a seventh raises too-many-floats in both; with
no vertex, the first token does. -/
theorem machine_refines_routing_witness :
    Machine.curves (first_zone_curves "a" 1 0) Machine.init = first_zone_curves "a" 1 0 ∧
    [tok 1, tok 2, tok 3, tok 4, tok 5, tok 6].foldlM route_float_first
        (Machine.curves (first_zone_curves "a" 1 0) Machine.init) =
      (Machine.run 1 [tok 1, tok 2, tok 3, tok 4, tok 5, tok 6]).map
        (Machine.curves (first_zone_curves "a" 1 0)) ∧
    Machine.run 1 [tok 1, tok 2, tok 3, tok 4, tok 5, tok 6] =
      .ok { state := .AwaitingSnapshotZ, x := [⟨1⟩], y := [⟨2⟩], z := [⟨3⟩], mx := [⟨4⟩],
            my := [⟨5⟩], mz := [⟨6⟩] } ∧
    Machine.run 1 [tok 1, tok 2, tok 3, tok 4, tok 5, tok 6, tok 7] =
      .error Error.too_many_doubles ∧
    [tok 1].foldlM route_float_first (first_zone_curves "a" 0 0) =
      .error Error.too_many_doubles ∧
    Machine.run 0 [tok 1] = .error Error.too_many_doubles :=
  ⟨rfl,
    machine_refines_routing (first_zone_curves "a" 1 0) 1
      [tok 1, tok 2, tok 3, tok 4, tok 5, tok 6] rfl rfl,
    rfl, rfl, rfl, rfl⟩

/-! ## Bounds of the arrays -/

theorem History.comp_entry_le (j V : Nat) (zs : List (List Dbl)) (k : Nat) (a : List Dbl)
    (ha : (History.comp j V zs)[k]? = some a) : a.length ≤ V := by
  rw [History.comp_getElem?] at ha
  cases hz : zs[k]? with
  | none => rw [hz] at ha; cases ha
  | some g =>
    rw [hz] at ha
    simp only [Option.map_some', Option.some.injEq] at ha
    subst ha
    exact slice_length_le _ _ _

/-- C31: in every state reached by processing lines without error, no array exceeds its
expected size: x, y and z each hold at most `V` entries, the region-tag array at most
`E`, the connectivity array at most `4E`, and the mx, my and mz of every snapshot at most
`V`; while no count is set, every array is empty. -/
theorem arrays_within_bounds (pre : List Line) (s : ReaderState)
    (hp : process_lines ReaderState.initial pre = .ok s) :
    (s.curves.n_verts = none → s.curves = TecplotData.empty) ∧
    ∀ V E, s.curves.n_verts = some V → s.curves.n_elems = some E →
      s.curves.x.length ≤ V ∧ s.curves.y.length ≤ V ∧ s.curves.z.length ≤ V ∧
      s.curves.tetra_submesh_idxs.length ≤ E ∧ s.curves.tetra_idxs.length ≤ 4 * E ∧
      (∀ (k : Nat) (a : List Dbl), s.curves.mx[k]? = some a → a.length ≤ V) ∧
      (∀ (k : Nat) (a : List Dbl), s.curves.my[k]? = some a → a.length ≤ V) ∧
      (∀ (k : Nat) (a : List Dbl), s.curves.mz[k]? = some a → a.length ≤ V) := by
  rcases (process_lines_initial pre s).1 hp with ⟨_, rfl⟩ | ⟨p, t, n, e, rest, h, rfl, _, hn, he,
    hr, rfl⟩
  · exact ⟨fun _ => rfl, fun V E hV => by cases hV⟩
  · have hw := (History.run_wf rest _ h (History.start_wf t n e hn he) hr).1
    refine ⟨fun h0 => (by cases h0), fun V E hV hE => ?_⟩
    have hV' : h.V = V := by simpa [History.state, History.curves] using hV
    have hE' : h.E = E := by simpa [History.state, History.curves] using hE
    subst hV' hE'
    have hi := hw.2.2.2.1
    refine ⟨slice_length_le _ _ _, slice_length_le _ _ _, slice_length_le _ _ _, ?_, ?_,
      fun k a ha => ?_, fun k a ha => ?_, fun k a ha => ?_⟩
    · show (h.ints.take h.E).length ≤ h.E
      rw [List.length_take]
      omega
    · show ((h.ints.drop h.E).map sub_one_u64).length ≤ 4 * h.E
      rw [List.length_map, List.length_drop]
      omega
    · rw [show h.state.curves.mx = _ from History.curves_mx h] at ha
      exact History.comp_entry_le _ _ _ k a ha
    · rw [show h.state.curves.my = _ from History.curves_my h] at ha
      exact History.comp_entry_le _ _ _ k a ha
    · rw [show h.state.curves.mz = _ from History.curves_mz h] at ha
      exact History.comp_entry_le _ _ _ k a ha

/-- Witness for C31: the state after three float tokens of a first zone of two vertices. -/
theorem arrays_within_bounds_witness :
    process_lines ReaderState.initial example_partial_zone = .ok example_partial_zone_state ∧
    example_partial_zone_state.curves.n_verts = some 2 ∧
    example_partial_zone_state.curves.n_elems = some 0 ∧
    example_partial_zone_state.curves.x.length ≤ 2 ∧
    example_partial_zone_state.curves.y.length ≤ 2 ∧
    example_partial_zone_state.curves.z.length ≤ 2 ∧
    example_partial_zone_state.curves.tetra_submesh_idxs.length ≤ 0 ∧
    example_partial_zone_state.curves.tetra_idxs.length ≤ 4 * 0 ∧
    (∀ (k : Nat) (a : List Dbl),
      example_partial_zone_state.curves.mx[k]? = some a → a.length ≤ 2) ∧
    (∀ (k : Nat) (a : List Dbl),
      example_partial_zone_state.curves.my[k]? = some a → a.length ≤ 2) ∧
    (∀ (k : Nat) (a : List Dbl),
      example_partial_zone_state.curves.mz[k]? = some a → a.length ≤ 2) :=
  ⟨rfl, rfl, rfl,
    (arrays_within_bounds example_partial_zone example_partial_zone_state rfl).2 2 0 rfl rfl⟩

/-! ## The index stored for a connectivity token -/

theorem sub_one_u64_int (k : Nat) : ((sub_one_u64 k : Nat) : Int) = ((k : Int) - 1) % 2 ^ 64 := by
  unfold sub_one_u64
  omega

/-- C32: while the first zone is current, its region-tag array is full and its
connectivity array has room, every integer token `k` that is stored is stored as
`(k - 1) mod 2^64`, the subtraction being taken on unsigned 64-bit integers, and every
token below `2^64` is stored; the token 0 is not rejected and is stored as `2^64 - 1`; the
stored index is compared with nothing, whatever the vertex count is. -/
theorem connectivity_index (pre : List Line) (s : ReaderState) (E k : Nat)
    (hp : process_lines ReaderState.initial pre = .ok s) (hz : s.zone_counter = 1)
    (hE : s.curves.n_elems = some E) (hfull : E ≤ s.curves.tetra_submesh_idxs.length)
    (hroom : s.curves.tetra_idxs.length < 4 * E) :
    (k < 2 ^ 64 →
      process_line s (Line.intRow k []) =
        .ok { s with curves :=
          { s.curves with tetra_idxs := s.curves.tetra_idxs ++ [sub_one_u64 k] } }) ∧
    (∀ s', process_line s (Line.intRow k []) = .ok s' →
      s'.curves.tetra_idxs = s.curves.tetra_idxs ++ [sub_one_u64 k]) ∧
    ((sub_one_u64 k : Nat) : Int) = ((k : Int) - 1) % 2 ^ 64 ∧
    process_line s (Line.intRow 0 []) =
      .ok { s with curves :=
        { s.curves with tetra_idxs := s.curves.tetra_idxs ++ [2 ^ 64 - 1] } } := by
  obtain ⟨h, hw, rfl⟩ := reachable_history pre s hp (by rw [hz]; decide)
  have hE' : h.E = E := by simpa [History.state, History.curves] using hE
  have hw4 : 4 * E < 2 ^ 64 := by have := hw.2.1; omega
  have key : ∀ j, process_line h.state (Line.intRow j []) =
      if j < 2 ^ 64 then
        .ok { h.state with curves :=
          { h.state.curves with tetra_idxs := h.state.curves.tetra_idxs ++ [sub_one_u64 j] } }
      else .error Error.out_of_range := by
    intro j
    rw [process_int_row_single _ _ hz, route_int_eq _ E j hE hw4, if_neg (by omega),
      if_pos hroom]
    split_ifs <;> rfl
  refine ⟨fun hk => by rw [key, if_pos hk], fun s' hs => ?_, sub_one_u64_int k, ?_⟩
  · rw [key] at hs
    split_ifs at hs
    cases hs
    rfl
  · rw [key, if_pos (by decide)]
    rfl

/-- Witness for C32: after the region tag of the one element of a mesh with no vertex,
the token 0 is stored as `2^64 - 1`; and `read` returns a model on an input whose
tetrahedron refers to vertices that do not exist. -/
theorem connectivity_index_witness :
    process_lines ReaderState.initial example_tag_read = .ok example_tag_read_state ∧
    example_tag_read_state.zone_counter = 1 ∧
    example_tag_read_state.curves.n_elems = some 1 ∧
    1 ≤ example_tag_read_state.curves.tetra_submesh_idxs.length ∧
    example_tag_read_state.curves.tetra_idxs.length < 4 * 1 ∧
    process_line example_tag_read_state (Line.intRow 0 []) =
      .ok { example_tag_read_state with curves :=
        { example_tag_read_state.curves with
          tetra_idxs := example_tag_read_state.curves.tetra_idxs ++ [2 ^ 64 - 1] } } ∧
    read example_dangling_index = .ok example_dangling_index_model :=
  ⟨rfl, rfl, rfl, by decide, by decide,
    (connectivity_index example_tag_read example_tag_read_state 1 0 rfl rfl rfl (by decide)
      (by decide)).2.2.2, rfl⟩

/-! ## Integer rows and float rows of the first zone -/

theorem process_line_initial_int (a : Nat) (as : List Nat) :
    process_line ReaderState.initial (Line.intRow a as) =
      .error Error.integers_outside_first_zone := rfl

/-- C33: integer rows and float rows are routed independently: for every state reached
by processing lines without error, every integer row `r` and every float row `f`, if
processing `r` then `f` raises no error, then processing `f` then `r` raises no error
and yields the same state. -/
theorem rows_commute (pre : List Line) (s s1 s2 : ReaderState) (a : Nat) (as : List Nat)
    (t : FloatTok) (ts : List FloatTok)
    (hp : process_lines ReaderState.initial pre = .ok s)
    (h1 : process_line s (Line.intRow a as) = .ok s1)
    (h2 : process_line s1 (Line.floatRow t ts) = .ok s2) :
    ∃ s1', process_line s (Line.floatRow t ts) = .ok s1' ∧
      process_line s1' (Line.intRow a as) = .ok s2 := by
  rcases (process_lines_initial pre s).1 hp with ⟨_, rfl⟩ | ⟨p, t0, n, e, rest, h, rfl, _, hn, he,
    hr, rfl⟩
  · rw [process_line_initial_int] at h1
    cases h1
  · have hw := (History.run_wf rest _ h (History.start_wf t0 n e hn he) hr).1
    obtain ⟨h1', hs1, rfl⟩ := (process_line_history h hw _ s1).1 h1
    have hw1 := (History.step_wf h h1' _ hw hs1).1
    obtain ⟨h2', hs2, rfl⟩ := (process_line_history h1' hw1 _ s2).1 h2
    simp only [History.step] at hs1
    split_ifs at hs1 with c1
    cases hs1
    have e : History.step { h with ints := h.ints ++ a :: as } (Line.floatRow t ts) =
        if h.cur.length + (t :: ts).length ≤ h.capacity ∧ (∀ x ∈ t :: ts, x ≠ none) then
          some { h with ints := h.ints ++ a :: as, cur := h.cur ++ (t :: ts).reduceOption }
        else none := rfl
    rw [e] at hs2
    by_cases c2 : h.cur.length + (t :: ts).length ≤ h.capacity ∧ (∀ x ∈ t :: ts, x ≠ none)
    · rw [if_pos c2] at hs2
      cases hs2
      have hf : h.step (Line.floatRow t ts) =
          some { h with cur := h.cur ++ (t :: ts).reduceOption } := by
        simp only [History.step]
        rw [if_pos c2]
      have hwf := (History.step_wf h _ _ hw hf).1
      refine ⟨_, (process_line_history h hw _ _).2 ⟨_, hf, rfl⟩,
        (process_line_history _ hwf _ _).2 ⟨_, ?_, rfl⟩⟩
      simp only [History.step]
      rw [if_pos c1]
    · rw [if_neg c2] at hs2
      cases hs2

/-- Witness for C33: after the header of a zone of one vertex and one element, the
integer row `7 1` and the float row of two tokens commute. -/
theorem rows_commute_witness :
    process_lines ReaderState.initial [Line.zone "a" 1 1] = .ok example_rows_start ∧
    process_line example_rows_start (Line.intRow 7 [1]) = .ok example_rows_int_state ∧
    process_line example_rows_int_state (Line.floatRow (tok 1) [tok 2]) =
      .ok example_rows_state ∧
    ∃ s1', process_line example_rows_start (Line.floatRow (tok 1) [tok 2]) = .ok s1' ∧
      process_line s1' (Line.intRow 7 [1]) = .ok example_rows_state :=
  ⟨rfl, rfl, rfl,
    rows_commute [Line.zone "a" 1 1] example_rows_start example_rows_int_state
      example_rows_state 7 [1] (tok 1) [tok 2] rfl rfl rfl⟩

/-! ## Input without a zone header -/

theorem process_line_initial_float (t : FloatTok) (ts : List FloatTok) :
    process_line ReaderState.initial (Line.floatRow t ts) = .error Error.bad_optional_access :=
  rfl

theorem finish_empty_error : finish TecplotData.empty = .error Error.bad_optional_access := rfl

theorem read_no_header (lines : List Line) (hh : headers lines = []) :
    read lines = .error Error.integers_outside_first_zone ∨
      read lines = .error Error.bad_optional_access := by
  have key : process_lines ReaderState.initial lines = .ok ReaderState.initial ∨
      process_lines ReaderState.initial lines = .error Error.integers_outside_first_zone ∨
      process_lines ReaderState.initial lines = .error Error.bad_optional_access := by
    induction lines with
    | nil => exact Or.inl rfl
    | cons l ls ih =>
      rw [process_lines_cons]
      cases l with
      | zone t n e => rw [headers_cons_zone] at hh; cases hh
      | intRow a as => exact Or.inr (Or.inl rfl)
      | floatRow t ts => exact Or.inr (Or.inr rfl)
      | other => exact ih hh
  unfold read
  rcases key with h | h | h
  · rw [h]
    exact Or.inr rfl
  · rw [h]
    exact Or.inl rfl
  · rw [h]
    exact Or.inr rfl

theorem classify_header_none (stod_text : List Char → FloatTok) (line : List Char)
    (h : regex_match line new_regex_zone = false) :
    (classify stod_text line).header? = none := by
  unfold classify
  rw [if_neg (by rw [h]; decide)]
  split_ifs
  · cases row_tokens line <;> rfl
  · cases row_tokens line <;> rfl
  · rfl

theorem headers_classify_nil (stod_text : List Char → FloatTok) (lines : List (List Char))
    (h : ∀ l ∈ lines, regex_match l new_regex_zone = false) :
    headers (lines.map (classify stod_text)) = [] := by
  induction lines with
  | nil => rfl
  | cons l ls ih =>
    show List.filterMap Line.header? (classify stod_text l :: ls.map (classify stod_text)) = []
    rw [List.filterMap_cons, classify_header_none stod_text l (h l (List.mem_cons_self _ _))]
    exact ih (fun x hx => h x (List.mem_cons_of_mem _ hx))

/-- C34: for every input that contains no line matching the zone-header pattern
(including the empty input and inputs of only unrecognised lines),
`TecplotFileLoader::read` fails with an error and returns no model: the error of an
integer row outside the first zone when the first numeric row is an integer row, and
`std::bad_optional_access` otherwise. -/
theorem read_without_header (stod_text : List Char → FloatTok) (lines : List (List Char))
    (h : ∀ l ∈ lines, regex_match l new_regex_zone = false) :
    (read_file stod_text lines = .error Error.integers_outside_first_zone ∨
      read_file stod_text lines = .error Error.bad_optional_access) ∧
    ∀ m, read_file stod_text lines ≠ .ok m := by
  have hr := read_no_header _ (headers_classify_nil stod_text lines h)
  refine ⟨hr, fun m hm => ?_⟩
  unfold read_file at hm
  rcases hr with e | e <;> rw [e] at hm <;> cases hm

set_option maxRecDepth 100000 in
/-- Witness for C34: the empty input, and the input made of an empty line and the line
`TITLE`. -/
theorem read_without_header_witness :
    read_file (fun _ => none) [] = .error Error.bad_optional_access ∧
    (∀ l ∈ [[], "TITLE".toList], regex_match l new_regex_zone = false) ∧
    (read_file (fun _ => none) [[], "TITLE".toList] =
        .error Error.integers_outside_first_zone ∨
      read_file (fun _ => none) [[], "TITLE".toList] = .error Error.bad_optional_access) ∧
    ∀ m, read_file (fun _ => none) [[], "TITLE".toList] ≠ .ok m :=
  ⟨rfl, by decide, read_without_header (fun _ => none) [[], "TITLE".toList] (by decide)⟩

/-! ## Error branches that are never taken -/

theorem foldlM_route_int_error (toks : List Nat) (h : History) (hE : h.E < 2 ^ 31) (e : Error)
    (he : toks.foldlM route_int h.curves = .error e) : e.isZoneGuard = false := by
  induction toks generalizing h with
  | nil => cases he
  | cons k ks ih =>
    rw [List.foldlM_cons, route_int_history h hE k] at he
    by_cases h1 : h.ints.length < 5 * h.E
    · rw [if_pos h1] at he
      by_cases h2 : k < 2 ^ 64
      · rw [if_pos h2] at he
        exact ih { h with ints := h.ints ++ [k] } hE he
      · rw [if_neg h2] at he
        cases he
        rfl
    · rw [if_neg h1] at he
      cases he
      rfl

theorem foldlM_route_float_error (toks : List FloatTok) (h : History) (e : Error)
    (he : toks.foldlM
      (fun c t => if h.done = [] then route_float_first c t else route_float_later c t)
      h.curves = .error e) : e.isZoneGuard = false := by
  induction toks generalizing h with
  | nil => cases he
  | cons t ts ih =>
    rw [List.foldlM_cons] at he
    have hr := route_float_history h t
    rw [hr] at he
    by_cases hc : h.cur.length < h.capacity
    · rw [if_pos hc] at he
      cases t with
      | none => cases he; rfl
      | some d => exact ih { h with cur := h.cur ++ [d] } he
    · rw [if_neg hc] at he
      cases he
      rfl

theorem process_line_error_initial (l : Line) (e : Error)
    (he : process_line ReaderState.initial l = .error e) : e.isZoneGuard = false := by
  cases l with
  | zone t n v =>
    have h1 : process_zone ReaderState.initial t n v = .error e := he
    rw [process_zone_initial] at h1
    split_ifs at h1 <;> cases h1 <;> rfl
  | intRow a as => rw [process_line_initial_int] at he; cases he; rfl
  | floatRow t ts => rw [process_line_initial_float] at he; cases he; rfl
  | other => cases he

theorem process_line_error_history (h : History) (hw : h.wf) (l : Line) (e : Error)
    (he : process_line h.state l = .error e) : e.isZoneGuard = false := by
  cases l with
  | zone t n v =>
    have h1 : process_zone h.state t n v = .error e := he
    rw [process_zone_history] at h1
    split_ifs at h1 <;> cases h1 <;> rfl
  | intRow a as =>
    have h1 : process_int_row h.state (a :: as) = .error e := he
    unfold process_int_row at h1
    split_ifs at h1 with hz
    · cases hf : (a :: as).foldlM route_int h.state.curves with
      | error e' =>
        rw [hf] at h1
        cases h1
        exact foldlM_route_int_error _ h hw.2.1 _ hf
      | ok c => rw [hf] at h1; cases h1
    · cases h1; rfl
  | floatRow t ts =>
    have h1 : process_float_row h.state (t :: ts) = .error e := he
    unfold process_float_row at h1
    by_cases hd : h.done = []
    · rw [if_pos ((History.zone_counter_eq_one h).2 hd)] at h1
      cases hf : (t :: ts).foldlM route_float_first h.state.curves with
      | error e' =>
        rw [hf] at h1
        cases h1
        refine foldlM_route_float_error (t :: ts) h _ ?_
        simp only [hd, if_true]
        exact hf
      | ok c => rw [hf] at h1; cases h1
    · rw [if_neg (fun hz => hd ((History.zone_counter_eq_one h).1 hz))] at h1
      cases hf : (t :: ts).foldlM route_float_later h.state.curves with
      | error e' =>
        rw [hf] at h1
        cases h1
        refine foldlM_route_float_error (t :: ts) h _ ?_
        simp only [hd, if_false]
        exact hf
      | ok c => rw [hf] at h1; cases h1
  | other => cases he

theorem process_line_reachable (s s' : ReaderState) (l : Line) (hs : s.reachable)
    (h : process_line s l = .ok s') : s'.reachable := by
  rcases hs with rfl | ⟨h0, hw, rfl⟩
  · cases l with
    | zone t n v =>
      have h1 : process_zone ReaderState.initial t n v = .ok s' := h
      rw [process_zone_initial] at h1
      split_ifs at h1 with hn hv
      cases h1
      exact Or.inr ⟨_, History.start_wf t n v hn hv, rfl⟩
    | intRow a as => rw [process_line_initial_int] at h; cases h
    | floatRow t ts => rw [process_line_initial_float] at h; cases h
    | other => cases h; exact Or.inl rfl
  · obtain ⟨h', hs', rfl⟩ := (process_line_history h0 hw l s').1 h
    exact Or.inr ⟨h', (History.step_wf h0 h' l hw hs').1, rfl⟩

theorem first_violated_some (xs : List (Bool × Error)) (e : Error)
    (h : first_violated xs = some e) : ∃ p ∈ xs, p.1 = false ∧ p.2 = e := by
  induction xs with
  | nil => cases h
  | cons x xs ih =>
    obtain ⟨ok, e'⟩ := x
    cases ok with
    | true =>
      obtain ⟨p, hp, h1, h2⟩ := ih (by simpa [first_violated] using h)
      exact ⟨p, List.mem_cons_of_mem _ hp, h1, h2⟩
    | false =>
      have : e' = e := by simpa [first_violated] using h
      exact ⟨(false, e'), List.mem_cons_self _ _, rfl, this⟩

theorem finish_error_history (h : History) (hw : h.wf) (e : Error)
    (he : finish h.curves = .error e) : e.isZoneGuard = false := by
  have hw4 : 4 * h.E < 2 ^ 64 := by have := hw.2.1; omega
  have hfo := finish_object_eq h.curves h.V h.E rfl rfl hw4
  cases hv : first_violated (final_checks h.curves h.V h.E) with
  | none =>
    obtain ⟨m, hm⟩ := finish_ok_of_checks h.curves h.V h.E rfl rfl hw4
      ((first_violated_eq_none _).1 hv)
    rw [hm] at he
    cases he
  | some e' =>
    rw [hv] at hfo
    have h1 : finish h.curves = .error e' := by
      unfold finish
      rw [hfo]
      rfl
    rw [h1] at he
    cases he
    obtain ⟨p, hp, hp1, hp2⟩ := first_violated_some _ _ hv
    have hz : h.zones.length = h.curves.zone_titles.length := by
      rw [History.zones_length]; exact hw.2.2.1.symm
    have lx : h.curves.mx.length = h.curves.zone_titles.length := by
      rw [History.curves_mx, History.comp_length]; exact hz
    have ly : h.curves.my.length = h.curves.zone_titles.length := by
      rw [History.curves_my, History.comp_length]; exact hz
    have lz : h.curves.mz.length = h.curves.zone_titles.length := by
      rw [History.curves_mz, History.comp_length]; exact hz
    subst hp2
    simp only [final_checks, List.cons_append, List.nil_append, List.mem_cons,
      List.mem_flatten, List.mem_map, List.mem_range] at hp
    rcases hp with rfl | rfl | rfl | rfl | rfl | rfl | rfl | rfl | ⟨l, ⟨i, _, rfl⟩, hp⟩
    · rfl
    · rfl
    · rfl
    · rfl
    · rfl
    · simp [lx] at hp1
    · simp [ly] at hp1
    · simp [lz] at hp1
    · simp only [zone_checks, List.mem_cons, List.mem_singleton, List.not_mem_nil,
        or_false] at hp
      rcases hp with rfl | rfl | rfl <;> rfl

theorem read_from_error (lines : List Line) (s : ReaderState) (hs : s.reachable) (e : Error)
    (he : (process_lines s lines >>= fun s' => finish s'.curves) = .error e) :
    e.isZoneGuard = false := by
  induction lines generalizing s with
  | nil =>
    have h1 : finish s.curves = .error e := he
    rcases hs with rfl | ⟨h, hw, rfl⟩
    · rw [show ReaderState.initial.curves = TecplotData.empty from rfl,
        finish_empty_error] at h1
      cases h1
      rfl
    · exact finish_error_history h hw e h1
  | cons l ls ih =>
    rw [process_lines_cons] at he
    cases hl : process_line s l with
    | error e' =>
      rw [hl] at he
      cases he
      rcases hs with rfl | ⟨h, hw, rfl⟩
      · exact process_line_error_initial l _ hl
      · exact process_line_error_history h hw l _ hl
    | ok s1 =>
      rw [hl] at he
      exact ih s1 (process_line_reachable s s1 l hs hl) he

/-- C36: on every input, `TecplotFileLoader::read` never raises the error `Parsing
subsequent zone, but no. of vertices/elements is not set.` and never raises
`MxZoneCountException`, `MyZoneCountException` or `MzZoneCountException`: those error
branches are never taken. -/
theorem read_unreachable_errors (stod_text : List Char → FloatTok) :
    (∀ lines : List Line,
      read lines ≠ .error Error.subsequent_zone_not_set ∧
      read lines ≠ .error Error.MxZoneCountException ∧
      read lines ≠ .error Error.MyZoneCountException ∧
      read lines ≠ .error Error.MzZoneCountException) ∧
    ∀ lines : List (List Char),
      read_file stod_text lines ≠ .error Error.subsequent_zone_not_set ∧
      read_file stod_text lines ≠ .error Error.MxZoneCountException ∧
      read_file stod_text lines ≠ .error Error.MyZoneCountException ∧
      read_file stod_text lines ≠ .error Error.MzZoneCountException := by
  have key : ∀ lines : List Line,
      read lines ≠ .error Error.subsequent_zone_not_set ∧
      read lines ≠ .error Error.MxZoneCountException ∧
      read lines ≠ .error Error.MyZoneCountException ∧
      read lines ≠ .error Error.MzZoneCountException := by
    intro lines
    have h := fun e => read_from_error lines ReaderState.initial (Or.inl rfl) e
    exact ⟨fun he => absurd (h _ he) (by decide), fun he => absurd (h _ he) (by decide),
      fun he => absurd (h _ he) (by decide), fun he => absurd (h _ he) (by decide)⟩
  exact ⟨key, fun lines => key _⟩

/-! ## The positions that the projections read -/

theorem validate_object_ok_counts (c : TecplotData) (h : c.validate_object = .ok ()) :
    ∃ V E Z, c.n_verts = some V ∧ c.n_elems = some E ∧ c.n_zones = some Z ∧
      V = c.x.length ∧ V = c.y.length ∧ V = c.z.length ∧
      4 * E % 2 ^ 64 = c.tetra_idxs.length ∧ E = c.tetra_submesh_idxs.length := by
  cases hV : c.n_verts with
  | none =>
    simp only [TecplotData.validate_object, hV, value, bind, Except.bind] at h
    cases h
  | some V =>
    cases hE : c.n_elems with
    | none =>
      simp only [TecplotData.validate_object, hV, hE, value, bind, Except.bind,
        bne_iff_ne, ne_eq, ite_not, pure, Except.pure, throw, throwThe,
        MonadExceptOf.throw] at h
      split_ifs at h
    | some E =>
      cases hZ : c.n_zones with
      | none =>
        simp only [TecplotData.validate_object, hV, hE, hZ, value, bind, Except.bind,
          bne_iff_ne, ne_eq, ite_not, pure, Except.pure, throw, throwThe,
          MonadExceptOf.throw] at h
        split_ifs at h
      | some Z =>
        simp only [TecplotData.validate_object, hV, hE, hZ, value, bind, Except.bind,
          bne_iff_ne, ne_eq, ite_not, pure, Except.pure, throw, throwThe,
          MonadExceptOf.throw] at h
        split_ifs at h with h1 h2 h3 h4 h5 h6 h7 h8
        exact ⟨V, E, Z, rfl, rfl, rfl, h1, h2, h3, h4, h5⟩

/-- C35: for every accumulator that passes `validate_object`, the projections read only
positions within the arrays: `get_verts` reads x, y and z below their length,
`get_submesh_idxs` reads the region-tag array below its length, `get_fields` reads mx,
my, mz and their component arrays below their length, and `get_elements` reads the
connectivity array below its length (the region-tag array, of 8-byte entries, fits the
64-bit address space, as every `std::vector` does); so every projection returns. -/
theorem projections_in_bounds (c : TecplotData) (hv : c.validate_object = .ok ()) :
    ∃ V E Z, c.n_verts = some V ∧ c.n_elems = some E ∧ c.n_zones = some Z ∧
      (∀ i, i < V → i < c.x.length ∧ i < c.y.length ∧ i < c.z.length) ∧
      (∀ i, i < E → i < c.tetra_submesh_idxs.length) ∧
      (∀ k, k < Z → ∃ ax ay az, c.mx[k]? = some ax ∧ c.my[k]? = some ay ∧
        c.mz[k]? = some az ∧ ∀ i, i < V → i < ax.length ∧ i < ay.length ∧ i < az.length) ∧
      (∃ vs, c.get_verts = .ok vs) ∧ (∃ ss, c.get_submesh_idxs = .ok ss) ∧
      (∃ fl, c.get_fields = .ok fl) ∧
      (8 * c.tetra_submesh_idxs.length < 2 ^ 64 →
        (∀ i, i < E → 4 * i + 3 < c.tetra_idxs.length) ∧ ∃ ts, c.get_elements = .ok ts) := by
  obtain ⟨V, E, Z, hV, hE, hZ, h1, h2, h3, h4, h5⟩ := validate_object_ok_counts c hv
  obtain ⟨lx, ly, lz, hl⟩ := validate_object_ok_lengths c V Z hV hZ hv
  refine ⟨V, E, Z, hV, hE, hZ, fun i hi => ⟨by omega, by omega, by omega⟩, fun i hi => by omega,
    fun k hk => ?_, get_verts_exists c V hV h1.symm h2.symm h3.symm,
    get_submesh_idxs_exists c E hE h5.symm, get_fields_exists c V Z hV hZ lx ly lz hl,
    fun hmem => ?_⟩
  · have kx : k < c.mx.length := by omega
    have ky : k < c.my.length := by omega
    have kz : k < c.mz.length := by omega
    obtain ⟨a1, a2, a3⟩ := hl k hk
    rw [List.getD_eq_getElem?_getD, List.getElem?_eq_getElem kx, Option.getD_some] at a1
    rw [List.getD_eq_getElem?_getD, List.getElem?_eq_getElem ky, Option.getD_some] at a2
    rw [List.getD_eq_getElem?_getD, List.getElem?_eq_getElem kz, Option.getD_some] at a3
    exact ⟨c.mx[k], c.my[k], c.mz[k], List.getElem?_eq_getElem kx,
      List.getElem?_eq_getElem ky, List.getElem?_eq_getElem kz,
      fun i hi => ⟨by omega, by omega, by omega⟩⟩
  · have h6 : c.tetra_idxs.length = 4 * E := by
      rw [← h4]
      exact Nat.mod_eq_of_lt (by omega)
    exact ⟨fun i hi => by omega, get_elements_exists c E hE h6⟩

/-- Witness for C35: a validated accumulator with one vertex, no element and two zones. -/
theorem projections_in_bounds_witness :
    example_validated.validate_object = .ok () ∧
    8 * example_validated.tetra_submesh_idxs.length < 2 ^ 64 ∧
    ∃ V E Z, example_validated.n_verts = some V ∧ example_validated.n_elems = some E ∧
      example_validated.n_zones = some Z ∧
      (∀ i, i < V → i < example_validated.x.length ∧ i < example_validated.y.length ∧
        i < example_validated.z.length) ∧
      (∀ i, i < E → i < example_validated.tetra_submesh_idxs.length) ∧
      (∀ k, k < Z → ∃ ax ay az, example_validated.mx[k]? = some ax ∧
        example_validated.my[k]? = some ay ∧ example_validated.mz[k]? = some az ∧
        ∀ i, i < V → i < ax.length ∧ i < ay.length ∧ i < az.length) ∧
      (∃ vs, example_validated.get_verts = .ok vs) ∧
      (∃ ss, example_validated.get_submesh_idxs = .ok ss) ∧
      (∃ fl, example_validated.get_fields = .ok fl) ∧
      (8 * example_validated.tetra_submesh_idxs.length < 2 ^ 64 →
        (∀ i, i < E → 4 * i + 3 < example_validated.tetra_idxs.length) ∧
        ∃ ts, example_validated.get_elements = .ok ts) :=
  ⟨rfl, by decide, projections_in_bounds example_validated rfl⟩

/-! ## Fractions -/

theorem gcd_loop_pos (fuel : Nat) (a b : Int) (ha : 0 < a) (hb : 0 < b)
    (hf : a.natAbs + b.natAbs ≤ fuel) : gcd_loop fuel a b = some (Int.gcd a b : Int) := by
  induction fuel generalizing a b with
  | zero => omega
  | succ fuel ih =>
    unfold gcd_loop
    by_cases hne : a = b
    · subst hne
      rw [if_neg (by simp)]
      congr 1
      rw [Int.gcd_self, Int.natCast_natAbs, abs_of_pos ha]
    · rw [if_pos hne]
      by_cases hgt : a > b
      · rw [if_pos hgt, ih (a - b) b (by omega) hb (by omega)]
        congr 2
        show Nat.gcd (a - b).natAbs b.natAbs = Nat.gcd a.natAbs b.natAbs
        have e : (a - b).natAbs = a.natAbs - b.natAbs := by omega
        rw [e]
        exact Nat.gcd_sub_self_left (by omega)
      · rw [if_neg hgt, ih a (b - a) ha (by omega) (by omega)]
        congr 2
        show Nat.gcd a.natAbs (b - a).natAbs = Nat.gcd a.natAbs b.natAbs
        have e : (b - a).natAbs = b.natAbs - a.natAbs := by omega
        rw [e]
        exact Nat.gcd_sub_self_right (by omega)

theorem Fraction.gcd_eq (fuel : Nat) (n d : Int) (hn : n ≠ 0) (hd : d ≠ 0)
    (hf : n.natAbs + d.natAbs ≤ fuel) : Fraction.gcd fuel n d = some (Int.gcd n d : Int) := by
  unfold Fraction.gcd
  simp only
  have h1 : (if n > 0 then n else -n) = (n.natAbs : Int) := by
    split_ifs <;> omega
  have h2 : (if d > 0 then d else -d) = (d.natAbs : Int) := by
    split_ifs <;> omega
  rw [h1, h2, gcd_loop_pos fuel _ _ (by omega) (by omega)
    (by rw [Int.natAbs_ofNat, Int.natAbs_ofNat]; exact hf)]
  rfl

/-- The fraction that every operator returns for the numerator `n` and the denominator
`d` it has computed. -/
theorem Fraction.reduce_spec (n d : Int) (hn : n ≠ 0) (hd : d ≠ 0) :
    let g : Int := (Int.gcd n d : Int)
    ((n.tdiv g : Int) : ℚ) / ((d.tdiv g : Int) : ℚ) = (n : ℚ) / (d : ℚ) ∧
      Int.gcd (n.tdiv g) (d.tdiv g) = 1 := by
  intro g
  have hg0 : g ≠ 0 := by
    have := Int.gcd_pos_of_ne_zero_left d hn
    show ((Int.gcd n d : Nat) : Int) ≠ 0
    omega
  obtain ⟨k1, hk1⟩ : g ∣ n := Int.gcd_dvd_left
  obtain ⟨k2, hk2⟩ : g ∣ d := Int.gcd_dvd_right
  have e1 : n.tdiv g = k1 := by rw [hk1]; exact Int.mul_tdiv_cancel_left k1 hg0
  have e2 : d.tdiv g = k2 := by rw [hk2]; exact Int.mul_tdiv_cancel_left k2 hg0
  have hk2' : k2 ≠ 0 := by
    rintro rfl
    rw [mul_zero] at hk2
    exact hd hk2
  rw [e1, e2]
  constructor
  · have hgq : (g : ℚ) ≠ 0 := by exact_mod_cast hg0
    have hkq : (k2 : ℚ) ≠ 0 := by exact_mod_cast hk2'
    rw [hk1, hk2]
    push_cast
    field_simp
    ring
  · have h := Int.gcd_mul_left g k1 k2
    rw [← hk1, ← hk2] at h
    have hg : (Int.gcd n d : Nat) = g.natAbs := by
      show Int.gcd n d = ((Int.gcd n d : Nat) : Int).natAbs
      simp
    rw [hg] at h
    have hpos : 0 < g.natAbs := Int.natAbs_pos.2 hg0
    have := Nat.eq_of_mul_eq_mul_left hpos (by rw [mul_one]; exact h.symm : g.natAbs * Int.gcd k1 k2 = g.natAbs * 1)
    exact this

theorem Fraction.reduced_result (fuel : Nat) (n d : Int) (hd : d ≠ 0)
    (hf : n.natAbs + d.natAbs ≤ fuel) :
    ∃ r : Fraction,
      (if n = 0 then some { numerator := 0, denominator := 1 }
        else (Fraction.gcd fuel n d).map
          (fun g => ({ numerator := n.tdiv g, denominator := d.tdiv g } : Fraction))) = some r ∧
      r.value = (n : ℚ) / (d : ℚ) ∧ Int.gcd r.numerator r.denominator = 1 ∧
      ((n : ℚ) / (d : ℚ) = 0 → r = { numerator := 0, denominator := 1 }) := by
  by_cases hn : n = 0
  · subst hn
    refine ⟨{ numerator := 0, denominator := 1 }, by rw [if_pos rfl], ?_, by decide, fun _ => rfl⟩
    simp [Fraction.value]
  · obtain ⟨h1, h2⟩ := Fraction.reduce_spec n d hn hd
    refine ⟨{ numerator := n.tdiv (Int.gcd n d : Int), denominator := d.tdiv (Int.gcd n d : Int) },
      by rw [if_neg hn, Fraction.gcd_eq fuel n d hn hd hf]; rfl, h1, h2, fun h0 => ?_⟩
    exfalso
    have hdq : (d : ℚ) ≠ 0 := by exact_mod_cast hd
    have hnq : (n : ℚ) ≠ 0 := by exact_mod_cast hn
    exact (div_ne_zero hnq hdq) h0

/-- C37: for all fractions `a` and `b` with nonzero denominators (exact integer
arithmetic), `a + b`, `a - b` and `a * b`, and `a / b` when the numerator of `b` is
nonzero, return (the loop of `gcd` ends) a fraction whose value equals the exact rational
result and whose numerator and denominator are coprime, a zero result being returned as
`0/1`. -/
theorem fraction_arithmetic (a b : Fraction) (ha : a.denominator ≠ 0)
    (hb : b.denominator ≠ 0) :
    ∃ N, ∀ fuel, N ≤ fuel →
      (∃ r, Fraction.add fuel a b = some r ∧ r.value = a.value + b.value ∧
        Int.gcd r.numerator r.denominator = 1 ∧
        (a.value + b.value = 0 → r = { numerator := 0, denominator := 1 })) ∧
      (∃ r, Fraction.sub fuel a b = some r ∧ r.value = a.value - b.value ∧
        Int.gcd r.numerator r.denominator = 1 ∧
        (a.value - b.value = 0 → r = { numerator := 0, denominator := 1 })) ∧
      (∃ r, Fraction.mul fuel a b = some r ∧ r.value = a.value * b.value ∧
        Int.gcd r.numerator r.denominator = 1 ∧
        (a.value * b.value = 0 → r = { numerator := 0, denominator := 1 })) ∧
      (b.numerator ≠ 0 →
        ∃ r, Fraction.div fuel a b = some r ∧ r.value = a.value / b.value ∧
          Int.gcd r.numerator r.denominator = 1 ∧
          (a.value / b.value = 0 → r = { numerator := 0, denominator := 1 })) := by
  obtain ⟨an, ad⟩ := a
  obtain ⟨bn, bd⟩ := b
  simp only at ha hb
  have haq : (ad : ℚ) ≠ 0 := by exact_mod_cast ha
  have hbq : (bd : ℚ) ≠ 0 := by exact_mod_cast hb
  refine ⟨(an * bd + ad * bn).natAbs + (an * bd - ad * bn).natAbs + (an * bn).natAbs +
    (an * bd).natAbs + (ad * bd).natAbs + (ad * bn).natAbs, fun fuel hf => ⟨?_, ?_, ?_, ?_⟩⟩
  · obtain ⟨r, h1, h2, h3, h4⟩ := Fraction.reduced_result fuel (an * bd + ad * bn) (ad * bd)
      (mul_ne_zero ha hb) (by omega)
    have e : ((an * bd + ad * bn : Int) : ℚ) / ((ad * bd : Int) : ℚ) =
        (an : ℚ) / ad + (bn : ℚ) / bd := by
      push_cast
      field_simp
      ring
    rw [e] at h2 h4
    exact ⟨r, h1, h2, h3, h4⟩
  · obtain ⟨r, h1, h2, h3, h4⟩ := Fraction.reduced_result fuel (an * bd - ad * bn) (ad * bd)
      (mul_ne_zero ha hb) (by omega)
    have e : ((an * bd - ad * bn : Int) : ℚ) / ((ad * bd : Int) : ℚ) =
        (an : ℚ) / ad - (bn : ℚ) / bd := by
      push_cast
      field_simp
    rw [e] at h2 h4
    exact ⟨r, h1, h2, h3, h4⟩
  · obtain ⟨r, h1, h2, h3, h4⟩ := Fraction.reduced_result fuel (an * bn) (ad * bd)
      (mul_ne_zero ha hb) (by omega)
    have e : ((an * bn : Int) : ℚ) / ((ad * bd : Int) : ℚ) =
        (an : ℚ) / ad * ((bn : ℚ) / bd) := by
      push_cast
      field_simp
    rw [e] at h2 h4
    exact ⟨r, h1, h2, h3, h4⟩
  · intro hbn
    have hbnq : (bn : ℚ) ≠ 0 := by exact_mod_cast hbn
    obtain ⟨r, h1, h2, h3, h4⟩ := Fraction.reduced_result fuel (an * bd) (ad * bn)
      (mul_ne_zero ha hbn) (by omega)
    have e : ((an * bd : Int) : ℚ) / ((ad * bn : Int) : ℚ) =
        (an : ℚ) / ad / ((bn : ℚ) / bd) := by
      push_cast
      field_simp
    rw [e] at h2 h4
    exact ⟨r, h1, h2, h3, h4⟩

/-- Witness for C37: the fractions 1 over 2 and 1 over -3; their sum is returned with
numerator -1 and denominator -6, and the sum of 1 over 2 and -1 over 2 as 0 over 1. -/
theorem fraction_arithmetic_witness :
    ({ numerator := 1, denominator := 2 } : Fraction).denominator ≠ 0 ∧
    ({ numerator := 1, denominator := -3 } : Fraction).denominator ≠ 0 ∧
    Fraction.add 10 { numerator := 1, denominator := 2 } { numerator := 1, denominator := -3 } =
      some { numerator := -1, denominator := -6 } ∧
    Fraction.add 10 { numerator := 1, denominator := 2 } { numerator := -1, denominator := 2 } =
      some { numerator := 0, denominator := 1 } ∧
    ∃ N, ∀ fuel, N ≤ fuel →
      (∃ r, Fraction.add fuel { numerator := 1, denominator := 2 }
          { numerator := 1, denominator := -3 } = some r ∧
        r.value = ({ numerator := 1, denominator := 2 } : Fraction).value +
          ({ numerator := 1, denominator := -3 } : Fraction).value ∧
        Int.gcd r.numerator r.denominator = 1 ∧
        (({ numerator := 1, denominator := 2 } : Fraction).value +
          ({ numerator := 1, denominator := -3 } : Fraction).value = 0 →
          r = { numerator := 0, denominator := 1 })) :=
  ⟨by decide, by decide, by decide, by decide,
    (fraction_arithmetic { numerator := 1, denominator := 2 }
      { numerator := 1, denominator := -3 } (by decide) (by decide)).imp
      (fun N h fuel hf => (h fuel hf).1)⟩

/-! ## Equality and hashing of fractions -/

/-- C38 fails on the code: the fractions with numerator 1, denominator 2 and with
numerator 2, denominator 4 are equal for `operator==`, which compares the cross products,
and `std::hash<Fraction>`, which combines the stored numerator and denominator, gives
them different hash values. -/
theorem fraction_hash_inconsistent :
    Fraction.eq { numerator := 1, denominator := 2 } { numerator := 2, denominator := 4 } = true ∧
    Fraction.hash { numerator := 1, denominator := 2 } = 175247769363 ∧
    Fraction.hash { numerator := 2, denominator := 4 } = 175247769424 ∧
    Fraction.hash { numerator := 1, denominator := 2 } ≠
      Fraction.hash { numerator := 2, denominator := 4 } := by
  decide

/-! ## Fractions from integer-valued numbers -/

theorem to_integer_intCast (z : Int) : to_integer (z : ℚ) = z := by
  unfold to_integer
  rw [Rat.num_intCast, Rat.den_intCast]
  exact Int.tdiv_one z

theorem Fraction.set_digits_zero (count : Nat) (int_power : Int) :
    Fraction.set_digits count 0 int_power 0 = 0 := by
  induction count generalizing int_power with
  | zero => rfl
  | succ k ih =>
    unfold Fraction.set_digits
    have e : to_integer (0 : ℚ) = 0 := to_integer_intCast 0
    simp only [zero_mul, e, Int.cast_zero, sub_zero, add_zero]
    exact ih _

theorem Fraction.set_integer (fuel : Nat) (z : Int) (max_precision : Nat) :
    Fraction.set fuel (z : ℚ) max_precision = some { numerator := |z|, denominator := 1 } := by
  have hv : (if (z : ℚ) < 0 then -1 * (z : ℚ) else (z : ℚ)) = ((|z| : Int) : ℚ) := by
    by_cases h : z < 0
    · have hq : (z : ℚ) < 0 := by exact_mod_cast h
      rw [if_pos hq, abs_of_neg h]
      push_cast
      ring
    · have hq : ¬ (z : ℚ) < 0 := by exact_mod_cast h
      rw [if_neg hq, abs_of_nonneg (not_lt.1 h)]
  unfold Fraction.set
  simp only [hv, to_integer_intCast, sub_self, Fraction.set_digits_zero, if_true]

/-- C39 fails on the code: for the integer-valued number `-3`, `Fraction(v)` stores the
numerator 3, not -3: with no fractional digit, `set` stores the integer part of the
absolute value and does not apply the sign; for every integer-valued `v` it stores the
numerator `|v|` and the denominator 1. -/
theorem fraction_of_negative_integer :
    Fraction.of_double 0 (-3) = some { numerator := 3, denominator := 1 } ∧
    sgn (-3) = -1 ∧
    ∀ (fuel : Nat) (z : Int),
      Fraction.of_double fuel (z : ℚ) = some { numerator := |z|, denominator := 1 } := by
  refine ⟨?_, ?_, fun fuel z => Fraction.set_integer fuel z 4⟩
  · have h := Fraction.set_integer 0 (-3) 4
    simpa [Fraction.of_double] using h
  · unfold sgn
    norm_num

end Tecplot
